import Mathlib

/-!
# Loopring relay: ring hashing, submit arguments and the order gateway

A shallow embedding of `types/ring.go` and `gateway/gateway.go`.

* Go byte strings (`[]byte`) are lists of bytes, a byte being a `Fin 256`.
* Go fixed-size arrays (`common.Hash`, `common.Address`, `types.Bytes32`) are
  byte lists that carry their length.
* `*big.Int` is `Int`, `*big.Rat` is `ℚ`, `uint8` is `Fin 256`, `int` is `Int`.
* A Go `error` is an `Option GoError`, `none` being `nil`.
* A run-time panic (index out of range) is the `none` of an outer `Option`.
* Logging calls have no effect on any value and are left out.
-/

namespace Relay

/-! ## Bytes -/

/-- A Go `byte` / `uint8`. -/
abbrev Byte := Fin 256

/-- A Go array `[n]byte`. -/
structure FixedBytes (n : Nat) where
  bytes : List Byte
  size_eq : bytes.length = n
deriving DecidableEq

/-- The zero value of `[n]byte`. -/
def FixedBytes.zero (n : Nat) : FixedBytes n := ⟨List.replicate n 0, by simp⟩

/-- The `Bytes()` method: the array as a byte string. -/
def FixedBytes.Bytes {n : Nat} (x : FixedBytes n) : List Byte := x.bytes

/-- The go-ethereum `SetBytes` on a fresh zero array: a longer input is cropped
from the left, a shorter one is placed at the right end. -/
def FixedBytes.SetBytes (n : Nat) (b : List Byte) : FixedBytes n :=
  ⟨List.replicate (n - b.length) 0 ++ b.drop (b.length - n), by
    simp only [List.length_append, List.length_replicate, List.length_drop]; omega⟩

/-- The type `common.Hash`. -/
abbrev common.Hash := FixedBytes 32

/-- The type `common.Address`. -/
abbrev common.Address := FixedBytes 20

/-- The type `types.Bytes32`. -/
abbrev Bytes32 := FixedBytes 32

/-- The function `common.BytesToHash`. -/
def common.BytesToHash (b : List Byte) : common.Hash := FixedBytes.SetBytes 32 b

/-- Modelled from the spec: `types.IsZeroHash` is not among the sources; the
hash is the zero hash when it equals the zero value of `common.Hash`. -/
def IsZeroHash (h : common.Hash) : Bool := decide (h = FixedBytes.zero 32)

/-- Modelled from the spec: `types.IsZeroAddress` is not among the sources; the
spec calls its argument the zero/empty address sentinel. -/
def IsZeroAddress (a : common.Address) : Bool := decide (a = FixedBytes.zero 20)

/-- Modelled from the spec: `types.Xor` is not among the sources; it is the
bytewise XOR of two byte strings (of equal length wherever it is called). -/
def Xor (bytes1 bytes2 : List Byte) : List Byte :=
  List.zipWith (fun x y => x ^^^ y) bytes1 bytes2

/-! ## Errors -/

/-- Go error values: one constructor per `fmt.Errorf` site of the gateway, and
`ext` for an error handed back by a collaborator (crypto, store, publisher). -/
inductive GoError where
  | ext (code : Nat)
  | orderExist (hash : common.Hash)
  | baseHashLength (hash : common.Hash)
  | baseTokenBLength (hash : common.Hash) (tokenB : common.Address)
  | baseTokenSLength (hash : common.Hash) (tokenS : common.Address)
  | baseTokenEqual (hash : common.Hash)
  | baseLrcFee (hash : common.Hash) (lrcFee : Int)
  | baseOwnerLength (hash : common.Hash) (owner : common.Address)
  | baseProtocolLength (hash : common.Hash) (owner : common.Address)
  | signNotMatch (owner addr : common.Address)
  | tokenNotAllowed (tokenS : common.Address)
  | tokenDenied (tokenS : common.Address)
deriving DecidableEq

/-! ## Orders and rings -/

/-- The fields of `types.Order` that the owner fixes and signs. -/
structure OrderFields where
  Protocol : common.Address
  TokenS : common.Address
  TokenB : common.Address
  AmountS : Int
  AmountB : Int
  Timestamp : Int
  Ttl : Int
  Salt : Int
  LrcFee : Int
  BuyNoMoreThanAmountB : Bool
  MarginSplitPercentage : Byte
  V : Byte
  R : Bytes32
  S : Bytes32
  Owner : common.Address
deriving DecidableEq

/-- The type `types.Order`: the signed fields and the two derived ones, the
price written by `GeneratePrice` (`none` is a nil `*big.Rat`) and the hash. -/
structure Order extends OrderFields where
  Price : Option ℚ
  Hash : common.Hash
deriving DecidableEq

/-- The type `types.OrderState`, with the fields the sources read or write. -/
structure OrderState where
  RawOrder : Order
  BroadcastTime : Int
deriving DecidableEq

/-- The type `types.FilledOrder`, with the fields the sources read. -/
structure FilledOrder where
  OrderState : OrderState
  RateAmountS : ℚ
  FeeSelection : Byte
deriving DecidableEq

/-- The type `types.Ring`. -/
structure Ring where
  Orders : List FilledOrder
  Miner : common.Address
  V : Byte
  R : Bytes32
  S : Bytes32
  Hash : common.Hash
  ReducedRate : ℚ
  LegalFee : ℚ
  FeeMode : Int
deriving DecidableEq

/-- The functions of the `crypto` package and of `types` that the sources call
and do not define: each is a parameter of the development. -/
structure Crypto where
  GenerateHash : List Byte → List Byte → List Byte → List Byte
  Sign : List Byte → common.Address → Except GoError (List Byte)
  SigToVRS : List Byte → Nat × List Byte × List Byte
  VRSToSig : Byte → List Byte → List Byte → List Byte
  SigToAddress : List Byte → List Byte → Except GoError (List Byte)
  BytesToBytes32 : List Byte → Bytes32
  orderDigest : OrderFields → common.Hash
  orderPrice : Order → Option ℚ

/-! ## `types/ring.go` -/

/-- One pass of the loop body of `Ring.GenerateHash`. -/
def Ring.hashStep (acc : List Byte × List Byte × List Byte) (it : Nat × FilledOrder) :
    List Byte × List Byte × List Byte :=
  if it.1 > 0 then
    (Xor acc.1 [it.2.OrderState.RawOrder.V],
     Xor acc.2.1 it.2.OrderState.RawOrder.R.Bytes,
     Xor acc.2.2 it.2.OrderState.RawOrder.S.Bytes)
  else acc

/-- The method `Ring.GenerateHash`; `none` is the index-out-of-range panic of
`ring.Orders[0]` on a ring without orders. -/
def Ring.GenerateHash (crypto : Crypto) (ring : Ring) : Option common.Hash :=
  match ring.Orders with
  | [] => none
  | first :: _ =>
    let vBytes : List Byte := [first.OrderState.RawOrder.V]
    let rBytes32 := first.OrderState.RawOrder.R.Bytes
    let sBytes32 := first.OrderState.RawOrder.S.Bytes
    let folded := ring.Orders.enum.foldl Ring.hashStep (vBytes, rBytes32, sBytes32)
    let hashBytes := crypto.GenerateHash folded.1 folded.2.1 folded.2.2
    some (common.BytesToHash hashBytes)

/-- The Go conversion `uint8(v)`. -/
def uint8 (v : Nat) : Byte := ⟨v % 256, Nat.mod_lt v (by decide)⟩

/-- The method `Ring.GenerateAndSetSignature`: the ring as the call leaves it and
the returned error; `none` is the panic of `GenerateHash`. -/
def Ring.GenerateAndSetSignature (crypto : Crypto) (ring : Ring)
    (signerAddr : common.Address) : Option (Ring × Option GoError) := do
  let ring ← if IsZeroHash ring.Hash then
      (ring.GenerateHash crypto).map (fun h => { ring with Hash := h })
    else some ring
  match crypto.Sign ring.Hash.Bytes signerAddr with
  | .error err => some (ring, some err)
  | .ok sig =>
    let vrs := crypto.SigToVRS sig
    some ({ ring with V := uint8 vrs.1,
                      R := crypto.BytesToBytes32 vrs.2.1,
                      S := crypto.BytesToBytes32 vrs.2.2 }, none)

/-- The method `Ring.SignerAddress`: the returned address and error; `none` is
the panic of `GenerateHash`. -/
def Ring.SignerAddress (crypto : Crypto) (ring : Ring) :
    Option (common.Address × Option GoError) := do
  let address : common.Address := FixedBytes.zero 20
  let hash ← if IsZeroHash ring.Hash then ring.GenerateHash crypto else some ring.Hash
  let sig := crypto.VRSToSig ring.V ring.R.Bytes ring.S.Bytes
  match crypto.SigToAddress hash.Bytes sig with
  | .error err => some (address, some err)
  | .ok addressBytes => some (FixedBytes.SetBytes 20 addressBytes, none)

/-- The type `RingSubmitInputs`; the Go arrays `[2]T` and `[7]T` are lists of
two and of seven entries. -/
structure RingSubmitInputs where
  AddressList : List (List common.Address)
  UintArgsList : List (List Int)
  Uint8ArgsList : List (List Byte)
  BuyNoMoreThanAmountBList : List Bool
  VList : List Byte
  RList : List Bytes32
  SList : List Bytes32
  Ringminer : common.Address
  FeeRecepient : common.Address
  ThrowIfLRCIsInsuffcient : Bool
deriving DecidableEq

/-- The function `emptyRingSubmitArgs`: empty lists, zero values elsewhere. -/
def emptyRingSubmitArgs : RingSubmitInputs :=
  { AddressList := [], UintArgsList := [], Uint8ArgsList := [],
    BuyNoMoreThanAmountBList := [], VList := [], RList := [], SList := [],
    Ringminer := FixedBytes.zero 20, FeeRecepient := FixedBytes.zero 20,
    ThrowIfLRCIsInsuffcient := false }

/-- The expression `new(big.Int).SetString(x.FloatString(0), 10)` of math/big:
`FloatString` prints an integral `x` as its numerator; otherwise it divides the
absolute numerator by the denominator, adds one to the quotient when twice the
remainder reaches the denominator, and puts the sign of `x` in front. -/
def floatString0 (x : ℚ) : Int :=
  if x.den = 1 then x.num
  else
    let q := x.num.natAbs / x.den
    let r2 := 2 * (x.num.natAbs % x.den)
    let q := if x.den ≤ r2 then q + 1 else q
    if x.num < 0 then -(q : Int) else (q : Int)

/-- One pass of the loop over `ring.Orders` in `Ring.GenerateSubmitArgs`. -/
def Ring.submitStep (ringSubmitArgs : RingSubmitInputs) (filledOrder : FilledOrder) :
    RingSubmitInputs :=
  let order := filledOrder.OrderState.RawOrder
  let rateAmountS := floatString0 filledOrder.RateAmountS
  { ringSubmitArgs with
    AddressList := ringSubmitArgs.AddressList ++ [[order.Owner, order.TokenS]]
    UintArgsList := ringSubmitArgs.UintArgsList ++
      [[order.AmountS, order.AmountB, order.Timestamp, order.Ttl, order.Salt, order.LrcFee,
        rateAmountS]]
    Uint8ArgsList := ringSubmitArgs.Uint8ArgsList ++
      [[order.MarginSplitPercentage, filledOrder.FeeSelection]]
    BuyNoMoreThanAmountBList :=
      ringSubmitArgs.BuyNoMoreThanAmountBList ++ [order.BuyNoMoreThanAmountB]
    VList := ringSubmitArgs.VList ++ [order.V]
    RList := ringSubmitArgs.RList ++ [order.R]
    SList := ringSubmitArgs.SList ++ [order.S] }

/-- The method `Ring.GenerateSubmitArgs`: the ring as the call leaves it and the
returned inputs; `none` is the panic of `GenerateHash`. -/
def Ring.GenerateSubmitArgs (crypto : Crypto) (ring : Ring)
    (miner feeReceipt : common.Address) : Option (Ring × RingSubmitInputs) := do
  let ringSubmitArgs := ring.Orders.foldl Ring.submitStep emptyRingSubmitArgs
  let signed ← ring.GenerateAndSetSignature crypto miner
  let ring := signed.1
  let ringSubmitArgs :=
    match signed.2 with
    | some _ => ringSubmitArgs
    | none =>
      { ringSubmitArgs with
        VList := ringSubmitArgs.VList ++ [ring.V]
        RList := ringSubmitArgs.RList ++ [ring.R]
        SList := ringSubmitArgs.SList ++ [ring.S] }
  let recovered ← ring.SignerAddress crypto
  let ringminer := recovered.1
  let ringSubmitArgs := { ringSubmitArgs with Ringminer := ringminer }
  let ringSubmitArgs :=
    if IsZeroAddress feeReceipt then { ringSubmitArgs with FeeRecepient := ringminer }
    else { ringSubmitArgs with FeeRecepient := feeReceipt }
  some (ring, ringSubmitArgs)

/-! ## `types.Order` methods called by the gateway -/

/-- Modelled from the spec: `Order.GenerateHash` is not among the sources; the
spec makes the hash a canonical digest over the immutable fields of the order. -/
def Order.GenerateHash (crypto : Crypto) (o : Order) : common.Hash :=
  crypto.orderDigest o.toOrderFields

/-- The method `Order.GeneratePrice`, whose body is not among the sources.
`HandleOrder` calls it for its effect on the order alone (it returns nothing): it
is taken to store a price, computed from the order by a parameter, in the price
field of the order. -/
def Order.GeneratePrice (crypto : Crypto) (o : Order) : Order :=
  { o with Price := crypto.orderPrice o }

/-- Modelled from the spec: `Order.SignerAddress` is not among the sources; the
spec recovers the address from (hash, v, r, s), as `Ring.SignerAddress` does. -/
def Order.SignerAddress (crypto : Crypto) (o : Order) : common.Address × Option GoError :=
  let address : common.Address := FixedBytes.zero 20
  let sig := crypto.VRSToSig o.V o.R.Bytes o.S.Bytes
  match crypto.SigToAddress o.Hash.Bytes sig with
  | .error err => (address, some err)
  | .ok addressBytes => (FixedBytes.SetBytes 20 addressBytes, none)

/-! ## `gateway/gateway.go` -/

/-- A Go `map[common.Address]bool`: the value stored under each key, if any. -/
abbrev AddressMap := common.Address → Option Bool

/-- The expression `make(map[common.Address]bool)`. -/
def AddressMap.empty : AddressMap := fun _ => none

/-- The assignment `m[k] = v`. -/
def AddressMap.set (m : AddressMap) (k : common.Address) (v : Bool) : AddressMap :=
  fun a => if a = k then some v else m a

/-- The statement `delete(m, k)`. -/
def AddressMap.delete (m : AddressMap) (k : common.Address) : AddressMap :=
  fun a => if a = k then none else m a

/-- The comma-ok lookup `_, ok := m[k]`. -/
def AddressMap.ok (m : AddressMap) (k : common.Address) : Bool := (m k).isSome

/-- The method `x.Cmp(y)` of `big.Int`. -/
def bigCmp (x y : Int) : Int := if x < y then -1 else if x = y then 0 else 1

/-- The type `BaseFilter`. -/
structure BaseFilter where
  MinLrcFee : Int

/-- The type `SignFilter`. -/
structure SignFilter where

/-- The type `TokenFilter`. -/
structure TokenFilter where
  AllowTokens : AddressMap
  DeniedTokens : AddressMap

/-- The method `BaseFilter.filter`; `len` of an array is the length it carries. -/
def BaseFilter.filter (f : BaseFilter) (o : Order) : Bool × Option GoError :=
  let addrLength := 20
  let hashLength := 32
  if o.Hash.bytes.length ≠ hashLength then
    (false, some (.baseHashLength o.Hash))
  else if o.TokenB.bytes.length ≠ addrLength then
    (false, some (.baseTokenBLength o.Hash o.TokenB))
  else if o.TokenS.bytes.length ≠ addrLength then
    (false, some (.baseTokenSLength o.Hash o.TokenS))
  else if o.TokenB = o.TokenS then
    (false, some (.baseTokenEqual o.Hash))
  else if bigCmp f.MinLrcFee o.LrcFee ≥ 0 then
    (false, some (.baseLrcFee o.Hash o.LrcFee))
  else if o.Owner.bytes.length ≠ addrLength then
    (false, some (.baseOwnerLength o.Hash o.Owner))
  else if o.Protocol.bytes.length ≠ addrLength then
    (false, some (.baseProtocolLength o.Hash o.Owner))
  else (true, none)

/-- The method `SignFilter.filter`: the order as the call leaves it (its hash is
assigned anew) and the returned pair. -/
def SignFilter.filter (crypto : Crypto) (_f : SignFilter) (o : Order) :
    Order × Bool × Option GoError :=
  let o := { o with Hash := o.GenerateHash crypto }
  match o.SignerAddress crypto with
  | (_, some err) => (o, false, some err)
  | (addr, none) =>
    if addr ≠ o.Owner then (o, false, some (.signNotMatch o.Owner addr))
    else (o, true, none)

/-- The method `TokenFilter.filter`. -/
def TokenFilter.filter (f : TokenFilter) (o : Order) : Bool × Option GoError :=
  if !f.AllowTokens.ok o.TokenS then
    (false, some (.tokenNotAllowed o.TokenS))
  else if f.DeniedTokens.ok o.TokenS then
    (false, some (.tokenDenied o.TokenS))
  else (true, none)

/-- The interface `Filter`, with its three implementations. -/
inductive Filter where
  | base (f : BaseFilter)
  | sign (f : SignFilter)
  | token (f : TokenFilter)

/-- The interface method `Filter.filter`: the order as the call leaves it and
the returned pair. -/
def Filter.filter (crypto : Crypto) : Filter → Order → Order × Bool × Option GoError
  | .base f, o => (o, f.filter o)
  | .sign f, o => f.filter crypto o
  | .token f, o => (o, f.filter o)

/-- The interface `ordermanager.OrderManager` over a store of type `σ`, with the
two methods the gateway calls. -/
structure OrderManager (σ : Type) where
  GetOrderByHash : σ → common.Hash → Except GoError OrderState
  UpdateBroadcastTimeByHash : σ → common.Hash → Int → σ

/-- The interface `IPFSPubService`. -/
structure IPFSPubService where
  PublishOrder : Order → Option GoError

/-- The topics of the event emitter that the gateway names. -/
inductive Topic where
  | Gateway
  | OrderManagerGatewayNewOrder
deriving DecidableEq

/-- The package `eventemitter`, which is not among the sources: what the
watchers of a topic do to the store when an event is emitted. -/
structure EventEmitter (σ : Type) where
  Emit : σ → Topic → OrderState → σ

/-- The type `Gateway`, the type of the package variable `gateway`. -/
structure Gateway (σ : Type) where
  filters : List Filter
  om : OrderManager σ
  isBroadcast : Bool
  maxBroadcastTime : Int
  ipfsPubService : IPFSPubService

/-- What the gateway acts on: the order store, the events emitted so far, the
goroutines started by `broadcast` (each with the state it captured) and the
publish attempts made so far. -/
structure World (σ : Type) where
  store : σ
  emitted : List (Topic × OrderState)
  spawned : List OrderState
  published : List Order

/-- An entry of `util.AllTokens`, with the fields `Initialize` reads. -/
structure Token where
  Protocol : common.Address
  Deny : Bool

/-- One pass of the loop over `util.AllTokens` in `Initialize`. -/
def Initialize.tokenStep (tokenFilter : TokenFilter) (v : Token) : TokenFilter :=
  if v.Deny then
    { tokenFilter with DeniedTokens := tokenFilter.DeniedTokens.set v.Protocol true }
  else
    { tokenFilter with AllowTokens := tokenFilter.AllowTokens.set v.Protocol true }

/-- The function `Initialize`: the value it assigns to `gateway`. The options
are passed field by field; registering the watcher is left to the emitter. -/
def Initialize {σ : Type} (MinLrcFee : Int) (IsBroadcast : Bool) (MaxBroadcastTime : Int)
    (ipfs : IPFSPubService) (om : OrderManager σ) (AllTokens : List Token) : Gateway σ :=
  let gateway : Gateway σ :=
    { filters := [], om := om, isBroadcast := IsBroadcast,
      maxBroadcastTime := MaxBroadcastTime, ipfsPubService := ipfs }
  let baseFilter : BaseFilter := { MinLrcFee := MinLrcFee }
  let tokenFilter : TokenFilter :=
    AllTokens.foldl Initialize.tokenStep
      { AllowTokens := AddressMap.empty, DeniedTokens := AddressMap.empty }
  let signFilter : SignFilter := {}
  let gateway := { gateway with filters := gateway.filters ++ [Filter.base baseFilter] }
  let gateway := { gateway with filters := gateway.filters ++ [Filter.sign signFilter] }
  let gateway := { gateway with filters := gateway.filters ++ [Filter.token tokenFilter] }
  gateway

/-- Go `int` addition, which wraps around at 64 bits. -/
def intAdd (x y : Int) : Int := (x + y + 2 ^ 63) % 2 ^ 64 - 2 ^ 63

/-- The body of the goroutine started by `Gateway.broadcast`. -/
def Gateway.broadcastTask {σ : Type} (gateway : Gateway σ) (w : World σ)
    (state : OrderState) : World σ :=
  let pubErr := gateway.ipfsPubService.PublishOrder state.RawOrder
  let w := { w with published := w.published ++ [state.RawOrder] }
  match pubErr with
  | some _ => w
  | none =>
    let store := gateway.om.UpdateBroadcastTimeByHash w.store state.RawOrder.Hash
      (intAdd state.BroadcastTime 1)
    { w with store := store }

/-- The method `Gateway.broadcast`: it starts the goroutine and returns. -/
def Gateway.broadcast {σ : Type} (gateway : Gateway σ) (w : World σ)
    (state : OrderState) : World σ :=
  if gateway.isBroadcast && decide (state.BroadcastTime < gateway.maxBroadcastTime) then
    { w with spawned := w.spawned ++ [state] }
  else w

/-- The loop over `gateway.filters` in `HandleOrder`: the order as the filters
leave it, and `some err` when a filter was not valid and `err` is returned. -/
def runFilters (crypto : Crypto) : List Filter → Order → Order × Option (Option GoError)
  | [], order => (order, none)
  | v :: rest, order =>
    let res := v.filter crypto order
    if !res.2.1 then (res.1, some res.2.2)
    else runFilters crypto rest res.1

/-- The function `HandleOrder`: the returned error, the order as the call leaves
it, and the world after the call. -/
def HandleOrder {σ : Type} (crypto : Crypto) (emitter : EventEmitter σ)
    (gateway : Gateway σ) (w : World σ) (input : Order) :
    Option GoError × Order × World σ :=
  let order := { input with Hash := input.GenerateHash crypto }
  match gateway.om.GetOrderByHash w.store order.Hash with
  | .error _ =>
    let order := order.GeneratePrice crypto
    match runFilters crypto gateway.filters order with
    | (order, some err) => (err, order, w)
    | (order, none) =>
      let state : OrderState := { RawOrder := order, BroadcastTime := 0 }
      let w := { w with
        store := emitter.Emit w.store Topic.OrderManagerGatewayNewOrder state
        emitted := w.emitted ++ [(Topic.OrderManagerGatewayNewOrder, state)] }
      (none, order, gateway.broadcast w state)
  | .ok _ => (some (.orderExist order.Hash), order, w)

/-! ## `extractor/db.go` -/

/-- The type `types.Hash` of the extractor. -/
abbrev types.Hash := FixedBytes 32

/-- The Go conversion `[]byte(s)` of a string of ASCII characters. -/
def goBytes (s : String) : List Byte := s.toList.map (fun c => uint8 c.toNat)

/-- The constant `LATEST_BLOCK_NUM`. -/
def LATEST_BLOCK_NUM : String := "latestBlockNumber"

/-- The constant `BLOCK_HASH_TABLE_NAME`. -/
def BLOCK_HASH_TABLE_NAME : String := "block_hash_table"

/-- The constant `TRANSACTION_HASH_TABLE_NAME`. -/
def TRANSACTION_HASH_TABLE_NAME : String := "transaction_hash_table"

/-- The interface `db.Database` over a store of type `σ`, with the two methods
the extractor calls: a write gives the store after it and its error, a read gives
the value or its error. -/
structure Database (σ : Type) where
  Put : σ → List Byte → List Byte → σ × Option GoError
  Get : σ → List Byte → Except GoError (List Byte)

/-- Modelled from the spec: `db.NewTable` is not among the sources; the spec makes
a table a logical namespace of the one store: its keys are the keys of the store
that start with the name of the table. -/
def NewTable {σ : Type} (database : Database σ) (name : String) : Database σ :=
  { Put := fun s key value => database.Put s (goBytes name ++ key) value
    Get := fun s key => database.Get s (goBytes name ++ key) }

/-- The type `config.CommonOptions`, with the field the extractor reads. -/
structure CommonOptions where
  DefaultBlockNumber : Int

/-- The type `Rds`. -/
structure Rds (σ : Type) where
  db : Database σ
  blockhashTable : Database σ
  txhashTable : Database σ
  options : CommonOptions

/-- The type `BlockIndex`. -/
structure BlockIndex where
  Number : Int
  Hash : types.Hash
  ParentHash : types.Hash
deriving DecidableEq

/-- The type `TransactionIndex`. -/
structure TransactionIndex where
  Txs : List types.Hash
deriving DecidableEq

/-- The type `ethch.BlockWithTxObject`, with the fields the extractor reads; the
number is the value that `Number.BigInt()` gives. -/
structure BlockWithTxObject where
  Number : Int
  Hash : types.Hash
  ParentHash : types.Hash
deriving DecidableEq

/-- The encodings that the extractor calls and the sources do not define: the
generated `MarshalJSON` and `UnmarshalJSON` of `BlockIndex`, `MarshalText` (which
returns no error) and `UnmarshalText` of `big.Int`, and `json.Marshal` and
`json.Unmarshal` on a `TransactionIndex`. Each is a parameter. -/
structure Codec where
  MarshalJSON : BlockIndex → Except GoError (List Byte)
  UnmarshalJSON : List Byte → Except GoError BlockIndex
  MarshalText : Int → List Byte
  UnmarshalText : List Byte → Except GoError Int
  jsonMarshal : TransactionIndex → Except GoError (List Byte)
  jsonUnmarshal : List Byte → Except GoError TransactionIndex

/-- The function `NewRds`. -/
def NewRds {σ : Type} (database : Database σ) (options : CommonOptions) : Rds σ :=
  { db := database
    blockhashTable := NewTable database BLOCK_HASH_TABLE_NAME
    txhashTable := NewTable database TRANSACTION_HASH_TABLE_NAME
    options := options }

/-- The function `createBlockIndex`. -/
def createBlockIndex (block : BlockWithTxObject) : BlockIndex :=
  { Number := block.Number, Hash := block.Hash, ParentHash := block.ParentHash }

/-- The function `blockNumberToBytes`. -/
def blockNumberToBytes (codec : Codec) (bi : BlockIndex) : List Byte × Option GoError :=
  (codec.MarshalText bi.Number, none)

/-- The function `bytesToBlockNumber`. -/
def bytesToBlockNumber (codec : Codec) (bs : List Byte) : Except GoError Int :=
  match codec.UnmarshalText bs with
  | .error err => .error err
  | .ok n => .ok n

/-- The method `Rds.SaveBlockNumber`. -/
def Rds.SaveBlockNumber {σ : Type} (codec : Codec) (r : Rds σ) (s : σ) (bi : BlockIndex) :
    σ × Option GoError :=
  match blockNumberToBytes codec bi with
  | (_, some err) => (s, some err)
  | (value, none) => r.db.Put s (goBytes LATEST_BLOCK_NUM) value

/-- The method `Rds.GetBlockNumber`. -/
def Rds.GetBlockNumber {σ : Type} (codec : Codec) (r : Rds σ) (s : σ) : Except GoError Int :=
  match r.db.Get s (goBytes LATEST_BLOCK_NUM) with
  | .error err => .error err
  | .ok bs => bytesToBlockNumber codec bs

/-- The method `Rds.SaveBlockIndex`. -/
def Rds.SaveBlockIndex {σ : Type} (codec : Codec) (r : Rds σ) (s : σ) (bi : BlockIndex) :
    σ × Option GoError :=
  let key := bi.Hash.Bytes
  match codec.MarshalJSON bi with
  | .error err => (s, some err)
  | .ok value => r.blockhashTable.Put s key value

/-- The method `Rds.GetBlockIndex`. -/
def Rds.GetBlockIndex {σ : Type} (codec : Codec) (r : Rds σ) (s : σ) (key : types.Hash) :
    Except GoError BlockIndex :=
  match r.blockhashTable.Get s key.Bytes with
  | .error err => .error err
  | .ok bs =>
    match codec.UnmarshalJSON bs with
    | .error err => .error err
    | .ok ret => .ok ret

/-- The method `Rds.SaveBlock`. The comparison of the new number with the
previous one guards a logging call only. -/
def Rds.SaveBlock {σ : Type} (codec : Codec) (r : Rds σ) (s : σ) (block : BlockWithTxObject) :
    σ × Option GoError :=
  let bi := createBlockIndex block
  let prevBlockNum :=
    match r.GetBlockNumber codec s with
    | .error _ => r.options.DefaultBlockNumber
    | .ok n => n
  let _logged := decide (bigCmp bi.Number prevBlockNum < 1)
  match r.SaveBlockNumber codec s bi with
  | (s, some err) => (s, some err)
  | (s, none) =>
    match r.SaveBlockIndex codec s bi with
    | (s, some err) => (s, some err)
    | (s, none) => (s, none)

/-- The method `Rds.SaveTransactions`. -/
def Rds.SaveTransactions {σ : Type} (codec : Codec) (r : Rds σ) (s : σ)
    (blockhash : types.Hash) (txhashs : List types.Hash) : σ × Option GoError :=
  let txindex : TransactionIndex := { Txs := txhashs }
  match codec.jsonMarshal txindex with
  | .error err => (s, some err)
  | .ok bs => r.txhashTable.Put s blockhash.Bytes bs

/-- The method `Rds.GetTransactions`: the returned index (`none` is nil) and the
error. -/
def Rds.GetTransactions {σ : Type} (codec : Codec) (r : Rds σ) (s : σ)
    (blockhash : types.Hash) : Option TransactionIndex × Option GoError :=
  let txindex : TransactionIndex := { Txs := [] }
  match r.txhashTable.Get s blockhash.Bytes with
  | .error err => (some txindex, some err)
  | .ok bs =>
    match codec.jsonUnmarshal bs with
    | .error err => (none, some err)
    | .ok txindex => (some txindex, none)

/-- The loop over `txindex.Txs` in `Rds.FindTransaction`. -/
def Rds.FindTransaction.loop (txhash : types.Hash) : List types.Hash → Bool × Option GoError
  | [] => (false, none)
  | v :: rest => if v = txhash then (true, none) else Rds.FindTransaction.loop txhash rest

/-- The method `Rds.FindTransaction`. -/
def Rds.FindTransaction {σ : Type} (codec : Codec) (r : Rds σ) (s : σ)
    (blockhash txhash : types.Hash) : Bool × Option GoError :=
  match r.txhashTable.Get s blockhash.Bytes with
  | .error err => (false, some err)
  | .ok bs =>
    match codec.jsonUnmarshal bs with
    | .error err => (false, some err)
    | .ok txindex => Rds.FindTransaction.loop txhash txindex.Txs

/-! ## `chainclient/eth/contract.go` -/

/-- The type `types.Address` of the chain client. -/
abbrev types.Address := FixedBytes 20

/-- The method `IsZero` of `types.Address`, which is not among the sources: the
address is the zero value of its type. -/
def types.Address.IsZero (a : types.Address) : Bool := decide (a = FixedBytes.zero 20)

/-- Go error values of the chain client: the two `errors.New` sites of
`SendTransactionWithSpecificGas`, and `ext` for an error handed back by the ABI
encoder or by the node client. -/
inductive EthError where
  | gasPriceMustBeSetted
  | gasMustBeSetted
  | ext (code : Nat)
deriving DecidableEq

/-- One hexadecimal digit, in lower case. -/
def hexDigit (n : Nat) : Char := if n < 10 then Char.ofNat (48 + n) else Char.ofNat (87 + n)

/-- The go-ethereum function `common.Bytes2Hex`: two digits per byte. -/
def common.Bytes2Hex (b : List Byte) : String :=
  String.mk (b.flatMap (fun x => [hexDigit (x.val / 16), hexDigit (x.val % 16)]))

/-- The go-ethereum function `common.ToHex`: the digits after `0x`, a single
zero digit for the empty byte string. -/
def common.ToHex (b : List Byte) : String :=
  let hex := common.Bytes2Hex b
  "0x" ++ (if hex.length = 0 then "0" else hex)

/-- The type `CallArg`, which is not among the sources, with the fields that
`contract.go` assigns; a numeric field left unassigned is `none`. -/
structure CallArg where
  From : types.Address
  To : types.Address
  Gas : Option Int
  GasPrice : Option Int
  Value : Option Int
  Data : String
  Nonce : Option Int
deriving DecidableEq

/-- The value `&CallArg{}`. -/
def CallArg.zero : CallArg :=
  { From := FixedBytes.zero 20, To := FixedBytes.zero 20, Gas := none, GasPrice := none,
    Value := none, Data := "", Nonce := none }

/-- The value that `ethTypes.NewTransaction` builds from its six arguments. -/
structure Transaction where
  nonce : Nat
  recipient : common.Address
  amount : Int
  gasLimit : Int
  gasPrice : Int
  data : List Byte
deriving DecidableEq

/-- The function `ethTypes.NewTransaction`; its argument `to` is the recipient. -/
def NewTransaction (nonce : Nat) (recipient : common.Address) (amount gasLimit gasPrice : Int)
    (data : List Byte) : Transaction :=
  { nonce := nonce, recipient := recipient, amount := amount, gasLimit := gasLimit,
    gasPrice := gasPrice, data := data }

/-- The method `Uint64` of `types.Big`: the low 64 bits of the absolute value. -/
def Big.Uint64 (n : Int) : Nat := n.natAbs % 2 ^ 64

/-- A request of the node client, one constructor per client method that
`AbiMethod` calls. The address of `GetTransactionCount` stands for its hex text. -/
inductive Request where
  | Call (arg : CallArg) (blockParameter : String)
  | GasPrice
  | EstimateGas (arg : CallArg)
  | GetTransactionCount (address : types.Address) (blockParameter : String)
  | SignAndSendTransaction (fromAddr : types.Address) (transaction : Transaction)
  | SendTransaction (arg : CallArg)
deriving DecidableEq

/-- The type `EthClient`, which is not among the sources: the keys of its
`senders` map in the order a `range` visits them, and what each method answers in
a node state `σ`, with the node state after it. `ρ` is the type of call results. -/
structure EthClient (σ ρ : Type) where
  senders : List types.Address
  Call : σ → CallArg → String → σ × Except EthError ρ
  GasPrice : σ → σ × Except EthError Int
  EstimateGas : σ → CallArg → σ × Except EthError Int
  GetTransactionCount : σ → types.Address → String → σ × Except EthError Int
  SignAndSendTransaction : σ → types.Address → Transaction → σ × String × Option EthError
  SendTransaction : σ → CallArg → σ × String × Option EthError

/-- The node as the client sees it: its state and the requests made so far. -/
structure Node (σ : Type) where
  state : σ
  requests : List Request

/-- A call of a client method: the request is recorded and the node answers. -/
def Node.ask {σ β : Type} (n : Node σ) (req : Request) (answer : σ → σ × β) : Node σ × β :=
  ({ state := (answer n.state).1, requests := n.requests ++ [req] }, (answer n.state).2)

/-- The type `abi.ABI`, with the method `Pack` on argument lists of type `α`. -/
structure ABI (α : Type) where
  Pack : String → α → Except EthError (List Byte)

/-- The type `AbiMethod`; `Name` is the name of the embedded `abi.Method`. -/
structure AbiMethod (α σ ρ : Type) where
  Name : String
  Abi : ABI α
  ContractAddress : types.Address
  Client : EthClient σ ρ

/-- The method `AbiMethod.Call`. -/
def AbiMethod.Call {α σ ρ : Type} (m : AbiMethod α σ ρ) (n : Node σ)
    (blockParameter : String) (args : α) : Node σ × Except EthError ρ :=
  match m.Abi.Pack m.Name args with
  | .error err => (n, .error err)
  | .ok dataBytes =>
    let data := common.ToHex dataBytes
    let arg : CallArg :=
      { CallArg.zero with From := m.ContractAddress, To := m.ContractAddress, Data := data }
    n.ask (.Call arg blockParameter) (fun s => m.Client.Call s arg blockParameter)

/-- The method `AbiMethod.doSendTransaction`, on non-nil `gas` and `gasPrice`. The
conversion of the contract address through its hex text gives the same address. -/
def AbiMethod.doSendTransaction {α σ ρ : Type} (m : AbiMethod α σ ρ) (n : Node σ)
    (fromAddr : types.Address) (gas gasPrice : Int) (data : List Byte) :
    Node σ × String × Option EthError :=
  match n.ask (.GetTransactionCount fromAddr "pending")
      (fun s => m.Client.GetTransactionCount s fromAddr "pending") with
  | (n, .error err) => (n, "", some err)
  | (n, .ok nonce) =>
    if fromAddr ∈ m.Client.senders then
      let transaction := NewTransaction (Big.Uint64 nonce) m.ContractAddress 0 gas gasPrice data
      n.ask (.SignAndSendTransaction fromAddr transaction)
        (fun s => m.Client.SignAndSendTransaction s fromAddr transaction)
    else
      let args : CallArg :=
        { From := fromAddr, To := m.ContractAddress, Gas := some gas,
          GasPrice := some gasPrice, Value := some 0, Data := common.ToHex data,
          Nonce := some nonce }
      n.ask (.SendTransaction args) (fun s => m.Client.SendTransaction s args)

/-- The method `AbiMethod.SendTransaction`. -/
def AbiMethod.SendTransaction {α σ ρ : Type} (m : AbiMethod α σ ρ) (n : Node σ)
    (fromAddr : types.Address) (args : α) : Node σ × String × Option EthError :=
  let fromAddr :=
    if types.Address.IsZero fromAddr then
      match m.Client.senders with
      | address :: _ => address
      | [] => fromAddr
    else fromAddr
  match m.Abi.Pack m.Name args with
  | .error err => (n, "", some err)
  | .ok dataBytes =>
    match n.ask .GasPrice m.Client.GasPrice with
    | (n, .error err) => (n, "", some err)
    | (n, .ok gasPrice) =>
      let callArg : CallArg :=
        { CallArg.zero with
          From := fromAddr, To := m.ContractAddress, Data := common.ToHex dataBytes,
          GasPrice := some gasPrice }
      match n.ask (.EstimateGas callArg) (fun s => m.Client.EstimateGas s callArg) with
      | (n, .error err) => (n, "", some err)
      | (n, .ok gas) => m.doSendTransaction n fromAddr gas gasPrice dataBytes

/-- The method `AbiMethod.SendTransactionWithSpecificGas`; a nil `gas` or
`gasPrice` is `none`. -/
def AbiMethod.SendTransactionWithSpecificGas {α σ ρ : Type} (m : AbiMethod α σ ρ)
    (n : Node σ) (fromAddr : types.Address) (gas gasPrice : Option Int) (args : α) :
    Node σ × String × Option EthError :=
  match m.Abi.Pack m.Name args with
  | .error err => (n, "", some err)
  | .ok dataBytes =>
    match gasPrice with
    | none => (n, "", some .gasPriceMustBeSetted)
    | some gasPriceInt =>
      if bigCmp gasPriceInt 0 ≤ 0 then (n, "", some .gasPriceMustBeSetted)
      else
        match gas with
        | none => (n, "", some .gasMustBeSetted)
        | some gasInt =>
          if bigCmp gasInt 0 ≤ 0 then (n, "", some .gasMustBeSetted)
          else m.doSendTransaction n fromAddr gasInt gasPriceInt dataBytes

/-! ### `AbiEvent.Subscribe` -/

/-- The fields of the type `FilterQuery` (declared outside the sources) that
`Subscribe` sets; the topic list it builds is not stored in the query. -/
structure FilterQuery where
  Address : List types.Address
  FromBlock : String
  ToBlock : String

/-- The fields of the type `Log` (declared outside the sources) that `Subscribe`
reads. -/
structure Log where
  Data : String
  Topics : List String

/-- The requests that `Subscribe` makes to the node. -/
inductive FilterRequest where
  | NewFilter (filterReq : FilterQuery)
  | GetFilterChanges (filterId : String)
  | UninstallFilter (filterId : String)

/-- The filter methods of `EthClient`, on a node state of type `σ`. `NewFilter`
gives the node state, `filterId` as the call leaves it, and the error;
`UninstallFilter` is called for its effect only. -/
structure FilterClient (σ : Type) where
  NewFilter : σ → FilterQuery → σ × String × Option EthError
  GetFilterChanges : σ → String → σ × Except EthError (List Log)
  UninstallFilter : σ → String → σ

/-- The package `hexutil` of go-ethereum: `MustDecode` of a hex text, `none` being
its panic on a text that is not hex. -/
structure Hexutil where
  MustDecode : String → Option (List Byte)

/-- The type `AbiEvent` with events decoded to values of type `ε`. `Id` is the id
of the embedded `abi.Event` and `Unpack` the method `AbiEvent.Unpack` (its
`UnpackEvent` is not among the sources): from the event value it is given, the
data and the topics, the event value as the call leaves it and the error. -/
structure AbiEvent (σ ε : Type) where
  Id : String
  ContractAddress : types.Address
  Client : FilterClient σ
  Unpack : ε → List Byte → List String → ε × Option EthError

/-- What `Subscribe` acts on: the node state, the requests made so far and the
values sent on `eventChan` so far. -/
structure Subscription (σ ε : Type) where
  state : σ
  requests : List FilterRequest
  sent : List ε

/-- The loop over the logs of a batch in `Subscribe`, from the current event value
and the values sent so far: the values sent after it, and whether `MustDecode`
panicked. An error of `Unpack` is logged and `break` leaves the loop. -/
def AbiEvent.Subscribe.forward {σ ε : Type} (hexutil : Hexutil) (e : AbiEvent σ ε) :
    List Log → ε → List ε → List ε × Bool
  | [], _, sent => (sent, false)
  | log1 :: rest, event, sent =>
    match hexutil.MustDecode log1.Data with
    | none => (sent, true)
    | some data =>
      match e.Unpack event data log1.Topics with
      | (_, some _) => (sent, false)
      | (event, none) => AbiEvent.Subscribe.forward hexutil e rest event (sent ++ [event])

/-- One pass of the `for` loop of `Subscribe`, run at a tick of the timer, with
`zero` the new value of the element type of `eventChan`: the subscription after
it, and whether `MustDecode` panicked. An error of `GetFilterChanges` is logged
and `break` leaves the `select`. -/
def AbiEvent.Subscribe.tick {σ ε : Type} (hexutil : Hexutil) (e : AbiEvent σ ε) (zero : ε)
    (filterId : String) (p : Subscription σ ε) : Subscription σ ε × Bool :=
  let event := zero
  match e.Client.GetFilterChanges p.state filterId with
  | (s, .error _) =>
    ({ p with state := s, requests := p.requests ++ [.GetFilterChanges filterId] }, false)
  | (s, .ok logs) =>
    let out := AbiEvent.Subscribe.forward hexutil e logs event p.sent
    ({ state := s, requests := p.requests ++ [.GetFilterChanges filterId], sent := out.1 },
      out.2)

/-- The `for` loop of `Subscribe` over the given number of ticks: the loop has no
exit, so it ends before them only with a panic (flag true). -/
def AbiEvent.Subscribe.loop {σ ε : Type} (hexutil : Hexutil) (e : AbiEvent σ ε) (zero : ε)
    (filterId : String) : Nat → Subscription σ ε → Subscription σ ε × Bool
  | 0, p => (p, false)
  | ticks + 1, p =>
    match AbiEvent.Subscribe.tick hexutil e zero filterId p with
    | (p, true) => (p, true)
    | (p, false) => AbiEvent.Subscribe.loop hexutil e zero filterId ticks p

/-- How a run of `Subscribe` stands after a number of ticks: it returned (the
filter could not be installed), it panicked, or it is still polling. -/
inductive SubscribeEnd where
  | returned
  | panicked
  | polling
  deriving DecidableEq

/-- The deferred function of `Subscribe`, which uninstalls the filter. -/
def AbiEvent.Subscribe.deferred {σ ε : Type} (e : AbiEvent σ ε) (filterId : String)
    (p : Subscription σ ε) : Subscription σ ε :=
  { p with state := e.Client.UninstallFilter p.state filterId,
           requests := p.requests ++ [.UninstallFilter filterId] }

/-- The method `AbiEvent.Subscribe`, followed over the given number of ticks of
its timer. -/
def AbiEvent.Subscribe {σ ε : Type} (hexutil : Hexutil) (e : AbiEvent σ ε) (zero : ε)
    (p : Subscription σ ε) (fromBlock toBlock : String) (ticks : Nat) :
    Subscription σ ε × SubscribeEnd :=
  let filterReq : FilterQuery :=
    { Address := [e.ContractAddress], FromBlock := fromBlock, ToBlock := toBlock }
  match e.Client.NewFilter p.state filterReq with
  | (s, filterId, some _) =>
    (AbiEvent.Subscribe.deferred e filterId
      { p with state := s, requests := p.requests ++ [.NewFilter filterReq] }, .returned)
  | (s, filterId, none) =>
    match AbiEvent.Subscribe.loop hexutil e zero filterId ticks
        { p with state := s, requests := p.requests ++ [.NewFilter filterReq] } with
    | (p, true) => (AbiEvent.Subscribe.deferred e filterId p, .panicked)
    | (p, false) => (p, .polling)

/-! ## `gateway/jsonrpc.go` -/

/-- The method `JsonrpcServiceImpl.SubmitOrder`: the returned error, the text
written to `res`, the order as the call leaves it, and the world after the call. -/
def SubmitOrder {σ : Type} (crypto : Crypto) (emitter : EventEmitter σ)
    (gateway : Gateway σ) (w : World σ) (order : Order) :
    Option GoError × String × Order × World σ :=
  let handled := HandleOrder crypto emitter gateway w order
  let res := "SUBMIT_SUCCESS"
  (none, res, handled.2.1, handled.2.2)

/-! ## Definitions used to state the properties -/

/-- The signature components of a filled order as byte strings. -/
def sigBytes (o : FilledOrder) : List Byte × List Byte × List Byte :=
  ([o.OrderState.RawOrder.V], o.OrderState.RawOrder.R.Bytes, o.OrderState.RawOrder.S.Bytes)

/-- Componentwise XOR of two triples of byte strings. -/
def xor3 (a b : List Byte × List Byte × List Byte) : List Byte × List Byte × List Byte :=
  (Xor a.1 b.1, Xor a.2.1 b.2.1, Xor a.2.2 b.2.2)

/-- The XOR of the signature components of all orders of a list, starting from
the all-zero strings of one, 32 and 32 bytes. -/
def xorFold (orders : List FilledOrder) : List Byte × List Byte × List Byte :=
  orders.foldl (fun acc o => xor3 acc (sigBytes o))
    ([0], List.replicate 32 0, List.replicate 32 0)

/-- The hash that `GenerateAndSetSignature` signs and `SignerAddress` recovers
from: the stored one unless it is zero, else the generated one. -/
def Ring.hashInUse (crypto : Crypto) (ring : Ring) : Option common.Hash :=
  if IsZeroHash ring.Hash then ring.GenerateHash crypto else some ring.Hash

/-- Rounding to the nearest integer, halves away from zero, in the words of the
documentation of `FloatString`. -/
def roundHalfAway (x : ℚ) : Int :=
  if 0 ≤ x then ⌊x + 1 / 2⌋ else -⌊-x + 1 / 2⌋

/-- The ring as `GenerateAndSetSignature` leaves it when it signs the hash `h`. -/
def Ring.signedWith (crypto : Crypto) (ring : Ring) (h : common.Hash)
    (signerAddr : common.Address) : Ring × Option GoError :=
  match crypto.Sign h.Bytes signerAddr with
  | .error err => ({ ring with Hash := h }, some err)
  | .ok sig =>
    ({ ring with Hash := h, V := uint8 (crypto.SigToVRS sig).1,
                 R := crypto.BytesToBytes32 (crypto.SigToVRS sig).2.1,
                 S := crypto.BytesToBytes32 (crypto.SigToVRS sig).2.2 }, none)

/-- The submit inputs after the loop over the orders of a ring. -/
def Ring.orderArgs (ring : Ring) : RingSubmitInputs :=
  ring.Orders.foldl Ring.submitStep emptyRingSubmitArgs

/-- The order as `HandleOrder` holds it when the filters start: the hash is
assigned, then the price. -/
def preparedOrder (crypto : Crypto) (input : Order) : Order :=
  Order.GeneratePrice crypto { input with Hash := input.GenerateHash crypto }

/-- The token filter that `Initialize` builds from the token list. -/
def initTokenFilter (AllTokens : List Token) : TokenFilter :=
  AllTokens.foldl Initialize.tokenStep
    { AllowTokens := AddressMap.empty, DeniedTokens := AddressMap.empty }

/-! ## Sample data for the concrete checks -/

/-- An address made of twenty copies of one byte. -/
def sampleAddress (b : Byte) : common.Address := ⟨List.replicate 20 b, by simp⟩

/-- A 32-byte value made of thirty-two copies of one byte. -/
def sampleWord (b : Byte) : FixedBytes 32 := ⟨List.replicate 32 b, by simp⟩

/-- A toy stand-in for the crypto package: a signature is the address of the signer
padded to 32 bytes, the signed hash, and the byte 27; the zero address has no
key; recovery checks the hash and reads the address back. -/
def sampleCrypto : Crypto :=
  { GenerateHash := fun v r s => v ++ (Xor r s).drop 1
    Sign := fun hash signer =>
      if signer = FixedBytes.zero 20 then .error (.ext 1)
      else .ok (signer.bytes ++ List.replicate 12 0 ++ hash ++ [27])
    SigToVRS := fun sig => (((sig.drop 64).headD 0).val, sig.take 32, (sig.drop 32).take 32)
    VRSToSig := fun v r s => r ++ s ++ [v]
    SigToAddress := fun hash sig =>
      if (sig.drop 32).take 32 = hash then .ok (sig.take 20) else .error (.ext 2)
    BytesToBytes32 := FixedBytes.SetBytes 32
    orderDigest := fun f =>
      FixedBytes.SetBytes 32 (f.Owner.bytes ++ f.TokenS.bytes.take 6 ++ f.TokenB.bytes.take 6)
    orderPrice := fun o => some (Rat.divInt o.AmountS o.AmountB) }

/-- The signed fields of a sample order, with a signature of `signer` in the toy
scheme over the digest of the fields. -/
def sampleFields (owner signer tokenS tokenB : Byte) (lrcFee : Int) : OrderFields :=
  { Protocol := sampleAddress 9, TokenS := sampleAddress tokenS, TokenB := sampleAddress tokenB,
    AmountS := 100, AmountB := 40, Timestamp := 1500000000, Ttl := 3600, Salt := 7,
    LrcFee := lrcFee, BuyNoMoreThanAmountB := false, MarginSplitPercentage := 50,
    V := 27,
    R := FixedBytes.SetBytes 32 (List.replicate 20 signer ++ List.replicate 12 0),
    S := FixedBytes.SetBytes 32
      (List.replicate 20 owner ++ List.replicate 6 tokenS ++ List.replicate 6 tokenB),
    Owner := sampleAddress owner }

/-- A sample order as submitted: no price, zero hash. -/
def sampleOrder (owner signer tokenS tokenB : Byte) (lrcFee : Int) : Order :=
  { toOrderFields := sampleFields owner signer tokenS tokenB lrcFee,
    Price := none, Hash := FixedBytes.zero 32 }

/-- A sample filled order with the given signature bytes and rate. -/
def sampleFilled (v r s : Byte) (rate : ℚ) : FilledOrder :=
  { OrderState :=
      { RawOrder :=
          { toOrderFields :=
              { sampleFields 5 5 1 2 5 with V := v, R := sampleWord r, S := sampleWord s },
            Price := none, Hash := FixedBytes.zero 32 },
        BroadcastTime := 0 },
    RateAmountS := rate, FeeSelection := 1 }

/-- A sample ring over the given orders, not yet hashed or signed. -/
def sampleRing (orders : List FilledOrder) : Ring :=
  { Orders := orders, Miner := sampleAddress 8, V := 0, R := FixedBytes.zero 32,
    S := FixedBytes.zero 32, Hash := FixedBytes.zero 32, ReducedRate := 0, LegalFee := 0,
    FeeMode := 0 }

/-- A sample ring of two orders with rates 7/2 and -5/2. -/
def sampleRing2 : Ring :=
  sampleRing [sampleFilled 27 1 2 ⟨7, 2, by decide, by decide⟩,
    sampleFilled 28 3 4 ⟨-5, 2, by decide, by decide⟩]

/-- A sample order manager: the store is the list of the order states it holds. -/
def sampleOM : OrderManager (List OrderState) :=
  { GetOrderByHash := fun store hash =>
      match store.find? (fun st => decide (st.RawOrder.Hash = hash)) with
      | some st => .ok st
      | none => .error (.ext 404)
    UpdateBroadcastTimeByHash := fun store hash n =>
      store.map (fun st => if st.RawOrder.Hash = hash then { st with BroadcastTime := n } else st) }

/-- A sample emitter: the watcher of new orders appends the state to the store. -/
def sampleEmitter : EventEmitter (List OrderState) :=
  { Emit := fun store topic st =>
      if topic = Topic.OrderManagerGatewayNewOrder then store ++ [st] else store }

/-- A sample token list: tokens 1 and 2 allowed, token 3 denied. -/
def sampleTokens : List Token :=
  [{ Protocol := sampleAddress 1, Deny := false }, { Protocol := sampleAddress 2, Deny := false },
   { Protocol := sampleAddress 3, Deny := true }]

/-- A sample publisher, whose publishing always succeeds. -/
def samplePub : IPFSPubService := { PublishOrder := fun _ => none }

/-- A sample gateway: minimum fee 1, broadcasting on, at most 3 broadcasts. -/
def sampleGateway : Gateway (List OrderState) :=
  Initialize 1 true 3 samplePub sampleOM sampleTokens

/-- A sample world: empty store, nothing emitted, started or published. -/
def sampleWorld : World (List OrderState) :=
  { store := [], emitted := [], spawned := [], published := [] }

/-- The sample world after a first, accepted ingest of the sample order and the
run of the broadcast goroutine that it started. -/
def sampleWorldAfter : World (List OrderState) :=
  sampleGateway.broadcastTask
    (HandleOrder sampleCrypto sampleEmitter sampleGateway sampleWorld (sampleOrder 5 5 1 2 5)).2.2
    { RawOrder := preparedOrder sampleCrypto (sampleOrder 5 5 1 2 5), BroadcastTime := 0 }

/-! ## Definitions used to state the properties of the extractor and client -/

/-- What a key-value store does: a write that succeeded is read back, and it
leaves the values under the other keys as they were. -/
def Database.Lawful {σ : Type} (database : Database σ) : Prop :=
  ∀ (s : σ) (key value : List Byte) (s2 : σ), database.Put s key value = (s2, none) →
    database.Get s2 key = .ok value
    ∧ ∀ key2 : List Byte, key2 ≠ key → database.Get s2 key2 = database.Get s key2

/-- The test of `Gateway.broadcast`: broadcasting is on and the counter of the
state is below the maximum. -/
def Gateway.mayBroadcast {σ : Type} (gateway : Gateway σ) (state : OrderState) : Prop :=
  gateway.isBroadcast = true ∧ state.BroadcastTime < gateway.maxBroadcastTime

/-- The logs of a list all decode, each from the event value left by the one
before it: the values they decode to, in order, and `none` when the data of a
log is not hex or its `Unpack` fails. -/
def AbiEvent.decodeAll {σ ε : Type} (hexutil : Hexutil) (e : AbiEvent σ ε) :
    ε → List Log → Option (List ε)
  | _, [] => some []
  | event, log1 :: rest =>
    match hexutil.MustDecode log1.Data with
    | none => none
    | some data =>
      match e.Unpack event data log1.Topics with
      | (_, some _) => none
      | (event, none) => (AbiEvent.decodeAll hexutil e event rest).map (fun vs => event :: vs)

/-! ## Sample data for the extractor and the client -/

/-- A sample store: the value under each key, if any; its writes succeed. -/
def sampleDb : Database (List Byte → Option (List Byte)) :=
  { Put := fun s key value => (fun k => if k = key then some value else s k, none)
    Get := fun s key =>
      match s key with
      | some value => .ok value
      | none => .error (.ext 404) }

/-- The decimal digits of a byte string as a number. -/
def sampleDigits (ds : List Byte) : Nat := ds.foldl (fun acc b => acc * 10 + (b.val - 48)) 0

/-- A toy stand-in for the encodings: decimal text for numbers, the two hashes
followed by the number for a header, the hashes one after another for a
transaction index. -/
def sampleCodec : Codec :=
  { MarshalText := fun n =>
      (if n < 0 then [45] else []) ++ (Nat.toDigits 10 n.natAbs).map (fun c => uint8 c.toNat)
    UnmarshalText := fun bs =>
      match bs with
      | [] => .error (.ext 3)
      | b :: ds => if b = 45 then .ok (-(sampleDigits ds : Int)) else .ok (sampleDigits (b :: ds))
    MarshalJSON := fun bi =>
      .ok (bi.Hash.bytes ++ bi.ParentHash.bytes ++ (Nat.toDigits 10 bi.Number.natAbs).map
        (fun c => uint8 c.toNat))
    UnmarshalJSON := fun bs =>
      if bs.length < 65 then .error (.ext 4)
      else .ok { Number := sampleDigits (bs.drop 64), Hash := FixedBytes.SetBytes 32 (bs.take 32),
                 ParentHash := FixedBytes.SetBytes 32 ((bs.drop 32).take 32) }
    jsonMarshal := fun txindex => .ok (txindex.Txs.flatMap (fun h => h.bytes))
    jsonUnmarshal := fun bs =>
      if bs.length % 32 = 0 then
        .ok { Txs := (List.range (bs.length / 32)).map
                (fun i => FixedBytes.SetBytes 32 ((bs.drop (32 * i)).take 32)) }
      else .error (.ext 5) }

/-- A sample store handle with default block number 0. -/
def sampleRds : Rds (List Byte → Option (List Byte)) :=
  NewRds sampleDb { DefaultBlockNumber := 0 }

/-- A sample block with the given number, whose hash and parent hash are made of
copies of one byte each. -/
def sampleBlock (number : Int) (hash parent : Byte) : BlockWithTxObject :=
  { Number := number, Hash := sampleWord hash, ParentHash := sampleWord parent }

/-- A sample ABI on lists of numbers: it packs at most two arguments, one byte
each. -/
def sampleAbi : ABI (List Nat) :=
  { Pack := fun _ args => if args.length ≤ 2 then .ok (args.map uint8) else .error (.ext 7) }

/-- A sample client whose node state counts the transactions sent: address 7 is
a local sender, the gas price is 20, the estimate 21000, the pending count of an
address is the node state, and address 6 has no count. -/
def sampleClient : EthClient Nat Nat :=
  { senders := [sampleAddress 7]
    Call := fun s _ _ => (s, .ok s)
    GasPrice := fun s => (s, .ok 20)
    EstimateGas := fun s _ => (s, .ok 21000)
    GetTransactionCount := fun s address _ =>
      if address = sampleAddress 6 then (s, .error (.ext 8)) else (s, .ok s)
    SignAndSendTransaction := fun s _ _ => (s + 1, "0xlocal", none)
    SendTransaction := fun s _ => (s + 1, "0xremote", none) }

/-- A sample method bound to the contract at address 9. -/
def sampleMethod : AbiMethod (List Nat) Nat Nat :=
  { Name := "submitRing", Abi := sampleAbi, ContractAddress := sampleAddress 9,
    Client := sampleClient }

/-- A sample node in state 3 with no request made. -/
def sampleNode : Node Nat := { state := 3, requests := [] }

/-- A sample hex decoder: a text of fewer than two characters is not hex, and any
other text decodes to the bytes after its first two characters. -/
def sampleHexutil : Hexutil :=
  { MustDecode := fun s => if s.length < 2 then none else some ((goBytes s).drop 2) }

/-- A sample filter client whose node state counts the polls: the first poll
fails, the second returns three logs of which the middle one has no topics, and
every later poll returns two logs. -/
def sampleFilterClient : FilterClient Nat :=
  { NewFilter := fun s _ => (s, "0xf1", none)
    GetFilterChanges := fun s _ =>
      if s = 0 then (s + 1, .error (.ext 5))
      else if s = 1 then
        (s + 1, .ok [{ Data := "0x1", Topics := ["t"] }, { Data := "0x2", Topics := [] },
          { Data := "0x3", Topics := ["t"] }])
      else (s + 1, .ok [{ Data := "0x1", Topics := ["t"] }, { Data := "0x3", Topics := ["t"] }])
    UninstallFilter := fun s _ => s }

/-- A sample event, decoded to the data bytes; a log without topics does not
decode. -/
def sampleEvent : AbiEvent Nat (List Byte) :=
  { Id := "0xe1", ContractAddress := sampleAddress 9, Client := sampleFilterClient
    Unpack := fun event data topics =>
      if topics.isEmpty then (event, some (.ext 9)) else (data, none) }

/-- A sample subscription at the given poll count, with nothing requested or sent. -/
def sampleSubscription (polls : Nat) : Subscription Nat (List Byte) :=
  { state := polls, requests := [], sent := [] }

/-! ## Bytewise XOR -/

theorem byte_xor_val (a b : Byte) : (a ^^^ b).val = a.val ^^^ b.val := by
  show (Nat.xor a.val b.val) % 256 = _
  apply Nat.mod_eq_of_lt
  exact Nat.xor_lt_two_pow (n := 8) a.isLt b.isLt

theorem byte_xor_comm (a b : Byte) : a ^^^ b = b ^^^ a := by
  apply Fin.ext; rw [byte_xor_val, byte_xor_val, Nat.xor_comm]

theorem byte_xor_assoc (a b c : Byte) : a ^^^ b ^^^ c = a ^^^ (b ^^^ c) := by
  apply Fin.ext; simp only [byte_xor_val, Nat.xor_assoc]

theorem byte_xor_self (a : Byte) : a ^^^ a = 0 := by
  apply Fin.ext; rw [byte_xor_val, Nat.xor_self]; rfl

theorem byte_zero_xor (a : Byte) : 0 ^^^ a = a := by
  apply Fin.ext; rw [byte_xor_val]; simp

theorem Xor_comm (a b : List Byte) : Xor a b = Xor b a := by
  unfold Xor
  rw [List.zipWith_comm]
  congr 1
  funext x y
  exact byte_xor_comm y x

theorem Xor_assoc (a b c : List Byte) : Xor (Xor a b) c = Xor a (Xor b c) := by
  unfold Xor
  induction a generalizing b c with
  | nil => simp
  | cons x a ih =>
    cases b with
    | nil => simp
    | cons y b =>
      cases c with
      | nil => simp
      | cons z c => simp [byte_xor_assoc, ih]

theorem Xor_zero_left (a : List Byte) : Xor (List.replicate a.length 0) a = a := by
  unfold Xor
  induction a with
  | nil => simp
  | cons x a ih => simp [List.replicate_succ, byte_zero_xor, ih]

theorem Xor_self (a : List Byte) : Xor a a = List.replicate a.length 0 := by
  unfold Xor
  induction a with
  | nil => simp
  | cons x a ih => simp [List.replicate_succ, byte_xor_self, ih]

/-! ## The ring hash as a fold -/

theorem xor3_right_comm (a b c : List Byte × List Byte × List Byte) :
    xor3 (xor3 a b) c = xor3 (xor3 a c) b := by
  simp only [xor3, Xor_assoc, Xor_comm b.1, Xor_comm b.2.1, Xor_comm b.2.2]

theorem xor3_zero_sigBytes (o : FilledOrder) :
    xor3 ([0], List.replicate 32 0, List.replicate 32 0) (sigBytes o) = sigBytes o := by
  have hR := Xor_zero_left o.OrderState.RawOrder.R.bytes
  have hS := Xor_zero_left o.OrderState.RawOrder.S.bytes
  rw [o.OrderState.RawOrder.R.size_eq] at hR
  rw [o.OrderState.RawOrder.S.size_eq] at hS
  have hV := Xor_zero_left [o.OrderState.RawOrder.V]
  simp only [xor3, sigBytes, FixedBytes.Bytes, hR, hS]
  simpa using hV

theorem foldl_hashStep_enumFrom (l : List FilledOrder) (k : Nat)
    (acc : List Byte × List Byte × List Byte) :
    (l.enumFrom (k + 1)).foldl Ring.hashStep acc
      = l.foldl (fun acc o => xor3 acc (sigBytes o)) acc := by
  induction l generalizing k acc with
  | nil => rfl
  | cons o l ih =>
    simp only [List.enumFrom_cons, List.foldl_cons]
    rw [ih]
    have hstep : Ring.hashStep acc (k + 1, o) = xor3 acc (sigBytes o) := by
      simp [Ring.hashStep, xor3, sigBytes]
    rw [hstep]

theorem GenerateHash_cons (crypto : Crypto) (ring : Ring) (first : FilledOrder)
    (rest : List FilledOrder) (h : ring.Orders = first :: rest) :
    ring.GenerateHash crypto =
      some (common.BytesToHash (crypto.GenerateHash (xorFold ring.Orders).1
        (xorFold ring.Orders).2.1 (xorFold ring.Orders).2.2)) := by
  have hfold : ring.Orders.enum.foldl Ring.hashStep (sigBytes first) = xorFold ring.Orders := by
    rw [h, List.enum, List.enumFrom_cons, List.foldl_cons]
    rw [foldl_hashStep_enumFrom]
    simp only [xorFold, List.foldl_cons, xor3_zero_sigBytes]
    rfl
  unfold Ring.GenerateHash
  rw [← hfold]
  rw [h]
  rfl

theorem xorFold_perm {l l2 : List FilledOrder} (hp : l.Perm l2) : xorFold l = xorFold l2 := by
  unfold xorFold
  haveI : RightCommutative (fun (acc : List Byte × List Byte × List Byte) (o : FilledOrder) =>
      xor3 acc (sigBytes o)) := ⟨fun a b c => xor3_right_comm a (sigBytes b) (sigBytes c)⟩
  exact hp.foldl_eq _

/-- C1: for every non-empty list of filled orders and every permutation of it,
`Ring.GenerateHash` returns a hash for the ring built from the list, and the same
hash for the ring built from the permuted list. -/
theorem GenerateHash_perm_invariant (crypto : Crypto) (ring : Ring)
    (l l2 : List FilledOrder) (hne : l ≠ []) (hp : l.Perm l2) :
    Ring.GenerateHash crypto { ring with Orders := l }
      = Ring.GenerateHash crypto { ring with Orders := l2 }
    ∧ (Ring.GenerateHash crypto { ring with Orders := l }).isSome = true := by
  obtain ⟨a, r, rfl⟩ := List.exists_cons_of_ne_nil hne
  have hne2 : l2 ≠ [] := by
    intro h0; rw [h0] at hp; exact hne (List.perm_nil.mp hp)
  obtain ⟨b, r2, rfl⟩ := List.exists_cons_of_ne_nil hne2
  rw [GenerateHash_cons crypto _ a r rfl, GenerateHash_cons crypto _ b r2 rfl]
  simp only [xorFold_perm hp, Option.isSome_some, and_self]

/-- Witness of C1: a ring of two sample orders and the ring of the two swapped. -/
theorem GenerateHash_perm_invariant_witness :
    [sampleFilled 27 1 2 0, sampleFilled 28 3 4 0] ≠ []
    ∧ List.Perm [sampleFilled 27 1 2 0, sampleFilled 28 3 4 0]
        [sampleFilled 28 3 4 0, sampleFilled 27 1 2 0]
    ∧ (Ring.GenerateHash sampleCrypto
          { sampleRing [] with Orders := [sampleFilled 27 1 2 0, sampleFilled 28 3 4 0] }
        = Ring.GenerateHash sampleCrypto
          { sampleRing [] with Orders := [sampleFilled 28 3 4 0, sampleFilled 27 1 2 0] }
      ∧ (Ring.GenerateHash sampleCrypto
          { sampleRing [] with Orders := [sampleFilled 27 1 2 0, sampleFilled 28 3 4 0] }).isSome
        = true) :=
  ⟨List.cons_ne_nil _ _, List.Perm.swap _ _ _,
    GenerateHash_perm_invariant sampleCrypto (sampleRing []) _ _ (List.cons_ne_nil _ _)
      (List.Perm.swap _ _ _)⟩

/-! ## The three filters -/

theorem bigCmp_nonneg_iff (x y : Int) : bigCmp x y ≥ 0 ↔ ¬ x < y := by
  unfold bigCmp
  split_ifs with h1 h2
  · simp [h1]
  · simp [h1]
  · simp [h1]

theorem BaseFilter_filter_eq (f : BaseFilter) (o : Order) :
    f.filter o =
      if o.TokenB = o.TokenS then (false, some (.baseTokenEqual o.Hash))
      else if ¬ f.MinLrcFee < o.LrcFee then (false, some (.baseLrcFee o.Hash o.LrcFee))
      else (true, none) := by
  simp only [BaseFilter.filter, FixedBytes.size_eq, ne_eq, not_true_eq_false, if_false,
    bigCmp_nonneg_iff]

theorem BaseFilter_reject_error (f : BaseFilter) (o : Order) (h : (f.filter o).1 = false) :
    ∃ err, (f.filter o).2 = some err := by
  rw [BaseFilter_filter_eq] at h ⊢
  by_cases ht : o.TokenB = o.TokenS
  · simp [ht]
  · by_cases hf : f.MinLrcFee < o.LrcFee
    · simp [ht, hf] at h
    · simp [ht, hf]

/-- C2: `BaseFilter.filter` accepts exactly the orders whose `TokenB` differs
from `TokenS` and whose `LrcFee` is strictly above `MinLrcFee`; a rejection
carries an error and an acceptance none; a fee equal to the minimum is rejected
and, with distinct tokens, a fee of the minimum plus one is accepted. -/
theorem BaseFilter_filter_accepts_iff (f : BaseFilter) (o : Order) :
    ((f.filter o).1 = true ↔ (o.TokenB ≠ o.TokenS ∧ f.MinLrcFee < o.LrcFee))
    ∧ ((f.filter o).1 = false → ∃ err, (f.filter o).2 = some err)
    ∧ ((f.filter o).1 = true → (f.filter o).2 = none)
    ∧ (o.LrcFee = f.MinLrcFee → (f.filter o).1 = false)
    ∧ (o.TokenB ≠ o.TokenS → o.LrcFee = f.MinLrcFee + 1 → (f.filter o).1 = true) := by
  rw [BaseFilter_filter_eq]
  by_cases ht : o.TokenB = o.TokenS
  · simp [ht]
  · by_cases hf : f.MinLrcFee < o.LrcFee
    · simp [ht, hf]
      intro h; omega
    · simp [ht, hf]
      intro h; omega

/-- Witness of C2: with minimum fee 1 a sample order with fee 1 is rejected with
an error, and the same order with fee 2 is accepted. -/
theorem BaseFilter_filter_accepts_iff_witness :
    (BaseFilter.filter { MinLrcFee := 1 } (sampleOrder 5 5 1 2 1)).1 = false
    ∧ (∃ err, (BaseFilter.filter { MinLrcFee := 1 } (sampleOrder 5 5 1 2 1)).2 = some err)
    ∧ (BaseFilter.filter { MinLrcFee := 1 } (sampleOrder 5 5 1 2 2)).1 = true :=
  have h1 := BaseFilter_filter_accepts_iff { MinLrcFee := 1 } (sampleOrder 5 5 1 2 1)
  have h2 := BaseFilter_filter_accepts_iff { MinLrcFee := 1 } (sampleOrder 5 5 1 2 2)
  ⟨h1.2.2.2.1 rfl, h1.2.1 (h1.2.2.2.1 rfl), h2.2.2.2.2 (by decide) rfl⟩

theorem Order_SignerAddress_eq (crypto : Crypto) (o : Order) :
    o.SignerAddress crypto =
      match crypto.SigToAddress o.Hash.Bytes (crypto.VRSToSig o.V o.R.Bytes o.S.Bytes) with
      | .error err => (FixedBytes.zero 20, some err)
      | .ok addressBytes => (FixedBytes.SetBytes 20 addressBytes, none) := rfl

theorem SignFilter_filter_eq (crypto : Crypto) (f : SignFilter) (o : Order) :
    f.filter crypto o =
      match crypto.SigToAddress (o.GenerateHash crypto).Bytes
          (crypto.VRSToSig o.V o.R.Bytes o.S.Bytes) with
      | .error err => ({ o with Hash := o.GenerateHash crypto }, false, some err)
      | .ok addressBytes =>
        if FixedBytes.SetBytes 20 addressBytes = o.Owner then
          ({ o with Hash := o.GenerateHash crypto }, true, none)
        else
          ({ o with Hash := o.GenerateHash crypto }, false,
            some (.signNotMatch o.Owner (FixedBytes.SetBytes 20 addressBytes))) := by
  unfold SignFilter.filter
  simp only [Order_SignerAddress_eq]
  cases hrec : crypto.SigToAddress (o.GenerateHash crypto).Bytes
      (crypto.VRSToSig o.V o.R.Bytes o.S.Bytes) with
  | error err => simp
  | ok addressBytes =>
    by_cases ho : FixedBytes.SetBytes 20 addressBytes = o.Owner
    · simp [ho]
    · simp [ho]

theorem SignFilter_filter_fst (crypto : Crypto) (f : SignFilter) (o : Order) :
    (f.filter crypto o).1 = { o with Hash := o.GenerateHash crypto } := by
  rw [SignFilter_filter_eq]
  cases crypto.SigToAddress (o.GenerateHash crypto).Bytes
      (crypto.VRSToSig o.V o.R.Bytes o.S.Bytes) with
  | error err => rfl
  | ok addressBytes => simp only; split_ifs <;> rfl

theorem SignFilter_reject_error (crypto : Crypto) (f : SignFilter) (o : Order)
    (h : (f.filter crypto o).2.1 = false) : ∃ err, (f.filter crypto o).2.2 = some err := by
  rw [SignFilter_filter_eq] at h ⊢
  cases hrec : crypto.SigToAddress (o.GenerateHash crypto).Bytes
      (crypto.VRSToSig o.V o.R.Bytes o.S.Bytes) with
  | error err => simp
  | ok addressBytes =>
    by_cases ho : FixedBytes.SetBytes 20 addressBytes = o.Owner
    · simp [hrec, ho] at h
    · simp [ho]

/-- C3: `SignFilter.filter` accepts exactly when recovering the signer from the
recomputed hash and the (v, r, s) of the order succeeds with its `Owner`; a
recovered address other than `Owner` is rejected with the mismatch error, a
failed recovery with the recovery error, and every rejection carries an error. -/
theorem SignFilter_filter_accepts_iff (crypto : Crypto) (f : SignFilter) (o : Order) :
    ((f.filter crypto o).2.1 = true ↔
      ∃ addressBytes,
        crypto.SigToAddress (o.GenerateHash crypto).Bytes
          (crypto.VRSToSig o.V o.R.Bytes o.S.Bytes) = .ok addressBytes
        ∧ FixedBytes.SetBytes 20 addressBytes = o.Owner)
    ∧ (∀ addressBytes,
        crypto.SigToAddress (o.GenerateHash crypto).Bytes
          (crypto.VRSToSig o.V o.R.Bytes o.S.Bytes) = .ok addressBytes →
        FixedBytes.SetBytes 20 addressBytes ≠ o.Owner →
        (f.filter crypto o).2 =
          (false, some (.signNotMatch o.Owner (FixedBytes.SetBytes 20 addressBytes))))
    ∧ (∀ err,
        crypto.SigToAddress (o.GenerateHash crypto).Bytes
          (crypto.VRSToSig o.V o.R.Bytes o.S.Bytes) = .error err →
        (f.filter crypto o).2 = (false, some err))
    ∧ ((f.filter crypto o).2.1 = false → ∃ err, (f.filter crypto o).2.2 = some err) := by
  rw [SignFilter_filter_eq]
  cases hrec : crypto.SigToAddress (o.GenerateHash crypto).Bytes
      (crypto.VRSToSig o.V o.R.Bytes o.S.Bytes) with
  | error err => simp
  | ok addressBytes =>
    by_cases ho : FixedBytes.SetBytes 20 addressBytes = o.Owner
    · simp [ho]
    · simp [ho]

/-- Witness of C3: a sample order signed by its owner 5 is accepted, and the same
order signed by 6 is rejected with the mismatch error. -/
theorem SignFilter_filter_accepts_iff_witness :
    (SignFilter.filter sampleCrypto {} (sampleOrder 5 5 1 2 5)).2.1 = true
    ∧ (SignFilter.filter sampleCrypto {} (sampleOrder 5 6 1 2 5)).2 =
        (false, some (.signNotMatch (sampleAddress 5) (sampleAddress 6))) :=
  ⟨(SignFilter_filter_accepts_iff sampleCrypto {} (sampleOrder 5 5 1 2 5)).1.mpr
      ⟨List.replicate 20 5, rfl, by decide⟩,
    (SignFilter_filter_accepts_iff sampleCrypto {} (sampleOrder 5 6 1 2 5)).2.1
      (List.replicate 20 6) rfl (by decide)⟩

theorem TokenFilter_reject_error (f : TokenFilter) (o : Order) (h : (f.filter o).1 = false) :
    ∃ err, (f.filter o).2 = some err := by
  unfold TokenFilter.filter at h ⊢
  cases ha : f.AllowTokens.ok o.TokenS <;> cases hd : f.DeniedTokens.ok o.TokenS <;>
    simp [ha, hd] at h ⊢

/-- C4: `TokenFilter.filter` accepts exactly when `TokenS` is a key of
`AllowTokens` and not a key of `DeniedTokens`; a rejection carries an error; a
token in both maps is rejected, is still rejected once deleted from the allow map
only, and is accepted once deleted from the deny map only. -/
theorem TokenFilter_filter_accepts_iff (f : TokenFilter) (o : Order) :
    ((f.filter o).1 = true ↔
      (f.AllowTokens.ok o.TokenS = true ∧ f.DeniedTokens.ok o.TokenS = false))
    ∧ ((f.filter o).1 = false → ∃ err, (f.filter o).2 = some err)
    ∧ (f.AllowTokens.ok o.TokenS = true → f.DeniedTokens.ok o.TokenS = true →
        (f.filter o).1 = false
        ∧ (TokenFilter.filter { f with AllowTokens := f.AllowTokens.delete o.TokenS } o).1 = false
        ∧ (TokenFilter.filter { f with DeniedTokens := f.DeniedTokens.delete o.TokenS } o).1
            = true) := by
  unfold TokenFilter.filter
  refine ⟨?_, ?_, ?_⟩
  · cases ha : f.AllowTokens.ok o.TokenS <;> cases hd : f.DeniedTokens.ok o.TokenS <;> simp
  · cases ha : f.AllowTokens.ok o.TokenS <;> cases hd : f.DeniedTokens.ok o.TokenS <;> simp
  · intro ha hd
    simp only [AddressMap.ok, AddressMap.delete] at *
    simp [ha, hd]

/-- Witness of C4: token 1 in both maps is rejected, rejected again once deleted
from the allow map, and accepted once deleted from the deny map. -/
theorem TokenFilter_filter_accepts_iff_witness :
    (TokenFilter.filter
        { AllowTokens := AddressMap.empty.set (sampleAddress 1) true,
          DeniedTokens := AddressMap.empty.set (sampleAddress 1) true }
        (sampleOrder 5 5 1 2 5)).1 = false
    ∧ (TokenFilter.filter
        { AllowTokens := (AddressMap.empty.set (sampleAddress 1) true).delete (sampleAddress 1),
          DeniedTokens := AddressMap.empty.set (sampleAddress 1) true }
        (sampleOrder 5 5 1 2 5)).1 = false
    ∧ (TokenFilter.filter
        { AllowTokens := AddressMap.empty.set (sampleAddress 1) true,
          DeniedTokens := (AddressMap.empty.set (sampleAddress 1) true).delete (sampleAddress 1) }
        (sampleOrder 5 5 1 2 5)).1 = true :=
  (TokenFilter_filter_accepts_iff
    { AllowTokens := AddressMap.empty.set (sampleAddress 1) true,
      DeniedTokens := AddressMap.empty.set (sampleAddress 1) true }
    (sampleOrder 5 5 1 2 5)).2.2 (by decide) (by decide)

/-! ## `HandleOrder` -/

theorem Initialize_filters {σ : Type} (MinLrcFee : Int) (IsBroadcast : Bool)
    (MaxBroadcastTime : Int) (ipfs : IPFSPubService) (om : OrderManager σ)
    (AllTokens : List Token) :
    (Initialize MinLrcFee IsBroadcast MaxBroadcastTime ipfs om AllTokens).filters =
      [Filter.base { MinLrcFee := MinLrcFee }, Filter.sign {},
       Filter.token (initTokenFilter AllTokens)] := rfl

theorem Filter_reject_error (crypto : Crypto) (v : Filter) (o : Order)
    (h : (v.filter crypto o).2.1 = false) : ∃ err, (v.filter crypto o).2.2 = some err := by
  cases v with
  | base f => exact BaseFilter_reject_error f o h
  | sign f => exact SignFilter_reject_error crypto f o h
  | token f => exact TokenFilter_reject_error f o h

theorem HandleOrder_found {σ : Type} (crypto : Crypto) (emitter : EventEmitter σ)
    (gateway : Gateway σ) (w : World σ) (input : Order) (st : OrderState)
    (h : gateway.om.GetOrderByHash w.store (input.GenerateHash crypto) = .ok st) :
    HandleOrder crypto emitter gateway w input =
      (some (.orderExist (input.GenerateHash crypto)),
        { input with Hash := input.GenerateHash crypto }, w) := by
  unfold HandleOrder
  simp only [h]

theorem HandleOrder_notFound {σ : Type} (crypto : Crypto) (emitter : EventEmitter σ)
    (gateway : Gateway σ) (w : World σ) (input : Order) (e : GoError)
    (h : gateway.om.GetOrderByHash w.store (input.GenerateHash crypto) = .error e) :
    HandleOrder crypto emitter gateway w input =
      match runFilters crypto gateway.filters (preparedOrder crypto input) with
      | (order, some err) => (err, order, w)
      | (order, none) =>
        (none, order, gateway.broadcast
          { w with
            store := emitter.Emit w.store Topic.OrderManagerGatewayNewOrder
              { RawOrder := order, BroadcastTime := 0 }
            emitted := w.emitted ++ [(Topic.OrderManagerGatewayNewOrder,
              { RawOrder := order, BroadcastTime := 0 })] }
          { RawOrder := order, BroadcastTime := 0 }) := by
  unfold HandleOrder
  simp only [h]
  rfl

theorem runFilters_reject_at (crypto : Crypto) (pre : List Filter) (v : Filter)
    (post : List Filter) (o o2 : Order) (hpre : runFilters crypto pre o = (o2, none))
    (hv : (v.filter crypto o2).2.1 = false) :
    runFilters crypto (pre ++ v :: post) o =
      ((v.filter crypto o2).1, some (v.filter crypto o2).2.2) := by
  induction pre generalizing o with
  | nil =>
    simp only [runFilters, Prod.mk.injEq, and_true] at hpre
    subst hpre
    simp [runFilters, hv]
  | cons u pre ih =>
    simp only [runFilters] at hpre
    cases hu : (u.filter crypto o).2.1 with
    | false => simp [hu] at hpre
    | true =>
      simp only [hu, Bool.not_true, Bool.false_eq_true, if_false] at hpre
      simp only [List.cons_append, runFilters, hu, Bool.not_true, Bool.false_eq_true, if_false]
      exact ih _ hpre

theorem runFilters_three (crypto : Crypto) (bf : BaseFilter) (sf : SignFilter)
    (tf : TokenFilter) (o : Order) (h : o.GenerateHash crypto = o.Hash) :
    runFilters crypto [Filter.base bf, Filter.sign sf, Filter.token tf] o =
      if (bf.filter o).1 = false then (o, some (bf.filter o).2)
      else if (sf.filter crypto o).2.1 = false then (o, some (sf.filter crypto o).2.2)
      else if (tf.filter o).1 = false then (o, some (tf.filter o).2)
      else (o, none) := by
  have hs : (sf.filter crypto o).1 = o := by rw [SignFilter_filter_fst, h]
  simp only [runFilters, Filter.filter, hs]
  cases hb : (bf.filter o).1 <;> cases hsg : (sf.filter crypto o).2.1 <;>
    cases ht : (tf.filter o).1 <;> simp

/-- C5: when the recomputed hash of the order is found in the store,
`HandleOrder` returns the duplicate error and leaves the world as it was: the
store (so the found state and its broadcast counter), the emitted events, the
started broadcasts and the publish attempts; the outcome is the same whatever
the filters are. -/
theorem HandleOrder_duplicate {σ : Type} (crypto : Crypto) (emitter : EventEmitter σ)
    (gateway : Gateway σ) (w : World σ) (input : Order) (st : OrderState)
    (h : gateway.om.GetOrderByHash w.store (input.GenerateHash crypto) = .ok st) :
    (HandleOrder crypto emitter gateway w input).1
        = some (.orderExist (input.GenerateHash crypto))
    ∧ (HandleOrder crypto emitter gateway w input).2.2 = w
    ∧ (HandleOrder crypto emitter gateway w input).2.2.emitted = w.emitted
    ∧ (HandleOrder crypto emitter gateway w input).2.2.spawned = w.spawned
    ∧ gateway.om.GetOrderByHash (HandleOrder crypto emitter gateway w input).2.2.store
        (input.GenerateHash crypto) = .ok st
    ∧ (∀ fs : List Filter,
        HandleOrder crypto emitter { gateway with filters := fs } w input
          = HandleOrder crypto emitter gateway w input) := by
  have hfs : ∀ fs : List Filter,
      HandleOrder crypto emitter { gateway with filters := fs } w input
        = HandleOrder crypto emitter gateway w input := by
    intro fs
    rw [HandleOrder_found crypto emitter gateway w input st h,
      HandleOrder_found crypto emitter { gateway with filters := fs } w input st h]
  rw [HandleOrder_found crypto emitter gateway w input st h]
  refine ⟨rfl, rfl, rfl, rfl, h, ?_⟩
  rw [← HandleOrder_found crypto emitter gateway w input st h]
  exact hfs

/-- Witness of C5: the sample order is accepted into the empty sample world; once
the store holds it with broadcast counter 1, ingesting it again returns the
duplicate error and leaves the world, and the counter 1, as they were. -/
theorem HandleOrder_duplicate_witness :
    (HandleOrder sampleCrypto sampleEmitter sampleGateway sampleWorld (sampleOrder 5 5 1 2 5)).1
      = none
    ∧ sampleGateway.om.GetOrderByHash sampleWorldAfter.store
        ((sampleOrder 5 5 1 2 5).GenerateHash sampleCrypto)
      = .ok { RawOrder := preparedOrder sampleCrypto (sampleOrder 5 5 1 2 5), BroadcastTime := 1 }
    ∧ (HandleOrder sampleCrypto sampleEmitter sampleGateway sampleWorldAfter
        (sampleOrder 5 5 1 2 5)).1
      = some (.orderExist ((sampleOrder 5 5 1 2 5).GenerateHash sampleCrypto))
    ∧ (HandleOrder sampleCrypto sampleEmitter sampleGateway sampleWorldAfter
        (sampleOrder 5 5 1 2 5)).2.2 = sampleWorldAfter
    ∧ sampleGateway.om.GetOrderByHash
        (HandleOrder sampleCrypto sampleEmitter sampleGateway sampleWorldAfter
          (sampleOrder 5 5 1 2 5)).2.2.store
        ((sampleOrder 5 5 1 2 5).GenerateHash sampleCrypto)
      = .ok { RawOrder := preparedOrder sampleCrypto (sampleOrder 5 5 1 2 5),
              BroadcastTime := 1 } :=
  have h := HandleOrder_duplicate sampleCrypto sampleEmitter sampleGateway sampleWorldAfter
    (sampleOrder 5 5 1 2 5)
    { RawOrder := preparedOrder sampleCrypto (sampleOrder 5 5 1 2 5), BroadcastTime := 1 } rfl
  ⟨by decide, rfl, h.1, h.2.1, h.2.2.2.2.1⟩

theorem preparedOrder_eq (crypto : Crypto) (input : Order) :
    preparedOrder crypto input =
      { input with
        Hash := input.GenerateHash crypto
        Price := crypto.orderPrice { input with Hash := input.GenerateHash crypto } } := rfl

theorem preparedOrder_hash (crypto : Crypto) (input : Order) :
    (preparedOrder crypto input).GenerateHash crypto = (preparedOrder crypto input).Hash := rfl

/-- C6: for an order not found in the store, the gateway built by `Initialize`
holds the filters in the order base, sign, token; `HandleOrder` returns the error
of the first of them that rejects, which is not nil, and leaves the world as it
was; and for any gateway, a rejecting filter ends the run with its error whatever
filters follow it. -/
theorem HandleOrder_first_rejection {σ : Type} (crypto : Crypto) (emitter : EventEmitter σ)
    (MinLrcFee : Int)
    (IsBroadcast : Bool) (MaxBroadcastTime : Int) (ipfs : IPFSPubService)
    (om : OrderManager σ) (AllTokens : List Token) (w : World σ) (input : Order) (e : GoError)
    (h : om.GetOrderByHash w.store (input.GenerateHash crypto) = .error e) :
    (Initialize MinLrcFee IsBroadcast MaxBroadcastTime ipfs om AllTokens).filters =
      [Filter.base { MinLrcFee := MinLrcFee }, Filter.sign {},
       Filter.token (initTokenFilter AllTokens)]
    ∧ ((BaseFilter.filter { MinLrcFee := MinLrcFee } (preparedOrder crypto input)).1 = false →
        HandleOrder crypto emitter
            (Initialize MinLrcFee IsBroadcast MaxBroadcastTime ipfs om AllTokens) w input
          = ((BaseFilter.filter { MinLrcFee := MinLrcFee } (preparedOrder crypto input)).2,
              preparedOrder crypto input, w)
        ∧ ∃ err, (BaseFilter.filter { MinLrcFee := MinLrcFee }
            (preparedOrder crypto input)).2 = some err)
    ∧ ((BaseFilter.filter { MinLrcFee := MinLrcFee } (preparedOrder crypto input)).1 = true →
        (SignFilter.filter crypto {} (preparedOrder crypto input)).2.1 = false →
        HandleOrder crypto emitter
            (Initialize MinLrcFee IsBroadcast MaxBroadcastTime ipfs om AllTokens) w input
          = ((SignFilter.filter crypto {} (preparedOrder crypto input)).2.2,
              preparedOrder crypto input, w)
        ∧ ∃ err, (SignFilter.filter crypto {} (preparedOrder crypto input)).2.2 = some err)
    ∧ ((BaseFilter.filter { MinLrcFee := MinLrcFee } (preparedOrder crypto input)).1 = true →
        (SignFilter.filter crypto {} (preparedOrder crypto input)).2.1 = true →
        (TokenFilter.filter (initTokenFilter AllTokens) (preparedOrder crypto input)).1 = false →
        HandleOrder crypto emitter
            (Initialize MinLrcFee IsBroadcast MaxBroadcastTime ipfs om AllTokens) w input
          = ((TokenFilter.filter (initTokenFilter AllTokens) (preparedOrder crypto input)).2,
              preparedOrder crypto input, w)
        ∧ ∃ err, (TokenFilter.filter (initTokenFilter AllTokens)
            (preparedOrder crypto input)).2 = some err)
    ∧ (∀ (gateway : Gateway σ) (pre : List Filter) (v : Filter) (post : List Filter)
        (o2 : Order),
        gateway.om = om → gateway.filters = pre ++ v :: post →
        runFilters crypto pre (preparedOrder crypto input) = (o2, none) →
        (v.filter crypto o2).2.1 = false →
        HandleOrder crypto emitter gateway w input
          = ((v.filter crypto o2).2.2, (v.filter crypto o2).1, w)) := by
  have hI : HandleOrder crypto emitter
      (Initialize MinLrcFee IsBroadcast MaxBroadcastTime ipfs om AllTokens) w input = _ :=
    HandleOrder_notFound crypto emitter _ w input e h
  rw [Initialize_filters, runFilters_three crypto _ _ _ _ (preparedOrder_hash crypto input)] at hI
  refine ⟨rfl, ?_, ?_, ?_, ?_⟩
  · intro hb
    rw [hI]
    simp only [hb, if_true]
    exact ⟨trivial, BaseFilter_reject_error _ _ hb⟩
  · intro hb hs
    rw [hI]
    simp only [hb, hs, if_true, Bool.true_eq_false, if_false]
    exact ⟨trivial, SignFilter_reject_error crypto _ _ hs⟩
  · intro hb hs ht
    rw [hI]
    simp only [hb, hs, ht, if_true, Bool.true_eq_false, if_false]
    exact ⟨trivial, TokenFilter_reject_error _ _ ht⟩
  · intro gateway pre v post o2 hom hfs hpre hv
    have hG := HandleOrder_notFound crypto emitter gateway w input e (by rw [hom]; exact h)
    rw [hG, hfs, runFilters_reject_at crypto pre v post _ o2 hpre hv]

/-- Witness of C6: sample orders rejected by the base filter (fee at the
minimum), by the sign filter (signed by another address) and by the token filter
(token 3 is not allowed), each with the error of that filter and an unchanged world. -/
theorem HandleOrder_first_rejection_witness :
    HandleOrder sampleCrypto sampleEmitter sampleGateway sampleWorld (sampleOrder 5 5 1 2 1)
        = (some (.baseLrcFee ((sampleOrder 5 5 1 2 1).GenerateHash sampleCrypto) 1),
            preparedOrder sampleCrypto (sampleOrder 5 5 1 2 1), sampleWorld)
    ∧ HandleOrder sampleCrypto sampleEmitter sampleGateway sampleWorld (sampleOrder 5 6 1 2 5)
        = (some (.signNotMatch (sampleAddress 5) (sampleAddress 6)),
            preparedOrder sampleCrypto (sampleOrder 5 6 1 2 5), sampleWorld)
    ∧ HandleOrder sampleCrypto sampleEmitter sampleGateway sampleWorld (sampleOrder 5 5 3 2 5)
        = (some (.tokenNotAllowed (sampleAddress 3)),
            preparedOrder sampleCrypto (sampleOrder 5 5 3 2 5), sampleWorld) :=
  by
  have h1 := (HandleOrder_first_rejection sampleCrypto sampleEmitter 1 true 3 samplePub sampleOM
    sampleTokens sampleWorld
    (sampleOrder 5 5 1 2 1) (.ext 404) rfl).2.1 (by decide)
  have h2 := (HandleOrder_first_rejection sampleCrypto sampleEmitter 1 true 3 samplePub sampleOM
    sampleTokens sampleWorld
    (sampleOrder 5 6 1 2 5) (.ext 404) rfl).2.2.1 (by decide) (by decide)
  have h3 := (HandleOrder_first_rejection sampleCrypto sampleEmitter 1 true 3 samplePub sampleOM
    sampleTokens sampleWorld
    (sampleOrder 5 5 3 2 5) (.ext 404) rfl).2.2.2.1 (by decide) (by decide) (by decide)
  have e1 : (BaseFilter.filter { MinLrcFee := 1 }
      (preparedOrder sampleCrypto (sampleOrder 5 5 1 2 1))).2
      = some (.baseLrcFee ((sampleOrder 5 5 1 2 1).GenerateHash sampleCrypto) 1) := by decide
  have e2 : (SignFilter.filter sampleCrypto {}
      (preparedOrder sampleCrypto (sampleOrder 5 6 1 2 5))).2.2
      = some (.signNotMatch (sampleAddress 5) (sampleAddress 6)) := by decide
  have e3 : (TokenFilter.filter (initTokenFilter sampleTokens)
      (preparedOrder sampleCrypto (sampleOrder 5 5 3 2 5))).2
      = some (.tokenNotAllowed (sampleAddress 3)) := by decide
  exact ⟨h1.1.trans (by rw [e1]), h2.1.trans (by rw [e2]), h3.1.trans (by rw [e3])⟩

theorem GenerateHash_congr (crypto : Crypto) (r1 r2 : Ring) (h : r1.Orders = r2.Orders) :
    r1.GenerateHash crypto = r2.GenerateHash crypto := by
  unfold Ring.GenerateHash
  rw [h]

theorem GenerateHash_isSome (crypto : Crypto) (ring : Ring) (hne : ring.Orders ≠ []) :
    ∃ h, ring.GenerateHash crypto = some h := by
  obtain ⟨a, r, hr⟩ := List.exists_cons_of_ne_nil hne
  exact ⟨_, GenerateHash_cons crypto ring a r hr⟩

theorem hashInUse_isSome (crypto : Crypto) (ring : Ring)
    (hdef : ring.Orders ≠ [] ∨ IsZeroHash ring.Hash = false) :
    ∃ h, ring.hashInUse crypto = some h := by
  unfold Ring.hashInUse
  cases hz : IsZeroHash ring.Hash with
  | false => exact ⟨ring.Hash, by simp⟩
  | true =>
    rcases hdef with hne | hnz
    · obtain ⟨h, hh⟩ := GenerateHash_isSome crypto ring hne
      exact ⟨h, by simp [hh]⟩
    · rw [hz] at hnz; cases hnz

theorem GenerateAndSetSignature_eq (crypto : Crypto) (ring : Ring) (signerAddr : common.Address)
    (h : common.Hash) (hh : ring.hashInUse crypto = some h) :
    ring.GenerateAndSetSignature crypto signerAddr
      = some (ring.signedWith crypto h signerAddr) := by
  unfold Ring.hashInUse at hh
  unfold Ring.GenerateAndSetSignature Ring.signedWith
  cases hz : IsZeroHash ring.Hash with
  | false =>
    rw [hz] at hh
    simp only [Bool.false_eq_true, if_false, Option.some.injEq] at hh
    subst hh
    simp only [Bool.false_eq_true, if_false, Option.bind_eq_bind, Option.some_bind]
    cases crypto.Sign ring.Hash.Bytes signerAddr <;> rfl
  | true =>
    rw [hz] at hh
    simp only [if_true] at hh
    simp only [if_true, hh, Option.map_some', Option.bind_eq_bind, Option.some_bind]
    cases crypto.Sign h.Bytes signerAddr <;> rfl

theorem signedWith_hashInUse (crypto : Crypto) (ring : Ring) (signerAddr : common.Address)
    (h : common.Hash) (hh : ring.hashInUse crypto = some h) :
    (ring.signedWith crypto h signerAddr).1.hashInUse crypto = some h := by
  have hO : (ring.signedWith crypto h signerAddr).1.Orders = ring.Orders := by
    unfold Ring.signedWith
    cases crypto.Sign h.Bytes signerAddr <;> rfl
  have hH : (ring.signedWith crypto h signerAddr).1.Hash = h := by
    unfold Ring.signedWith
    cases crypto.Sign h.Bytes signerAddr <;> rfl
  unfold Ring.hashInUse at hh ⊢
  rw [hH]
  cases hz : IsZeroHash h with
  | false => simp
  | true =>
    simp only [if_true]
    rw [GenerateHash_congr crypto _ ring hO]
    cases hz2 : IsZeroHash ring.Hash with
    | false =>
      rw [hz2] at hh
      simp only [Bool.false_eq_true, if_false, Option.some.injEq] at hh
      rw [hh, hz] at hz2; cases hz2
    | true =>
      rw [hz2] at hh
      simpa using hh

theorem SignerAddress_eq (crypto : Crypto) (ring : Ring) (h : common.Hash)
    (hh : ring.hashInUse crypto = some h) :
    ring.SignerAddress crypto =
      some (match crypto.SigToAddress h.Bytes
          (crypto.VRSToSig ring.V ring.R.Bytes ring.S.Bytes) with
        | .error err => (FixedBytes.zero 20, some err)
        | .ok addressBytes => (FixedBytes.SetBytes 20 addressBytes, none)) := by
  unfold Ring.hashInUse at hh
  unfold Ring.SignerAddress
  cases hz : IsZeroHash ring.Hash with
  | false =>
    rw [hz] at hh
    simp only [Bool.false_eq_true, if_false, Option.some.injEq] at hh
    subst hh
    simp only [Bool.false_eq_true, if_false, Option.bind_eq_bind, Option.some_bind]
    cases crypto.SigToAddress ring.Hash.Bytes
      (crypto.VRSToSig ring.V ring.R.Bytes ring.S.Bytes) <;> rfl
  | true =>
    rw [hz] at hh
    simp only [if_true] at hh
    simp only [if_true, hh, Option.bind_eq_bind, Option.some_bind]
    cases crypto.SigToAddress h.Bytes (crypto.VRSToSig ring.V ring.R.Bytes ring.S.Bytes) <;> rfl

theorem foldl_submitStep (l : List FilledOrder) (acc : RingSubmitInputs) :
    l.foldl Ring.submitStep acc =
      { acc with
        AddressList := acc.AddressList ++
          l.map (fun fo => [fo.OrderState.RawOrder.Owner, fo.OrderState.RawOrder.TokenS])
        UintArgsList := acc.UintArgsList ++
          l.map (fun fo => [fo.OrderState.RawOrder.AmountS, fo.OrderState.RawOrder.AmountB,
            fo.OrderState.RawOrder.Timestamp, fo.OrderState.RawOrder.Ttl,
            fo.OrderState.RawOrder.Salt, fo.OrderState.RawOrder.LrcFee,
            floatString0 fo.RateAmountS])
        Uint8ArgsList := acc.Uint8ArgsList ++
          l.map (fun fo => [fo.OrderState.RawOrder.MarginSplitPercentage, fo.FeeSelection])
        BuyNoMoreThanAmountBList := acc.BuyNoMoreThanAmountBList ++
          l.map (fun fo => fo.OrderState.RawOrder.BuyNoMoreThanAmountB)
        VList := acc.VList ++ l.map (fun fo => fo.OrderState.RawOrder.V)
        RList := acc.RList ++ l.map (fun fo => fo.OrderState.RawOrder.R)
        SList := acc.SList ++ l.map (fun fo => fo.OrderState.RawOrder.S) } := by
  induction l generalizing acc with
  | nil => simp
  | cons fo l ih =>
    rw [List.foldl_cons, ih]
    simp [Ring.submitStep]

theorem GenerateSubmitArgs_eq (crypto : Crypto) (ring : Ring) (miner feeReceipt : common.Address)
    (h : common.Hash) (hh : ring.hashInUse crypto = some h) :
    ∃ rec : common.Address × Option GoError,
      (ring.signedWith crypto h miner).1.SignerAddress crypto = some rec
      ∧ ring.GenerateSubmitArgs crypto miner feeReceipt =
        some ((ring.signedWith crypto h miner).1,
          { (match (ring.signedWith crypto h miner).2 with
              | some _ => ring.orderArgs
              | none =>
                { ring.orderArgs with
                  VList := ring.orderArgs.VList ++ [(ring.signedWith crypto h miner).1.V]
                  RList := ring.orderArgs.RList ++ [(ring.signedWith crypto h miner).1.R]
                  SList := ring.orderArgs.SList ++ [(ring.signedWith crypto h miner).1.S] }) with
            Ringminer := rec.1
            FeeRecepient := if IsZeroAddress feeReceipt then rec.1 else feeReceipt }) := by
  have hs := SignerAddress_eq crypto _ h (signedWith_hashInUse crypto ring miner h hh)
  refine ⟨_, hs, ?_⟩
  unfold Ring.GenerateSubmitArgs
  rw [GenerateAndSetSignature_eq crypto ring miner h hh]
  simp only [Option.bind_eq_bind, Option.some_bind, hs]
  cases hz : IsZeroAddress feeReceipt <;> cases (ring.signedWith crypto h miner).2 <;> rfl
theorem floor_half_aux (q r d : Nat) (hd : 0 < d) (hr : r < d) :
    ⌊((d * q + r : Nat) : ℚ) / d + 1 / 2⌋
      = ((if d ≤ 2 * r then q + 1 else q : Nat) : Int) := by
  have hdq : (0 : ℚ) < d := by exact_mod_cast hd
  have hrq : (r : ℚ) < d := by exact_mod_cast hr
  have hr0 : (0 : ℚ) ≤ (r : ℚ) := by positivity
  have hval : ((d * q + r : Nat) : ℚ) / d = (q : ℚ) + (r : ℚ) / d := by
    push_cast; field_simp; ring
  rw [Int.floor_eq_iff, hval]
  split_ifs with hc
  · have hc2 : (d : ℚ) ≤ 2 * (r : ℚ) := by exact_mod_cast hc
    have h1 : (1 : ℚ) / 2 ≤ (r : ℚ) / d := by
      rw [div_le_div_iff₀ (by norm_num) hdq]; linarith
    have h2 : (r : ℚ) / d < 1 := by
      rw [div_lt_one hdq]; exact hrq
    push_cast
    constructor <;> linarith
  · have hc2 : 2 * (r : ℚ) < d := by
      have : 2 * r < d := Nat.lt_of_not_le hc
      exact_mod_cast this
    have h1 : (r : ℚ) / d < 1 / 2 := by
      rw [div_lt_div_iff₀ hdq (by norm_num)]; linarith
    have h2 : (0 : ℚ) ≤ (r : ℚ) / d := by positivity
    push_cast
    constructor <;> linarith

theorem floor_half_nat (a d : Nat) (hd : 0 < d) :
    ⌊(a : ℚ) / d + 1 / 2⌋
      = ((if d ≤ 2 * (a % d) then a / d + 1 else a / d : Nat) : Int) := by
  have h := floor_half_aux (a / d) (a % d) d hd (Nat.mod_lt a hd)
  rw [Nat.div_add_mod] at h
  exact h

theorem floor_int_half (n : Int) : ⌊(n : ℚ) + 1 / 2⌋ = n := by
  rw [Int.floor_eq_iff]
  constructor <;> linarith

theorem floatString0_eq_roundHalfAway (x : ℚ) : floatString0 x = roundHalfAway x := by
  have hd : 0 < x.den := x.den_pos
  have hx : (x.num : ℚ) / x.den = x := Rat.num_div_den x
  have hfl := floor_half_nat x.num.natAbs x.den hd
  by_cases h1 : x.den = 1
  · have hxn : x = (x.num : ℚ) := by
      conv_lhs => rw [← hx, h1]
      simp
    unfold floatString0 roundHalfAway
    rw [if_pos h1]
    have e1 : ⌊x + 1 / 2⌋ = x.num := by
      conv_lhs => rw [hxn]
      exact floor_int_half _
    have e2 : ⌊-x + 1 / 2⌋ = -x.num := by
      conv_lhs => rw [hxn]
      have := floor_int_half (-x.num)
      push_cast at this
      exact this
    split_ifs with h0
    · exact e1.symm
    · rw [e2, neg_neg]
  · unfold floatString0 roundHalfAway
    rw [if_neg h1]
    simp only
    by_cases hneg : x.num < 0
    · have hxneg : ¬ (0 ≤ x) := by
        rw [not_le]; exact Rat.num_neg.mp hneg
      have habs : ((x.num.natAbs : Nat) : ℚ) / x.den = -x := by
        have : ((x.num.natAbs : Nat) : Int) = -x.num := by omega
        have h2 : ((x.num.natAbs : Nat) : ℚ) = -(x.num : ℚ) := by
          rw [← Int.cast_natCast, this, Int.cast_neg]
        rw [h2, neg_div, hx]
      rw [habs] at hfl
      rw [if_pos hneg, if_neg hxneg, hfl]
    · have hxpos : 0 ≤ x := by
        rw [not_lt] at hneg; exact Rat.num_nonneg.mp hneg
      have habs : ((x.num.natAbs : Nat) : ℚ) / x.den = x := by
        have : ((x.num.natAbs : Nat) : Int) = x.num := by omega
        have h2 : ((x.num.natAbs : Nat) : ℚ) = (x.num : ℚ) := by
          rw [← Int.cast_natCast, this]
        rw [h2, hx]
      rw [habs] at hfl
      rw [if_neg hneg, if_pos hxpos, hfl]

theorem signedWith_ok (crypto : Crypto) (ring : Ring) (h : common.Hash)
    (signerAddr : common.Address) (sig : List Byte)
    (hs : crypto.Sign h.Bytes signerAddr = .ok sig) :
    ring.signedWith crypto h signerAddr =
      ({ ring with Hash := h, V := uint8 (crypto.SigToVRS sig).1,
                   R := crypto.BytesToBytes32 (crypto.SigToVRS sig).2.1,
                   S := crypto.BytesToBytes32 (crypto.SigToVRS sig).2.2 }, none) := by
  unfold Ring.signedWith
  rw [hs]

theorem orderArgs_eq (ring : Ring) :
    ring.orderArgs =
      { emptyRingSubmitArgs with
        AddressList := ring.Orders.map
          (fun fo => [fo.OrderState.RawOrder.Owner, fo.OrderState.RawOrder.TokenS])
        UintArgsList := ring.Orders.map
          (fun fo => [fo.OrderState.RawOrder.AmountS, fo.OrderState.RawOrder.AmountB,
            fo.OrderState.RawOrder.Timestamp, fo.OrderState.RawOrder.Ttl,
            fo.OrderState.RawOrder.Salt, fo.OrderState.RawOrder.LrcFee,
            floatString0 fo.RateAmountS])
        Uint8ArgsList := ring.Orders.map
          (fun fo => [fo.OrderState.RawOrder.MarginSplitPercentage, fo.FeeSelection])
        BuyNoMoreThanAmountBList := ring.Orders.map
          (fun fo => fo.OrderState.RawOrder.BuyNoMoreThanAmountB)
        VList := ring.Orders.map (fun fo => fo.OrderState.RawOrder.V)
        RList := ring.Orders.map (fun fo => fo.OrderState.RawOrder.R)
        SList := ring.Orders.map (fun fo => fo.OrderState.RawOrder.S) } := by
  unfold Ring.orderArgs
  rw [foldl_submitStep]
  simp [emptyRingSubmitArgs]

/-- C8: for every ring with at least one order the hash to sign is defined, and
when signing it with the miner succeeds, `GenerateSubmitArgs` returns inputs whose
`VList`, `RList` and `SList` are the v, r and s of the orders in ring order
followed by the V, R and S that the signing gave the ring, so each has one entry
more than the ring has orders. -/
theorem GenerateSubmitArgs_signature_lists (crypto : Crypto) (ring : Ring)
    (miner feeReceipt : common.Address)
    (hne : ring.Orders ≠ []) :
    ∃ h, ring.hashInUse crypto = some h ∧
      ∀ sig, crypto.Sign h.Bytes miner = .ok sig →
        ∃ ring2 out, ring.GenerateSubmitArgs crypto miner feeReceipt = some (ring2, out)
          ∧ ring2.V = uint8 (crypto.SigToVRS sig).1
          ∧ ring2.R = crypto.BytesToBytes32 (crypto.SigToVRS sig).2.1
          ∧ ring2.S = crypto.BytesToBytes32 (crypto.SigToVRS sig).2.2
          ∧ out.VList = ring.Orders.map (fun fo => fo.OrderState.RawOrder.V) ++ [ring2.V]
          ∧ out.RList = ring.Orders.map (fun fo => fo.OrderState.RawOrder.R) ++ [ring2.R]
          ∧ out.SList = ring.Orders.map (fun fo => fo.OrderState.RawOrder.S) ++ [ring2.S]
          ∧ out.VList.length = ring.Orders.length + 1
          ∧ out.RList.length = ring.Orders.length + 1
          ∧ out.SList.length = ring.Orders.length + 1 := by
  obtain ⟨h, hh⟩ := hashInUse_isSome crypto ring (Or.inl hne)
  refine ⟨h, hh, ?_⟩
  intro sig hs
  obtain ⟨rec, _, hgen⟩ := GenerateSubmitArgs_eq crypto ring miner feeReceipt h hh
  rw [signedWith_ok crypto ring h miner sig hs] at hgen
  refine ⟨_, _, hgen, rfl, rfl, rfl, ?_, ?_, ?_, ?_, ?_, ?_⟩ <;> simp [orderArgs_eq]

/-- Witness of C8: the sample ring of two orders, signed by the sample miner. -/
theorem GenerateSubmitArgs_signature_lists_witness :
    sampleRing2.Orders ≠ []
    ∧ (∃ h, sampleRing2.hashInUse sampleCrypto = some h)
    ∧ (sampleRing2.GenerateSubmitArgs sampleCrypto (sampleAddress 8) (FixedBytes.zero 20)).map
        (fun x => (x.2.VList, x.2.RList.length, x.2.SList.length))
      = some ([27, 28, 27], 3, 3) :=
  ⟨by decide,
    (GenerateSubmitArgs_signature_lists sampleCrypto sampleRing2 (sampleAddress 8)
      (FixedBytes.zero 20) (by decide)).imp (fun _ hh => hh.1),
    by decide⟩

theorem GenerateHash_nil (crypto : Crypto) (ring : Ring) (h : ring.Orders = []) :
    ring.GenerateHash crypto = none := by
  unfold Ring.GenerateHash
  rw [h]

theorem GenerateSubmitArgs_isSome_iff (crypto : Crypto) (ring : Ring)
    (miner feeReceipt : common.Address) :
    (ring.GenerateSubmitArgs crypto miner feeReceipt).isSome = true
      ↔ (ring.Orders ≠ [] ∨ IsZeroHash ring.Hash = false) := by
  constructor
  · intro hsome
    by_contra hcon
    rw [not_or] at hcon
    obtain ⟨h1, h2⟩ := hcon
    have h1 : ring.Orders = [] := not_not.mp h1
    have h2 : IsZeroHash ring.Hash = true := by
      cases hz : IsZeroHash ring.Hash with
      | false => exact absurd hz h2
      | true => rfl
    have hnone : ring.GenerateSubmitArgs crypto miner feeReceipt = none := by
      unfold Ring.GenerateSubmitArgs Ring.GenerateAndSetSignature
      simp [h2, GenerateHash_nil crypto ring h1]
    rw [hnone] at hsome
    cases hsome
  · intro hdef
    obtain ⟨h, hh⟩ := hashInUse_isSome crypto ring hdef
    obtain ⟨rec, _, hgen⟩ := GenerateSubmitArgs_eq crypto ring miner feeReceipt h hh
    rw [hgen]
    rfl

/-- C9: `GenerateSubmitArgs` returns exactly for the rings with an order or with
a hash already set (on the others `GenerateHash` panics), and whenever it returns,
the `AddressList`, `UintArgsList`, `Uint8ArgsList` and `BuyNoMoreThanAmountBList`
have one entry per order, the i-th made from the i-th order: owner and sell token;
the six amounts and `RateAmountS` rounded to the nearest integer, halves away from
zero; margin split percentage and fee selection; and the buy-no-more-than flag. -/
theorem GenerateSubmitArgs_order_lists (crypto : Crypto) (ring : Ring)
    (miner feeReceipt : common.Address) :
    ((ring.GenerateSubmitArgs crypto miner feeReceipt).isSome = true
      ↔ (ring.Orders ≠ [] ∨ IsZeroHash ring.Hash = false))
    ∧ ∀ ring2 out, ring.GenerateSubmitArgs crypto miner feeReceipt = some (ring2, out) →
      out.AddressList = ring.Orders.map
          (fun fo => [fo.OrderState.RawOrder.Owner, fo.OrderState.RawOrder.TokenS])
      ∧ out.UintArgsList = ring.Orders.map
          (fun fo => [fo.OrderState.RawOrder.AmountS, fo.OrderState.RawOrder.AmountB,
            fo.OrderState.RawOrder.Timestamp, fo.OrderState.RawOrder.Ttl,
            fo.OrderState.RawOrder.Salt, fo.OrderState.RawOrder.LrcFee,
            roundHalfAway fo.RateAmountS])
      ∧ out.Uint8ArgsList = ring.Orders.map
          (fun fo => [fo.OrderState.RawOrder.MarginSplitPercentage, fo.FeeSelection])
      ∧ out.BuyNoMoreThanAmountBList = ring.Orders.map
          (fun fo => fo.OrderState.RawOrder.BuyNoMoreThanAmountB)
      ∧ out.AddressList.length = ring.Orders.length
      ∧ out.UintArgsList.length = ring.Orders.length
      ∧ out.Uint8ArgsList.length = ring.Orders.length
      ∧ out.BuyNoMoreThanAmountBList.length = ring.Orders.length
      ∧ (∀ (i : Nat) (fo : FilledOrder), ring.Orders[i]? = some fo →
          out.AddressList[i]? =
            some [fo.OrderState.RawOrder.Owner, fo.OrderState.RawOrder.TokenS]
          ∧ out.UintArgsList[i]? =
            some [fo.OrderState.RawOrder.AmountS, fo.OrderState.RawOrder.AmountB,
              fo.OrderState.RawOrder.Timestamp, fo.OrderState.RawOrder.Ttl,
              fo.OrderState.RawOrder.Salt, fo.OrderState.RawOrder.LrcFee,
              roundHalfAway fo.RateAmountS]
          ∧ out.Uint8ArgsList[i]? =
            some [fo.OrderState.RawOrder.MarginSplitPercentage, fo.FeeSelection]
          ∧ out.BuyNoMoreThanAmountBList[i]? =
            some fo.OrderState.RawOrder.BuyNoMoreThanAmountB) := by
  refine ⟨GenerateSubmitArgs_isSome_iff crypto ring miner feeReceipt, ?_⟩
  intro ring2 out hret
  have hdef := (GenerateSubmitArgs_isSome_iff crypto ring miner feeReceipt).mp
    (by rw [hret]; rfl)
  obtain ⟨h, hh⟩ := hashInUse_isSome crypto ring hdef
  obtain ⟨rec, _, hgen⟩ := GenerateSubmitArgs_eq crypto ring miner feeReceipt h hh
  rw [hgen] at hret
  simp only [Option.some.injEq, Prod.mk.injEq] at hret
  obtain ⟨_, rfl⟩ := hret
  refine ⟨?_, ?_, ?_, ?_, ?_, ?_, ?_, ?_, ?_⟩
  · cases (ring.signedWith crypto h miner).2 <;> simp [orderArgs_eq]
  · cases (ring.signedWith crypto h miner).2 <;>
      simp [orderArgs_eq, floatString0_eq_roundHalfAway]
  · cases (ring.signedWith crypto h miner).2 <;> simp [orderArgs_eq]
  · cases (ring.signedWith crypto h miner).2 <;> simp [orderArgs_eq]
  · cases (ring.signedWith crypto h miner).2 <;> simp [orderArgs_eq]
  · cases (ring.signedWith crypto h miner).2 <;> simp [orderArgs_eq]
  · cases (ring.signedWith crypto h miner).2 <;> simp [orderArgs_eq]
  · cases (ring.signedWith crypto h miner).2 <;> simp [orderArgs_eq]
  · intro i fo hi
    cases (ring.signedWith crypto h miner).2 <;>
      simp [orderArgs_eq, List.getElem?_map, hi, floatString0_eq_roundHalfAway]

/-- Witness of C9: the sample ring of two orders with rates 7/2 and -5/2, which
round to 4 and -3. -/
theorem GenerateSubmitArgs_order_lists_witness :
    (sampleRing2.GenerateSubmitArgs sampleCrypto (sampleAddress 8)
        (FixedBytes.zero 20)).isSome = true
    ∧ (sampleRing2.GenerateSubmitArgs sampleCrypto (sampleAddress 8) (FixedBytes.zero 20)).map
        (fun x => x.2.UintArgsList)
      = some [[100, 40, 1500000000, 3600, 7, 5, 4], [100, 40, 1500000000, 3600, 7, 5, -3]] :=
  ⟨(GenerateSubmitArgs_order_lists sampleCrypto sampleRing2 (sampleAddress 8)
      (FixedBytes.zero 20)).1.mpr (Or.inl (by decide)),
    by decide⟩

/-- C10: `GenerateSubmitArgs` returns exactly for the rings with an order or with
a hash already set, and whenever it returns, `Ringminer` is the address that
`SignerAddress` returns for the ring as the signing step left it, which is the
address recovered from the ring hash and the ring V, R and S (the zero address
when recovery fails), and `FeeRecepient` is that address when the fee receipt is
the zero address and the fee receipt otherwise. -/
theorem GenerateSubmitArgs_ringminer (crypto : Crypto) (ring : Ring)
    (miner feeReceipt : common.Address) :
    ((ring.GenerateSubmitArgs crypto miner feeReceipt).isSome = true
      ↔ (ring.Orders ≠ [] ∨ IsZeroHash ring.Hash = false))
    ∧ ∀ ring2 out, ring.GenerateSubmitArgs crypto miner feeReceipt = some (ring2, out) →
      ∃ h,
        ring2.hashInUse crypto = some h
        ∧ (∃ err, ring.GenerateAndSetSignature crypto miner = some (ring2, err))
        ∧ (∃ err, ring2.SignerAddress crypto = some (out.Ringminer, err))
        ∧ (∀ addressBytes,
            crypto.SigToAddress h.Bytes (crypto.VRSToSig ring2.V ring2.R.Bytes ring2.S.Bytes)
              = .ok addressBytes →
            out.Ringminer = FixedBytes.SetBytes 20 addressBytes)
        ∧ (∀ err,
            crypto.SigToAddress h.Bytes (crypto.VRSToSig ring2.V ring2.R.Bytes ring2.S.Bytes)
              = .error err →
            out.Ringminer = FixedBytes.zero 20)
        ∧ out.FeeRecepient
            = (if IsZeroAddress feeReceipt then out.Ringminer else feeReceipt) := by
  refine ⟨GenerateSubmitArgs_isSome_iff crypto ring miner feeReceipt, ?_⟩
  intro ring2 out hret
  have hdef := (GenerateSubmitArgs_isSome_iff crypto ring miner feeReceipt).mp
    (by rw [hret]; rfl)
  obtain ⟨h, hh⟩ := hashInUse_isSome crypto ring hdef
  obtain ⟨rec, hrec, hgen⟩ := GenerateSubmitArgs_eq crypto ring miner feeReceipt h hh
  have hh2 := signedWith_hashInUse crypto ring miner h hh
  have hsa := SignerAddress_eq crypto _ h hh2
  have hgs := GenerateAndSetSignature_eq crypto ring miner h hh
  generalize ring.signedWith crypto h miner = sw at hrec hgen hh2 hsa hgs
  rw [hgen] at hret
  simp only [Option.some.injEq, Prod.mk.injEq] at hret
  obtain ⟨rfl, rfl⟩ := hret
  refine ⟨h, hh2, ⟨sw.2, hgs⟩, ⟨rec.2, hrec⟩, ?_, ?_, rfl⟩
  · intro addressBytes hok
    rw [hok] at hsa
    rw [hsa] at hrec
    simp only [Option.some.injEq] at hrec
    rw [← hrec]
  · intro err herr
    rw [herr] at hsa
    rw [hsa] at hrec
    simp only [Option.some.injEq] at hrec
    rw [← hrec]
/-- Witness of C10: on the sample ring the recovered miner is the signing
address 8; a zero fee receipt gives it as fee recipient, the fee receipt 9 gives 9. -/
theorem GenerateSubmitArgs_ringminer_witness :
    (sampleRing2.GenerateSubmitArgs sampleCrypto (sampleAddress 8)
        (FixedBytes.zero 20)).isSome = true
    ∧ (sampleRing2.GenerateSubmitArgs sampleCrypto (sampleAddress 8) (FixedBytes.zero 20)).map
        (fun x => (x.2.Ringminer, x.2.FeeRecepient)) = some (sampleAddress 8, sampleAddress 8)
    ∧ (sampleRing2.GenerateSubmitArgs sampleCrypto (sampleAddress 8) (sampleAddress 9)).map
        (fun x => (x.2.Ringminer, x.2.FeeRecepient)) = some (sampleAddress 8, sampleAddress 9) :=
  ⟨(GenerateSubmitArgs_ringminer sampleCrypto sampleRing2 (sampleAddress 8)
      (FixedBytes.zero 20)).1.mpr (Or.inl (by decide)),
    by decide, by decide⟩

/-! ## A failed signature (C11, C12) -/

/-- When signing fails, `signedWith` only stores the hash and reports the error. -/
theorem signedWith_error (crypto : Crypto) (ring : Ring) (h : common.Hash)
    (signerAddr : common.Address) (err : GoError)
    (hs : crypto.Sign h.Bytes signerAddr = .error err) :
    ring.signedWith crypto h signerAddr = ({ ring with Hash := h }, some err) := by
  unfold Ring.signedWith
  rw [hs]

/-- A stored hash that is not zero is the hash in use. -/
theorem hashInUse_of_nonzero (crypto : Crypto) (ring : Ring)
    (hz : IsZeroHash ring.Hash = false) : ring.hashInUse crypto = some ring.Hash := by
  unfold Ring.hashInUse
  rw [hz]
  rfl

/-- With a zero stored hash the hash in use is the computed one. -/
theorem hashInUse_of_zero (crypto : Crypto) (ring : Ring)
    (hz : IsZeroHash ring.Hash = true) : ring.hashInUse crypto = ring.GenerateHash crypto := by
  unfold Ring.hashInUse
  rw [hz]
  rfl

/-- A call of `GenerateAndSetSignature` that returns had a hash to sign. -/
theorem GenerateAndSetSignature_some (crypto : Crypto) (ring : Ring)
    (signerAddr : common.Address) (r1 : Ring) (e1 : Option GoError)
    (hret : ring.GenerateAndSetSignature crypto signerAddr = some (r1, e1)) :
    ∃ h, ring.hashInUse crypto = some h ∧ ring.signedWith crypto h signerAddr = (r1, e1) := by
  cases hh : ring.hashInUse crypto with
  | some h =>
    rw [GenerateAndSetSignature_eq crypto ring signerAddr h hh] at hret
    exact ⟨h, rfl, Option.some.inj hret⟩
  | none =>
    exfalso
    unfold Ring.hashInUse at hh
    unfold Ring.GenerateAndSetSignature at hret
    cases hz : IsZeroHash ring.Hash with
    | false => rw [hz] at hh; simp at hh
    | true =>
      rw [hz] at hh
      simp only [if_true] at hh
      simp [hz, hh] at hret

/-- The hash stored by `signedWith` is the hash it was given. -/
theorem signedWith_fst_hash (crypto : Crypto) (ring : Ring) (h : common.Hash)
    (signerAddr : common.Address) : (ring.signedWith crypto h signerAddr).1.Hash = h := by
  unfold Ring.signedWith
  cases crypto.Sign h.Bytes signerAddr <;> rfl

/-- The orders of the ring are not touched by `signedWith`. -/
theorem signedWith_fst_orders (crypto : Crypto) (ring : Ring) (h : common.Hash)
    (signerAddr : common.Address) :
    (ring.signedWith crypto h signerAddr).1.Orders = ring.Orders := by
  unfold Ring.signedWith
  cases crypto.Sign h.Bytes signerAddr <;> rfl

/-- C11, as amended: when signing the ring hash for the miner fails,
`GenerateAndSetSignature` returns that error, and `GenerateSubmitArgs` (which has
no error result) still returns submit inputs. Their `VList`, `RList` and `SList`
hold the V, R and S of the orders only, in ring order, with no entry for the
ring, so they are as long as the ring and as `AddressList`; `Ringminer` is what
`SignerAddress` recovers from the unsigned ring and `FeeRecepient` follows the
fee receipt rule. -/
theorem GenerateSubmitArgs_sign_failure (crypto : Crypto) (ring : Ring)
    (miner feeReceipt : common.Address) (h : common.Hash) (err : GoError)
    (hh : ring.hashInUse crypto = some h)
    (hs : crypto.Sign h.Bytes miner = .error err) :
    ring.GenerateAndSetSignature crypto miner = some ({ ring with Hash := h }, some err)
    ∧ ∃ out, ring.GenerateSubmitArgs crypto miner feeReceipt = some ({ ring with Hash := h }, out)
      ∧ out.VList = ring.Orders.map (fun fo => fo.OrderState.RawOrder.V)
      ∧ out.RList = ring.Orders.map (fun fo => fo.OrderState.RawOrder.R)
      ∧ out.SList = ring.Orders.map (fun fo => fo.OrderState.RawOrder.S)
      ∧ out.VList.length = ring.Orders.length
      ∧ out.RList.length = ring.Orders.length
      ∧ out.SList.length = ring.Orders.length
      ∧ out.AddressList.length = ring.Orders.length
      ∧ (∃ e, Ring.SignerAddress crypto { ring with Hash := h } = some (out.Ringminer, e))
      ∧ out.FeeRecepient = (if IsZeroAddress feeReceipt then out.Ringminer else feeReceipt) := by
  have hgs := GenerateAndSetSignature_eq crypto ring miner h hh
  obtain ⟨rec, hrec, hgen⟩ := GenerateSubmitArgs_eq crypto ring miner feeReceipt h hh
  rw [signedWith_error crypto ring h miner err hs] at hgs hrec hgen
  refine ⟨hgs, _, hgen, ?_, ?_, ?_, ?_, ?_, ?_, ?_, ⟨rec.2, hrec⟩, rfl⟩ <;>
    simp [orderArgs_eq]

/-- Witness of C11 as amended: the sample ring of two orders with the zero
address as miner, for which the sample signer has no key. -/
theorem GenerateSubmitArgs_sign_failure_witness :
    (sampleRing2.hashInUse sampleCrypto).isSome = true
    ∧ (sampleRing2.GenerateAndSetSignature sampleCrypto (FixedBytes.zero 20)).map
        (fun x => x.2) = some (some (.ext 1))
    ∧ ∃ out,
        (sampleRing2.GenerateSubmitArgs sampleCrypto (FixedBytes.zero 20) (sampleAddress 9)).map
          (fun x => x.2) = some out
        ∧ out.VList.length = 2 ∧ out.AddressList.length = 2 :=
  have hsome : (sampleRing2.hashInUse sampleCrypto).isSome = true := by decide
  have h := GenerateSubmitArgs_sign_failure sampleCrypto sampleRing2 (FixedBytes.zero 20)
    (sampleAddress 9) ((sampleRing2.hashInUse sampleCrypto).get hsome) (.ext 1)
    (Option.some_get hsome).symm rfl
  ⟨hsome, by rw [h.1]; rfl,
    h.2.elim (fun out ho => ⟨out, by rw [ho.1]; rfl, ho.2.2.2.2.1, ho.2.2.2.2.2.2.2.1⟩)⟩

/-- Counterexample to C11 as stated: for the sample ring and the zero address as
miner signing fails with error 1, yet `GenerateSubmitArgs` returns submit inputs,
with the V values 27 and 28 of the two orders, two addresses and the fee
recipient 9, and no error is reported. -/
theorem GenerateSubmitArgs_sign_failure_counterexample :
    (sampleRing2.GenerateAndSetSignature sampleCrypto (FixedBytes.zero 20)).map (fun x => x.2)
      = some (some (.ext 1))
    ∧ (sampleRing2.GenerateSubmitArgs sampleCrypto (FixedBytes.zero 20) (sampleAddress 9)).isSome
        = true
    ∧ (sampleRing2.GenerateSubmitArgs sampleCrypto (FixedBytes.zero 20) (sampleAddress 9)).map
        (fun x => (x.2.VList, x.2.AddressList.length, x.2.FeeRecepient))
      = some ([27, 28], 2, sampleAddress 9) :=
  ⟨by decide, by decide, by decide⟩

/-- C12: `GenerateAndSetSignature` computes the ring hash only when the stored
`Hash` is the zero hash, and then stores `GenerateHash` of the ring; a stored
hash that is not zero is kept and is exactly the value signed. Whatever the
call returns, the ring it returns holds the hash in use and the same orders, a
second call keeps that hash, and when signing fails the error is returned with
V, R and S unchanged (when it succeeds they are the parts of the signature). -/
theorem GenerateAndSetSignature_hash_once (crypto : Crypto) (ring : Ring)
    (signerAddr : common.Address) :
    (IsZeroHash ring.Hash = true →
      ring.GenerateAndSetSignature crypto signerAddr =
        (ring.GenerateHash crypto).map (fun h => ring.signedWith crypto h signerAddr))
    ∧ (IsZeroHash ring.Hash = true →
      ∀ r1 e1, ring.GenerateAndSetSignature crypto signerAddr = some (r1, e1) →
        ring.GenerateHash crypto = some r1.Hash)
    ∧ (IsZeroHash ring.Hash = false →
      ring.GenerateAndSetSignature crypto signerAddr
        = some (ring.signedWith crypto ring.Hash signerAddr))
    ∧ (IsZeroHash ring.Hash = false →
      ∃ r1 e1, ring.GenerateAndSetSignature crypto signerAddr = some (r1, e1)
        ∧ r1.Hash = ring.Hash
        ∧ (∀ err, crypto.Sign ring.Hash.Bytes signerAddr = .error err → e1 = some err)
        ∧ (∀ sig, crypto.Sign ring.Hash.Bytes signerAddr = .ok sig → e1 = none))
    ∧ (∀ r1 e1, ring.GenerateAndSetSignature crypto signerAddr = some (r1, e1) →
        ∃ h, ring.hashInUse crypto = some h
          ∧ r1.Hash = h
          ∧ r1.Orders = ring.Orders
          ∧ (∀ err, crypto.Sign h.Bytes signerAddr = .error err →
              e1 = some err ∧ r1.V = ring.V ∧ r1.R = ring.R ∧ r1.S = ring.S)
          ∧ (∀ sig, crypto.Sign h.Bytes signerAddr = .ok sig →
              e1 = none ∧ r1.V = uint8 (crypto.SigToVRS sig).1
              ∧ r1.R = crypto.BytesToBytes32 (crypto.SigToVRS sig).2.1
              ∧ r1.S = crypto.BytesToBytes32 (crypto.SigToVRS sig).2.2)
          ∧ (∀ signer2, ∃ r2 e2,
              r1.GenerateAndSetSignature crypto signer2 = some (r2, e2) ∧ r2.Hash = r1.Hash))
    ∧ (∀ r1 err, ring.GenerateAndSetSignature crypto signerAddr = some (r1, some err) →
        r1.V = ring.V ∧ r1.R = ring.R ∧ r1.S = ring.S) := by
  have hmain : ∀ r1 e1, ring.GenerateAndSetSignature crypto signerAddr = some (r1, e1) →
      ∃ h, ring.hashInUse crypto = some h
        ∧ r1.Hash = h
        ∧ r1.Orders = ring.Orders
        ∧ (∀ err, crypto.Sign h.Bytes signerAddr = .error err →
            e1 = some err ∧ r1.V = ring.V ∧ r1.R = ring.R ∧ r1.S = ring.S)
        ∧ (∀ sig, crypto.Sign h.Bytes signerAddr = .ok sig →
            e1 = none ∧ r1.V = uint8 (crypto.SigToVRS sig).1
            ∧ r1.R = crypto.BytesToBytes32 (crypto.SigToVRS sig).2.1
            ∧ r1.S = crypto.BytesToBytes32 (crypto.SigToVRS sig).2.2)
        ∧ (∀ signer2, ∃ r2 e2,
            r1.GenerateAndSetSignature crypto signer2 = some (r2, e2) ∧ r2.Hash = r1.Hash) := by
    intro r1 e1 hret
    obtain ⟨h, hh, hsw⟩ := GenerateAndSetSignature_some crypto ring signerAddr r1 e1 hret
    have hH : r1.Hash = h := by
      have := signedWith_fst_hash crypto ring h signerAddr
      rw [hsw] at this; exact this
    have hO : r1.Orders = ring.Orders := by
      have := signedWith_fst_orders crypto ring h signerAddr
      rw [hsw] at this; exact this
    have hh1 : r1.hashInUse crypto = some h := by
      have := signedWith_hashInUse crypto ring signerAddr h hh
      rw [hsw] at this; exact this
    refine ⟨h, hh, hH, hO, ?_, ?_, ?_⟩
    · intro err hs
      rw [signedWith_error crypto ring h signerAddr err hs] at hsw
      simp only [Prod.mk.injEq] at hsw
      obtain ⟨rfl, rfl⟩ := hsw
      exact ⟨rfl, rfl, rfl, rfl⟩
    · intro sig hs
      rw [signedWith_ok crypto ring h signerAddr sig hs] at hsw
      simp only [Prod.mk.injEq] at hsw
      obtain ⟨rfl, rfl⟩ := hsw
      exact ⟨rfl, rfl, rfl, rfl⟩
    · intro signer2
      exact ⟨(r1.signedWith crypto h signer2).1, (r1.signedWith crypto h signer2).2,
        GenerateAndSetSignature_eq crypto r1 signer2 h hh1,
        (signedWith_fst_hash crypto r1 h signer2).trans hH.symm⟩
  have hnz : IsZeroHash ring.Hash = false →
      ring.GenerateAndSetSignature crypto signerAddr
        = some (ring.signedWith crypto ring.Hash signerAddr) := fun hz =>
    GenerateAndSetSignature_eq crypto ring signerAddr ring.Hash
      (hashInUse_of_nonzero crypto ring hz)
  refine ⟨?_, ?_, hnz, ?_, hmain, ?_⟩
  · intro hz
    cases hg : ring.GenerateHash crypto with
    | none =>
      unfold Ring.GenerateAndSetSignature
      simp [hz, hg]
    | some h =>
      have hh : ring.hashInUse crypto = some h := by
        rw [hashInUse_of_zero crypto ring hz]; exact hg
      rw [GenerateAndSetSignature_eq crypto ring signerAddr h hh]
      rfl
  · intro hz r1 e1 hret
    obtain ⟨h, hh, hH, _⟩ := hmain r1 e1 hret
    rw [← hashInUse_of_zero crypto ring hz, hh, hH]
  · intro hz
    refine ⟨(ring.signedWith crypto ring.Hash signerAddr).1,
      (ring.signedWith crypto ring.Hash signerAddr).2, hnz hz,
      signedWith_fst_hash crypto ring ring.Hash signerAddr, ?_, ?_⟩
    · intro err hs
      rw [signedWith_error crypto ring ring.Hash signerAddr err hs]
    · intro sig hs
      rw [signedWith_ok crypto ring ring.Hash signerAddr sig hs]
  · intro r1 err hret
    obtain ⟨h, _, _, _, herr, hok, _⟩ := hmain r1 (some err) hret
    cases hs : crypto.Sign h.Bytes signerAddr with
    | error e => exact (herr e hs).2
    | ok sig => exact absurd (hok sig hs).1 (by simp)

/-- Witness of C12 on the sample ring, whose stored hash is zero: the call with
the miner 8 returns, with no error, the ring signed over the computed hash, and
a second call on the result, here for the keyless zero address, reports the
error and returns the same hash, V, R and S. -/
theorem GenerateAndSetSignature_hash_once_witness :
    sampleRing2.GenerateAndSetSignature sampleCrypto (sampleAddress 8) =
      (sampleRing2.GenerateHash sampleCrypto).map
        (fun h => sampleRing2.signedWith sampleCrypto h (sampleAddress 8))
    ∧ (sampleRing2.GenerateAndSetSignature sampleCrypto (sampleAddress 8)).map (fun x => x.2)
        = some none
    ∧ ((sampleRing2.GenerateAndSetSignature sampleCrypto (sampleAddress 8)).bind
          (fun x => x.1.GenerateAndSetSignature sampleCrypto (FixedBytes.zero 20))).map
        (fun x => (x.1.Hash, x.1.V, x.1.R, x.1.S, x.2))
      = (sampleRing2.GenerateAndSetSignature sampleCrypto (sampleAddress 8)).map
        (fun x => (x.1.Hash, x.1.V, x.1.R, x.1.S, some (GoError.ext 1))) :=
  ⟨(GenerateAndSetSignature_hash_once sampleCrypto sampleRing2 (sampleAddress 8)).1 (by decide),
    by decide, by decide⟩

/-! ## The block and transaction indexes of the extractor (C13, C14, C15) -/

/-- Fixed-size values with the same bytes are equal. -/
theorem FixedBytes_bytes_injective {n : Nat} (a b : FixedBytes n) (h : a.bytes = b.bytes) :
    a = b := by
  cases a; cases b; simp only [FixedBytes.mk.injEq]; exact h

/-- The cursor key is not a key of the block table (the lengths differ). -/
theorem latest_ne_blockKey (h : types.Hash) :
    goBytes LATEST_BLOCK_NUM ≠ goBytes BLOCK_HASH_TABLE_NAME ++ h.Bytes := by
  intro heq
  have hlen := congrArg List.length heq
  rw [List.length_append] at hlen
  have h1 : (goBytes LATEST_BLOCK_NUM).length = 17 := by decide
  have h2 : (goBytes BLOCK_HASH_TABLE_NAME).length = 16 := by decide
  have h3 : h.Bytes.length = 32 := h.size_eq
  omega

/-- Different hashes give different keys of the block table. -/
theorem blockKey_ne_blockKey (h1 h2 : types.Hash) (hne : h1 ≠ h2) :
    goBytes BLOCK_HASH_TABLE_NAME ++ h1.Bytes ≠ goBytes BLOCK_HASH_TABLE_NAME ++ h2.Bytes := by
  intro heq
  exact hne (FixedBytes_bytes_injective h1 h2 (List.append_cancel_left heq))

/-- Different hashes give different keys of the transaction table. -/
theorem txKey_ne_txKey (h1 h2 : types.Hash) (hne : h1 ≠ h2) :
    goBytes TRANSACTION_HASH_TABLE_NAME ++ h1.Bytes
      ≠ goBytes TRANSACTION_HASH_TABLE_NAME ++ h2.Bytes := by
  intro heq
  exact hne (FixedBytes_bytes_injective h1 h2 (List.append_cancel_left heq))

/-- No key of the transaction table is the cursor key. -/
theorem txKey_ne_latest (h : types.Hash) :
    goBytes TRANSACTION_HASH_TABLE_NAME ++ h.Bytes ≠ goBytes LATEST_BLOCK_NUM := by
  intro heq
  have hlen := congrArg List.length heq
  rw [List.length_append] at hlen
  have h1 : (goBytes LATEST_BLOCK_NUM).length = 17 := by decide
  have h2 : (goBytes TRANSACTION_HASH_TABLE_NAME).length = 22 := by decide
  have h3 : h.Bytes.length = 32 := h.size_eq
  omega

/-- The keys of the two tables differ (the prefixes have different lengths). -/
theorem txKey_ne_blockKey (h1 h2 : types.Hash) :
    goBytes TRANSACTION_HASH_TABLE_NAME ++ h1.Bytes ≠ goBytes BLOCK_HASH_TABLE_NAME ++ h2.Bytes := by
  intro heq
  have hlen := congrArg List.length heq
  rw [List.length_append, List.length_append] at hlen
  have h1l : (goBytes BLOCK_HASH_TABLE_NAME).length = 16 := by decide
  have h2l : (goBytes TRANSACTION_HASH_TABLE_NAME).length = 22 := by decide
  have h3 : h1.Bytes.length = 32 := h1.size_eq
  have h4 : h2.Bytes.length = 32 := h2.size_eq
  omega

/-- What `SaveBlock` does in terms of the two writes. -/
theorem SaveBlock_eq {σ : Type} (codec : Codec) (database : Database σ)
    (options : CommonOptions) (s : σ) (block : BlockWithTxObject) :
    (NewRds database options).SaveBlock codec s block =
      match database.Put s (goBytes LATEST_BLOCK_NUM) (codec.MarshalText block.Number) with
      | (s1, some err) => (s1, some err)
      | (s1, none) =>
        match codec.MarshalJSON (createBlockIndex block) with
        | .error err => (s1, some err)
        | .ok value =>
          match database.Put s1 (goBytes BLOCK_HASH_TABLE_NAME ++ block.Hash.Bytes) value with
          | (s2, some err) => (s2, some err)
          | (s2, none) => (s2, none) := by
  unfold Rds.SaveBlock Rds.SaveBlockNumber Rds.SaveBlockIndex blockNumberToBytes NewRds NewTable
    createBlockIndex
  simp only
  cases h1 : database.Put s (goBytes LATEST_BLOCK_NUM) (codec.MarshalText block.Number) with
  | mk s1 e1 =>
    cases e1 with
    | some err => rfl
    | none =>
      simp only
      cases h2 : codec.MarshalJSON
          { Number := block.Number, Hash := block.Hash, ParentHash := block.ParentHash } with
      | error err => rfl
      | ok value =>
        cases h3 : database.Put s1 (goBytes BLOCK_HASH_TABLE_NAME ++ block.Hash.Bytes) value with
        | mk s2 e2 => cases e2 <;> rfl

/-- A `SaveBlock` without error made its two writes without error. -/
theorem SaveBlock_ok {σ : Type} (codec : Codec) (database : Database σ)
    (options : CommonOptions) (s s2 : σ) (block : BlockWithTxObject)
    (hsave : (NewRds database options).SaveBlock codec s block = (s2, none)) :
    ∃ s1 value,
      database.Put s (goBytes LATEST_BLOCK_NUM) (codec.MarshalText block.Number) = (s1, none)
      ∧ codec.MarshalJSON (createBlockIndex block) = .ok value
      ∧ database.Put s1 (goBytes BLOCK_HASH_TABLE_NAME ++ block.Hash.Bytes) value = (s2, none) := by
  rw [SaveBlock_eq] at hsave
  cases h1 : database.Put s (goBytes LATEST_BLOCK_NUM) (codec.MarshalText block.Number) with
  | mk s1 e1 =>
    rw [h1] at hsave
    cases e1 with
    | some err => simp at hsave
    | none =>
      simp only at hsave
      cases h2 : codec.MarshalJSON (createBlockIndex block) with
      | error err => rw [h2] at hsave; simp at hsave
      | ok value =>
        rw [h2] at hsave
        simp only at hsave
        cases h3 : database.Put s1 (goBytes BLOCK_HASH_TABLE_NAME ++ block.Hash.Bytes) value with
        | mk s3 e3 =>
          rw [h3] at hsave
          cases e3 with
          | some err => simp at hsave
          | none =>
            simp only [Prod.mk.injEq, and_true] at hsave
            subst hsave
            exact ⟨s1, value, rfl, rfl, h3⟩

/-- What `GetBlockIndex` does in terms of the read. -/
theorem GetBlockIndex_eq {σ : Type} (codec : Codec) (database : Database σ)
    (options : CommonOptions) (s : σ) (key : types.Hash) :
    (NewRds database options).GetBlockIndex codec s key =
      match database.Get s (goBytes BLOCK_HASH_TABLE_NAME ++ key.Bytes) with
      | .error err => .error err
      | .ok bs => codec.UnmarshalJSON bs := by
  unfold Rds.GetBlockIndex NewRds NewTable
  simp only
  cases database.Get s (goBytes BLOCK_HASH_TABLE_NAME ++ key.Bytes) with
  | error err => rfl
  | ok bs =>
    simp only
    cases codec.UnmarshalJSON bs <;> rfl

/-- What `GetBlockNumber` does in terms of the read. -/
theorem GetBlockNumber_eq {σ : Type} (codec : Codec) (database : Database σ)
    (options : CommonOptions) (s : σ) :
    (NewRds database options).GetBlockNumber codec s =
      match database.Get s (goBytes LATEST_BLOCK_NUM) with
      | .error err => .error err
      | .ok bs => codec.UnmarshalText bs := by
  unfold Rds.GetBlockNumber bytesToBlockNumber NewRds
  simp only
  cases database.Get s (goBytes LATEST_BLOCK_NUM) with
  | error err => rfl
  | ok bs =>
    simp only
    cases codec.UnmarshalText bs <;> rfl

/-- The sample store is lawful. -/
theorem sampleDb_lawful : sampleDb.Lawful := by
  intro s key value s2 hput
  simp only [sampleDb, Prod.mk.injEq, and_true] at hput
  subst hput
  refine ⟨by simp [sampleDb], ?_⟩
  intro key2 hne
  simp [sampleDb, hne]

/-- C13: on a lawful store, for a block whose encoded index decodes back to the
index, after a `SaveBlock` that returned no error (its writes succeeded)
`GetBlockIndex` of the hash of the block succeeds and returns an index whose
`Number`, `Hash` and `ParentHash` are those of the block. -/
theorem SaveBlock_GetBlockIndex {σ : Type} (codec : Codec) (database : Database σ)
    (options : CommonOptions) (s s2 : σ) (block : BlockWithTxObject)
    (hlaw : database.Lawful)
    (hdec : ∀ bs, codec.MarshalJSON (createBlockIndex block) = .ok bs →
      codec.UnmarshalJSON bs = .ok (createBlockIndex block))
    (hsave : (NewRds database options).SaveBlock codec s block = (s2, none)) :
    ∃ bi, (NewRds database options).GetBlockIndex codec s2 block.Hash = .ok bi
      ∧ bi.Number = block.Number ∧ bi.Hash = block.Hash ∧ bi.ParentHash = block.ParentHash := by
  obtain ⟨s1, value, _, hm, hp⟩ := SaveBlock_ok codec database options s s2 block hsave
  refine ⟨createBlockIndex block, ?_, rfl, rfl, rfl⟩
  rw [GetBlockIndex_eq, (hlaw s1 _ value s2 hp).1]
  exact hdec value hm

/-- Witness of C13: block 100 with hash 1 saved in the empty sample store. -/
theorem SaveBlock_GetBlockIndex_witness :
    ∃ bi, sampleRds.GetBlockIndex sampleCodec
        (sampleRds.SaveBlock sampleCodec (fun _ => none) (sampleBlock 100 1 0)).1 (sampleWord 1)
        = .ok bi
      ∧ bi.Number = 100 ∧ bi.Hash = sampleWord 1 ∧ bi.ParentHash = sampleWord 0 :=
  SaveBlock_GetBlockIndex sampleCodec sampleDb { DefaultBlockNumber := 0 } (fun _ => none) _
    (sampleBlock 100 1 0) sampleDb_lawful (fun _ hm => by cases hm; rfl) rfl

/-- On a store whose writes succeed, `SaveBlock` of a block whose index encodes
returns no error, whatever the block number stored before. -/
theorem SaveBlock_of_writes {σ : Type} (codec : Codec) (database : Database σ)
    (options : CommonOptions) (s : σ) (block : BlockWithTxObject) (value : List Byte)
    (hwrite : ∀ (s : σ) (key value : List Byte), (database.Put s key value).2 = none)
    (hm : codec.MarshalJSON (createBlockIndex block) = .ok value) :
    (NewRds database options).SaveBlock codec s block =
      ((database.Put
          (database.Put s (goBytes LATEST_BLOCK_NUM) (codec.MarshalText block.Number)).1
          (goBytes BLOCK_HASH_TABLE_NAME ++ block.Hash.Bytes) value).1, none) := by
  rw [SaveBlock_eq, hm]
  have h1 := hwrite s (goBytes LATEST_BLOCK_NUM) (codec.MarshalText block.Number)
  cases hp1 : database.Put s (goBytes LATEST_BLOCK_NUM) (codec.MarshalText block.Number) with
  | mk s1 e1 =>
    rw [hp1] at h1
    simp only at h1
    subst h1
    simp only
    have h2 := hwrite s1 (goBytes BLOCK_HASH_TABLE_NAME ++ block.Hash.Bytes) value
    cases hp2 : database.Put s1 (goBytes BLOCK_HASH_TABLE_NAME ++ block.Hash.Bytes) value with
    | mk s2 e2 =>
      rw [hp2] at h2
      simp only at h2
      subst h2
      rfl

/-- On a store whose writes succeed a write returns no error. -/
theorem Put_eq_of_writes {σ : Type} (database : Database σ)
    (hwrite : ∀ (s : σ) (key value : List Byte), (database.Put s key value).2 = none)
    (s : σ) (key value : List Byte) :
    database.Put s key value = ((database.Put s key value).1, none) := by
  have h := hwrite s key value
  cases hp : database.Put s key value with
  | mk s1 e1 =>
    rw [hp] at h
    simp only at h
    subst h
    rfl

/-- C14: on a lawful store whose writes succeed, for two blocks with different
hashes whose indexes encode and decode back (and the number of the second
decodes back from its text), from any state of the store, the never written one
included: `SaveBlock` of the first and then of the second both return no error,
`GetBlockNumber` then returns the number of the second block, with no condition
on how the two numbers compare, and `GetBlockIndex` of each hash returns the
index of its own block. -/
theorem SaveBlock_last_write_wins {σ : Type} (codec : Codec) (database : Database σ)
    (options : CommonOptions) (s : σ) (b1 b2 : BlockWithTxObject) (bs1 bs2 : List Byte)
    (hlaw : database.Lawful)
    (hwrite : ∀ (s : σ) (key value : List Byte), (database.Put s key value).2 = none)
    (hm1 : codec.MarshalJSON (createBlockIndex b1) = .ok bs1)
    (hd1 : codec.UnmarshalJSON bs1 = .ok (createBlockIndex b1))
    (hm2 : codec.MarshalJSON (createBlockIndex b2) = .ok bs2)
    (hd2 : codec.UnmarshalJSON bs2 = .ok (createBlockIndex b2))
    (ht2 : codec.UnmarshalText (codec.MarshalText b2.Number) = .ok b2.Number)
    (hne : b1.Hash ≠ b2.Hash) :
    ∃ s1 s2,
      (NewRds database options).SaveBlock codec s b1 = (s1, none)
      ∧ (NewRds database options).SaveBlock codec s1 b2 = (s2, none)
      ∧ (NewRds database options).GetBlockNumber codec s2 = .ok b2.Number
      ∧ (NewRds database options).GetBlockIndex codec s2 b1.Hash = .ok (createBlockIndex b1)
      ∧ (NewRds database options).GetBlockIndex codec s2 b2.Hash
          = .ok (createBlockIndex b2) := by
  have hsave1 := SaveBlock_of_writes codec database options s b1 bs1 hwrite hm1
  obtain ⟨a, va, hpa, hma, hpb⟩ := SaveBlock_ok codec database options s _ b1 hsave1
  have hva : va = bs1 := by rw [hm1] at hma; exact (Except.ok.inj hma).symm
  subst hva
  generalize (database.Put
      (database.Put s (goBytes LATEST_BLOCK_NUM) (codec.MarshalText b1.Number)).1
      (goBytes BLOCK_HASH_TABLE_NAME ++ b1.Hash.Bytes) va).1 = s1 at hsave1 hpb
  have hsave2 := SaveBlock_of_writes codec database options s1 b2 bs2 hwrite hm2
  obtain ⟨b, vb, hpc, hmb, hpd⟩ := SaveBlock_ok codec database options s1 _ b2 hsave2
  have hvb : vb = bs2 := by rw [hm2] at hmb; exact (Except.ok.inj hmb).symm
  subst hvb
  generalize (database.Put
      (database.Put s1 (goBytes LATEST_BLOCK_NUM) (codec.MarshalText b2.Number)).1
      (goBytes BLOCK_HASH_TABLE_NAME ++ b2.Hash.Bytes) vb).1 = s2 at hsave2 hpd
  have lb := hlaw a _ va s1 hpb
  have lc := hlaw s1 _ _ b hpc
  have ld := hlaw b _ vb s2 hpd
  refine ⟨s1, s2, hsave1, hsave2, ?_, ?_, ?_⟩
  · rw [GetBlockNumber_eq, ld.2 _ (latest_ne_blockKey b2.Hash), lc.1]
    exact ht2
  · rw [GetBlockIndex_eq, ld.2 _ (blockKey_ne_blockKey b1.Hash b2.Hash hne),
      lc.2 _ (fun h => latest_ne_blockKey b1.Hash h.symm), lb.1]
    exact hd1
  · rw [GetBlockIndex_eq, ld.1]
    exact hd2

/-- Witness of C14: block 100 and then block 99 saved in the empty sample store,
whose cursor was never written. -/
theorem SaveBlock_last_write_wins_witness :
    ∃ s1 s2,
      sampleRds.SaveBlock sampleCodec (fun _ => none) (sampleBlock 100 1 0) = (s1, none)
      ∧ sampleRds.SaveBlock sampleCodec s1 (sampleBlock 99 2 1) = (s2, none)
      ∧ sampleRds.GetBlockNumber sampleCodec s2 = .ok 99
      ∧ sampleRds.GetBlockIndex sampleCodec s2 (sampleWord 1)
          = .ok (createBlockIndex (sampleBlock 100 1 0))
      ∧ sampleRds.GetBlockIndex sampleCodec s2 (sampleWord 2)
          = .ok (createBlockIndex (sampleBlock 99 2 1)) :=
  SaveBlock_last_write_wins sampleCodec sampleDb { DefaultBlockNumber := 0 } (fun _ => none)
    (sampleBlock 100 1 0) (sampleBlock 99 2 1) _ _ sampleDb_lawful (fun _ _ _ => rfl)
    rfl rfl rfl rfl rfl (by decide)

/-- The search loop of `FindTransaction` decides membership. -/
theorem FindTransaction_loop_eq (txhash : types.Hash) (txs : List types.Hash) :
    Rds.FindTransaction.loop txhash txs = (decide (txhash ∈ txs), none) := by
  induction txs with
  | nil => simp [Rds.FindTransaction.loop]
  | cons v rest ih =>
    unfold Rds.FindTransaction.loop
    by_cases hv : v = txhash
    · simp [hv]
    · have hv2 : ¬ txhash = v := fun h => hv h.symm
      simp [hv, hv2, ih]

/-- What `FindTransaction` does in terms of the read. -/
theorem FindTransaction_eq {σ : Type} (codec : Codec) (database : Database σ)
    (options : CommonOptions) (s : σ) (blockhash txhash : types.Hash) :
    (NewRds database options).FindTransaction codec s blockhash txhash =
      match database.Get s (goBytes TRANSACTION_HASH_TABLE_NAME ++ blockhash.Bytes) with
      | .error err => (false, some err)
      | .ok bs =>
        match codec.jsonUnmarshal bs with
        | .error err => (false, some err)
        | .ok txindex => (decide (txhash ∈ txindex.Txs), none) := by
  unfold Rds.FindTransaction NewRds NewTable
  simp only
  cases database.Get s (goBytes TRANSACTION_HASH_TABLE_NAME ++ blockhash.Bytes) with
  | error err => rfl
  | ok bs =>
    simp only
    cases codec.jsonUnmarshal bs with
    | error err => rfl
    | ok txindex => exact FindTransaction_loop_eq txhash txindex.Txs

/-- A `SaveTransactions` without error encoded the index and wrote it. -/
theorem SaveTransactions_ok {σ : Type} (codec : Codec) (database : Database σ)
    (options : CommonOptions) (s s2 : σ) (blockhash : types.Hash) (txhashs : List types.Hash)
    (hsave : (NewRds database options).SaveTransactions codec s blockhash txhashs = (s2, none)) :
    ∃ bs, codec.jsonMarshal { Txs := txhashs } = .ok bs
      ∧ database.Put s (goBytes TRANSACTION_HASH_TABLE_NAME ++ blockhash.Bytes) bs
          = (s2, none) := by
  unfold Rds.SaveTransactions NewRds NewTable at hsave
  simp only at hsave
  cases hm : codec.jsonMarshal { Txs := txhashs } with
  | error err => rw [hm] at hsave; simp at hsave
  | ok bs =>
    rw [hm] at hsave
    exact ⟨bs, rfl, hsave⟩

/-- C15: on a lawful store, after a `SaveTransactions` of the list `txs` under
the block hash `h` that returned no error (the list decoding back from its
encoding), `FindTransaction` of `h` and `t` returns true and no error when `t`
occurs in `txs`, and false and no error when it does not; that answer is the
same after later saves under other block hashes and after later `SaveBlock`
calls, so it is the most recent save under `h` that decides. Where the read of
the transaction table fails, `FindTransaction` returns false with that read
error. -/
theorem FindTransaction_after_save {σ : Type} (codec : Codec) (database : Database σ)
    (options : CommonOptions) (s s2 : σ) (h : types.Hash) (txs : List types.Hash)
    (t : types.Hash)
    (hlaw : database.Lawful)
    (hdec : ∀ bs, codec.jsonMarshal { Txs := txs } = .ok bs →
      codec.jsonUnmarshal bs = .ok { Txs := txs })
    (hsave : (NewRds database options).SaveTransactions codec s h txs = (s2, none)) :
    (t ∈ txs → (NewRds database options).FindTransaction codec s2 h t = (true, none))
    ∧ (t ∉ txs → (NewRds database options).FindTransaction codec s2 h t = (false, none))
    ∧ (∀ (h2 : types.Hash) (txs2 : List types.Hash) (s3 : σ), h2 ≠ h →
        (NewRds database options).SaveTransactions codec s2 h2 txs2 = (s3, none) →
        (NewRds database options).FindTransaction codec s3 h t
          = (NewRds database options).FindTransaction codec s2 h t)
    ∧ (∀ (block : BlockWithTxObject) (s3 : σ),
        (NewRds database options).SaveBlock codec s2 block = (s3, none) →
        (NewRds database options).FindTransaction codec s3 h t
          = (NewRds database options).FindTransaction codec s2 h t)
    ∧ (∀ (s0 : σ) (h0 : types.Hash) (err : GoError),
        (NewRds database options).txhashTable.Get s0 h0.Bytes = .error err →
        (NewRds database options).FindTransaction codec s0 h0 t = (false, some err)) := by
  obtain ⟨bs, hm, hp⟩ := SaveTransactions_ok codec database options s s2 h txs hsave
  have hfind : (NewRds database options).FindTransaction codec s2 h t
      = (decide (t ∈ txs), none) := by
    rw [FindTransaction_eq, (hlaw s _ bs s2 hp).1]
    simp only [hdec bs hm]
  refine ⟨?_, ?_, ?_, ?_, ?_⟩
  · intro hin
    rw [hfind]; simp [hin]
  · intro hnin
    rw [hfind]; simp [hnin]
  · intro h2 txs2 s3 hne hsave2
    obtain ⟨bs2, _, hp2⟩ := SaveTransactions_ok codec database options s2 s3 h2 txs2 hsave2
    rw [FindTransaction_eq, FindTransaction_eq,
      (hlaw s2 _ bs2 s3 hp2).2 _ (txKey_ne_txKey h h2 (fun e => hne e.symm))]
  · intro block s3 hsave2
    obtain ⟨s1, value, hpa, _, hpb⟩ := SaveBlock_ok codec database options s2 s3 block hsave2
    rw [FindTransaction_eq, FindTransaction_eq,
      (hlaw s1 _ value s3 hpb).2 _ (txKey_ne_blockKey h block.Hash),
      (hlaw s2 _ _ s1 hpa).2 _ (txKey_ne_latest h)]
  · intro s0 h0 err hget
    rw [FindTransaction_eq]
    have hget2 : database.Get s0 (goBytes TRANSACTION_HASH_TABLE_NAME ++ h0.Bytes)
        = .error err := hget
    rw [hget2]

/-- Witness of C15: the transactions 5 and 6 saved under the block hash 1 in the
empty sample store; 6 is found, 7 is not, and the lookup under the block hash 2,
never saved, returns the read error 404 of the store. -/
theorem FindTransaction_after_save_witness :
    sampleRds.FindTransaction sampleCodec
        (sampleRds.SaveTransactions sampleCodec (fun _ => none) (sampleWord 1)
          [sampleWord 5, sampleWord 6]).1 (sampleWord 1) (sampleWord 6) = (true, none)
    ∧ sampleRds.FindTransaction sampleCodec
        (sampleRds.SaveTransactions sampleCodec (fun _ => none) (sampleWord 1)
          [sampleWord 5, sampleWord 6]).1 (sampleWord 1) (sampleWord 7) = (false, none)
    ∧ sampleRds.FindTransaction sampleCodec
        (sampleRds.SaveTransactions sampleCodec (fun _ => none) (sampleWord 1)
          [sampleWord 5, sampleWord 6]).1 (sampleWord 2) (sampleWord 6)
        = (false, some (.ext 404)) :=
  have h := FindTransaction_after_save sampleCodec sampleDb { DefaultBlockNumber := 0 }
    (fun _ => none) _ (sampleWord 1) [sampleWord 5, sampleWord 6] (sampleWord 6)
    sampleDb_lawful (fun _ hm => by cases hm; rfl) rfl
  ⟨h.1 (by decide), by decide, by decide⟩

/-! ## Contract calls and transactions of the client (C16, C17, C18) -/

/-- The comparison `x.Cmp(0) <= 0` says that `x` is not positive. -/
theorem bigCmp_zero_le_iff (x : Int) : bigCmp x 0 ≤ 0 ↔ x ≤ 0 := by
  unfold bigCmp
  split_ifs with h1 h2
  · simp; omega
  · simp; omega
  · simp; omega

/-- A nil or non-positive `gasPrice` is refused before any request. -/
theorem SendTransactionWithSpecificGas_gasPrice {α σ ρ : Type} (m : AbiMethod α σ ρ)
    (n : Node σ) (fromAddr : types.Address) (gas gasPrice : Option Int) (args : α)
    (dataBytes : List Byte) (hpack : m.Abi.Pack m.Name args = .ok dataBytes)
    (hbad : gasPrice = none ∨ ∃ gp, gasPrice = some gp ∧ gp ≤ 0) :
    m.SendTransactionWithSpecificGas n fromAddr gas gasPrice args
      = (n, "", some .gasPriceMustBeSetted) := by
  unfold AbiMethod.SendTransactionWithSpecificGas
  rw [hpack]
  rcases hbad with rfl | ⟨gp, rfl, hgp⟩
  · rfl
  · simp [bigCmp_zero_le_iff, hgp]

/-- With a positive `gasPrice`, a nil or non-positive `gas` is refused before any
request. -/
theorem SendTransactionWithSpecificGas_gas {α σ ρ : Type} (m : AbiMethod α σ ρ)
    (n : Node σ) (fromAddr : types.Address) (gas gasPrice : Option Int) (args : α)
    (dataBytes : List Byte) (hpack : m.Abi.Pack m.Name args = .ok dataBytes)
    (hgood : ∃ gp, gasPrice = some gp ∧ 0 < gp)
    (hbad : gas = none ∨ ∃ g, gas = some g ∧ g ≤ 0) :
    m.SendTransactionWithSpecificGas n fromAddr gas gasPrice args
      = (n, "", some .gasMustBeSetted) := by
  unfold AbiMethod.SendTransactionWithSpecificGas
  rw [hpack]
  obtain ⟨gp, rfl, hgp⟩ := hgood
  rcases hbad with rfl | ⟨g, rfl, hg⟩
  · simp [bigCmp_zero_le_iff, not_le.mpr hgp]
  · simp [bigCmp_zero_le_iff, not_le.mpr hgp, hg]

/-- C16: for arguments that encode, `SendTransactionWithSpecificGas` returns an
error and the empty transaction hash and leaves the node as it was, so with no
request made, whenever `gasPrice` is nil or not positive (the error names the gas
price) or `gas` is nil or not positive (the error names the gas when the gas
price is positive); with both positive its result is that of
`doSendTransaction` on the same node with the supplied `gas` and `gasPrice` and
the encoded data. -/
theorem SendTransactionWithSpecificGas_checks {α σ ρ : Type} (m : AbiMethod α σ ρ)
    (n : Node σ) (fromAddr : types.Address) (gas gasPrice : Option Int) (args : α)
    (dataBytes : List Byte) (hpack : m.Abi.Pack m.Name args = .ok dataBytes) :
    ((gasPrice = none ∨ ∃ gp, gasPrice = some gp ∧ gp ≤ 0) →
      m.SendTransactionWithSpecificGas n fromAddr gas gasPrice args
        = (n, "", some .gasPriceMustBeSetted))
    ∧ ((∃ gp, gasPrice = some gp ∧ 0 < gp) → (gas = none ∨ ∃ g, gas = some g ∧ g ≤ 0) →
      m.SendTransactionWithSpecificGas n fromAddr gas gasPrice args
        = (n, "", some .gasMustBeSetted))
    ∧ (((gasPrice = none ∨ ∃ gp, gasPrice = some gp ∧ gp ≤ 0)
          ∨ (gas = none ∨ ∃ g, gas = some g ∧ g ≤ 0)) →
      ∃ err, m.SendTransactionWithSpecificGas n fromAddr gas gasPrice args = (n, "", some err))
    ∧ (∀ g gp, gas = some g → gasPrice = some gp → 0 < g → 0 < gp →
      m.SendTransactionWithSpecificGas n fromAddr gas gasPrice args
        = m.doSendTransaction n fromAddr g gp dataBytes) := by
  have hA := SendTransactionWithSpecificGas_gasPrice m n fromAddr gas gasPrice args dataBytes hpack
  have hB := SendTransactionWithSpecificGas_gas m n fromAddr gas gasPrice args dataBytes hpack
  refine ⟨hA, hB, ?_, ?_⟩
  · rintro (hp | hg)
    · exact ⟨_, hA hp⟩
    · by_cases hp : gasPrice = none ∨ ∃ gp, gasPrice = some gp ∧ gp ≤ 0
      · exact ⟨_, hA hp⟩
      · have hpos : ∃ gp, gasPrice = some gp ∧ 0 < gp := by
          cases gasPrice with
          | none => exact absurd (Or.inl rfl) hp
          | some gp =>
            refine ⟨gp, rfl, ?_⟩
            by_contra hle
            exact hp (Or.inr ⟨gp, rfl, not_lt.mp hle⟩)
        exact ⟨_, hB hpos hg⟩
  · rintro g gp rfl rfl hg hgp
    unfold AbiMethod.SendTransactionWithSpecificGas
    rw [hpack]
    simp [bigCmp_zero_le_iff, not_le.mpr hg, not_le.mpr hgp]

/-- Witness of C16: the sample method with two arguments, which encode; a nil gas
price, a zero gas and a positive pair. -/
theorem SendTransactionWithSpecificGas_checks_witness :
    sampleMethod.SendTransactionWithSpecificGas sampleNode (sampleAddress 7) (some 21000) none
        [1, 2] = (sampleNode, "", some .gasPriceMustBeSetted)
    ∧ sampleMethod.SendTransactionWithSpecificGas sampleNode (sampleAddress 7) (some 0) (some 20)
        [1, 2] = (sampleNode, "", some .gasMustBeSetted)
    ∧ sampleMethod.SendTransactionWithSpecificGas sampleNode (sampleAddress 7) (some 21000)
        (some 20) [1, 2]
      = sampleMethod.doSendTransaction sampleNode (sampleAddress 7) 21000 20 [1, 2] :=
  ⟨(SendTransactionWithSpecificGas_checks sampleMethod sampleNode (sampleAddress 7)
      (some 21000) none [1, 2] [1, 2] rfl).1 (Or.inl rfl),
    rfl, rfl⟩

/-- C17: when encoding the arguments for the method fails, each of `Call`,
`SendTransaction` and `SendTransactionWithSpecificGas` returns that encoding
error (with the empty transaction hash for the two sends) and leaves the node as
it was: its state and its list of requests are unchanged, so no call, gas price,
gas estimate, transaction count or send request was made. -/
theorem pack_error_no_request {α σ ρ : Type} (m : AbiMethod α σ ρ) (n : Node σ)
    (args : α) (err : EthError) (hpack : m.Abi.Pack m.Name args = .error err) :
    (∀ blockParameter : String, m.Call n blockParameter args = (n, .error err))
    ∧ (∀ fromAddr : types.Address, m.SendTransaction n fromAddr args = (n, "", some err))
    ∧ (∀ (fromAddr : types.Address) (gas gasPrice : Option Int),
        m.SendTransactionWithSpecificGas n fromAddr gas gasPrice args = (n, "", some err)) := by
  refine ⟨?_, ?_, ?_⟩
  · intro blockParameter
    unfold AbiMethod.Call
    rw [hpack]
  · intro fromAddr
    unfold AbiMethod.SendTransaction
    simp only [hpack]
  · intro fromAddr gas gasPrice
    unfold AbiMethod.SendTransactionWithSpecificGas
    rw [hpack]

/-- Witness of C17: the sample method with three arguments, which the sample ABI
refuses with error 7. -/
theorem pack_error_no_request_witness :
    sampleMethod.Call sampleNode "latest" [1, 2, 3] = (sampleNode, .error (.ext 7))
    ∧ sampleMethod.SendTransaction sampleNode (sampleAddress 7) [1, 2, 3]
        = (sampleNode, "", some (.ext 7))
    ∧ sampleMethod.SendTransactionWithSpecificGas sampleNode (sampleAddress 7) (some 21000)
        (some 20) [1, 2, 3] = (sampleNode, "", some (.ext 7)) :=
  have h := pack_error_no_request sampleMethod sampleNode [1, 2, 3] (.ext 7) rfl
  ⟨h.1 "latest", h.2.1 (sampleAddress 7), h.2.2 (sampleAddress 7) (some 21000) (some 20)⟩

/-- The conversion `Uint64` keeps a number that fits 64 bits. -/
theorem Big_Uint64_of_range (nonce : Int) (h0 : 0 ≤ nonce) (h1 : nonce < 2 ^ 64) :
    (Big.Uint64 nonce : Int) = nonce := by
  unfold Big.Uint64
  have hlt : nonce.natAbs < 2 ^ 64 := by omega
  rw [Nat.mod_eq_of_lt hlt]
  omega

/-- C18: `doSendTransaction` first asks the node for the pending transaction
count of `from`. When that fails it returns the error and the empty hash, and
the count request is the only request made. Otherwise it makes exactly one more
request: when `from` is among the senders of the client, a local sign and send
of the transaction to the contract address with amount 0, the given gas, gas
price and data and the fetched nonce (converted by `Uint64`, which keeps every
nonce from 0 to 2^64 - 1); when it is not, the remote `SendTransaction` with the
arguments `From`, `To` the contract address, the given gas and gas price, value
0, the data in hex and the fetched nonce. The hash and error returned are those
of that request. -/
theorem doSendTransaction_cases {α σ ρ : Type} (m : AbiMethod α σ ρ) (n : Node σ)
    (fromAddr : types.Address) (gas gasPrice : Int) (data : List Byte) :
    (∀ err, (m.Client.GetTransactionCount n.state fromAddr "pending").2 = .error err →
      m.doSendTransaction n fromAddr gas gasPrice data =
        ({ state := (m.Client.GetTransactionCount n.state fromAddr "pending").1,
           requests := n.requests ++ [.GetTransactionCount fromAddr "pending"] }, "", some err))
    ∧ (∀ nonce, (m.Client.GetTransactionCount n.state fromAddr "pending").2 = .ok nonce →
        fromAddr ∈ m.Client.senders →
        m.doSendTransaction n fromAddr gas gasPrice data =
          ({ state := (m.Client.SignAndSendTransaction
                (m.Client.GetTransactionCount n.state fromAddr "pending").1 fromAddr
                { nonce := Big.Uint64 nonce, recipient := m.ContractAddress, amount := 0,
                  gasLimit := gas, gasPrice := gasPrice, data := data }).1,
             requests := n.requests ++ [.GetTransactionCount fromAddr "pending",
                .SignAndSendTransaction fromAddr
                  { nonce := Big.Uint64 nonce, recipient := m.ContractAddress, amount := 0,
                    gasLimit := gas, gasPrice := gasPrice, data := data }] },
            (m.Client.SignAndSendTransaction
                (m.Client.GetTransactionCount n.state fromAddr "pending").1 fromAddr
                { nonce := Big.Uint64 nonce, recipient := m.ContractAddress, amount := 0,
                  gasLimit := gas, gasPrice := gasPrice, data := data }).2))
    ∧ (∀ nonce, (m.Client.GetTransactionCount n.state fromAddr "pending").2 = .ok nonce →
        fromAddr ∉ m.Client.senders →
        m.doSendTransaction n fromAddr gas gasPrice data =
          ({ state := (m.Client.SendTransaction
                (m.Client.GetTransactionCount n.state fromAddr "pending").1
                { From := fromAddr, To := m.ContractAddress, Gas := some gas,
                  GasPrice := some gasPrice, Value := some 0, Data := common.ToHex data,
                  Nonce := some nonce }).1,
             requests := n.requests ++ [.GetTransactionCount fromAddr "pending",
                .SendTransaction
                  { From := fromAddr, To := m.ContractAddress, Gas := some gas,
                    GasPrice := some gasPrice, Value := some 0, Data := common.ToHex data,
                    Nonce := some nonce }] },
            (m.Client.SendTransaction
                (m.Client.GetTransactionCount n.state fromAddr "pending").1
                { From := fromAddr, To := m.ContractAddress, Gas := some gas,
                  GasPrice := some gasPrice, Value := some 0, Data := common.ToHex data,
                  Nonce := some nonce }).2))
    ∧ (∀ nonce : Int, 0 ≤ nonce → nonce < 2 ^ 64 → (Big.Uint64 nonce : Int) = nonce) := by
  refine ⟨?_, ?_, ?_, Big_Uint64_of_range⟩
  · intro err herr
    unfold AbiMethod.doSendTransaction Node.ask
    simp only [herr]
  · intro nonce hok hin
    unfold AbiMethod.doSendTransaction Node.ask NewTransaction
    simp only [hok, hin, if_true, List.append_assoc, List.singleton_append]
  · intro nonce hok hnin
    unfold AbiMethod.doSendTransaction Node.ask
    simp only [hok, hnin, if_false, List.append_assoc, List.singleton_append]

/-- Witness of C18 on the sample node, whose pending count is 3: address 7 is a
local sender, address 5 is not, and address 6 has no count. -/
theorem doSendTransaction_cases_witness :
    sampleMethod.doSendTransaction sampleNode (sampleAddress 7) 21000 20 [1, 2]
      = ({ state := 4,
           requests := [.GetTransactionCount (sampleAddress 7) "pending",
             .SignAndSendTransaction (sampleAddress 7)
               { nonce := 3, recipient := sampleAddress 9, amount := 0, gasLimit := 21000,
                 gasPrice := 20, data := [1, 2] }] }, "0xlocal", none)
    ∧ sampleMethod.doSendTransaction sampleNode (sampleAddress 5) 21000 20 [1, 2]
      = ({ state := 4,
           requests := [.GetTransactionCount (sampleAddress 5) "pending",
             .SendTransaction
               { From := sampleAddress 5, To := sampleAddress 9, Gas := some 21000,
                 GasPrice := some 20, Value := some 0, Data := "0x0102", Nonce := some 3 }] },
          "0xremote", none)
    ∧ sampleMethod.doSendTransaction sampleNode (sampleAddress 6) 21000 20 [1, 2]
      = ({ state := 3, requests := [.GetTransactionCount (sampleAddress 6) "pending"] },
          "", some (.ext 8)) :=
  ⟨(doSendTransaction_cases sampleMethod sampleNode (sampleAddress 7) 21000 20 [1, 2]).2.1 3
      rfl (by decide),
    rfl, rfl⟩

/-! ## The admission entry point and the broadcast (C19, C20) -/

/-- Whatever `HandleOrder` returns, `SubmitOrder` returns no error and writes
`SUBMIT_SUCCESS`. -/
theorem SubmitOrder_eq {σ : Type} (crypto : Crypto) (emitter : EventEmitter σ)
    (gateway : Gateway σ) (w : World σ) (order : Order) :
    SubmitOrder crypto emitter gateway w order =
      (none, "SUBMIT_SUCCESS", (HandleOrder crypto emitter gateway w order).2.1,
        (HandleOrder crypto emitter gateway w order).2.2) := rfl

/-- C19, the code at the failing inputs: the sample order with the token sold
equal to the token bought is rejected by `HandleOrder` with the error of the
base filter, and the sample order submitted a second time is rejected as
existing; in both cases `SubmitOrder` returns no error and reports
`SUBMIT_SUCCESS`. -/
theorem SubmitOrder_drops_rejection :
    (HandleOrder sampleCrypto sampleEmitter sampleGateway sampleWorld (sampleOrder 5 5 1 1 5)).1
      = some (.baseTokenEqual ((sampleOrder 5 5 1 1 5).GenerateHash sampleCrypto))
    ∧ (SubmitOrder sampleCrypto sampleEmitter sampleGateway sampleWorld
        (sampleOrder 5 5 1 1 5)).1 = none
    ∧ (SubmitOrder sampleCrypto sampleEmitter sampleGateway sampleWorld
        (sampleOrder 5 5 1 1 5)).2.1 = "SUBMIT_SUCCESS"
    ∧ (HandleOrder sampleCrypto sampleEmitter sampleGateway sampleWorldAfter
        (sampleOrder 5 5 1 2 5)).1
      = some (.orderExist ((sampleOrder 5 5 1 2 5).GenerateHash sampleCrypto))
    ∧ (SubmitOrder sampleCrypto sampleEmitter sampleGateway sampleWorldAfter
        (sampleOrder 5 5 1 2 5)).1 = none
    ∧ (SubmitOrder sampleCrypto sampleEmitter sampleGateway sampleWorldAfter
        (sampleOrder 5 5 1 2 5)).2.1 = "SUBMIT_SUCCESS" :=
  ⟨by decide, rfl, rfl, by decide, rfl, rfl⟩

/-- Adding one to a Go `int` below the largest one does not wrap around. -/
theorem intAdd_one (x : Int) (hlo : -2 ^ 63 ≤ x) (hhi : x < 2 ^ 63 - 1) : intAdd x 1 = x + 1 := by
  unfold intAdd
  have h1 : (0 : Int) ≤ x + 1 + 2 ^ 63 := by omega
  have h2 : x + 1 + 2 ^ 63 < 2 ^ 64 := by omega
  rw [Int.emod_eq_of_lt h1 h2]
  omega

/-- C20: for a state and a limit in the range of a Go `int`, `Gateway.broadcast`
starts its publishing goroutine exactly when broadcasting is enabled and the
`BroadcastTime` of the state is below `maxBroadcastTime`, one goroutine at most,
and otherwise leaves the world as it was; the call itself publishes nothing and
does not touch the store. The goroutine (`broadcastTask`) makes exactly one
publish attempt, of the raw order of the state, and starts no goroutine; when
the publish succeeds the store is updated for the hash of the order with
`BroadcastTime + 1`, and when it fails the store is left as it was. -/
theorem broadcast_attempts {σ : Type} (gateway : Gateway σ) (w : World σ) (state : OrderState)
    (hlo : -2 ^ 63 ≤ state.BroadcastTime) (hhi : gateway.maxBroadcastTime < 2 ^ 63) :
    (gateway.mayBroadcast state →
      gateway.broadcast w state = { w with spawned := w.spawned ++ [state] })
    ∧ (¬ gateway.mayBroadcast state → gateway.broadcast w state = w)
    ∧ ((gateway.broadcast w state).spawned.length = w.spawned.length + 1
        ↔ gateway.mayBroadcast state)
    ∧ (gateway.broadcast w state).spawned.length ≤ w.spawned.length + 1
    ∧ (gateway.broadcast w state).published = w.published
    ∧ (gateway.broadcast w state).store = w.store
    ∧ (∀ w2 : World σ,
        (gateway.broadcastTask w2 state).published = w2.published ++ [state.RawOrder]
        ∧ (gateway.broadcastTask w2 state).spawned = w2.spawned)
    ∧ (∀ w2 : World σ, gateway.mayBroadcast state →
        gateway.ipfsPubService.PublishOrder state.RawOrder = none →
        (gateway.broadcastTask w2 state).store =
          gateway.om.UpdateBroadcastTimeByHash w2.store state.RawOrder.Hash
            (state.BroadcastTime + 1))
    ∧ (∀ (w2 : World σ) (err : GoError),
        gateway.ipfsPubService.PublishOrder state.RawOrder = some err →
        (gateway.broadcastTask w2 state).store = w2.store) := by
  have hcond : (gateway.isBroadcast && decide (state.BroadcastTime < gateway.maxBroadcastTime))
      = true ↔ gateway.mayBroadcast state := by
    unfold Gateway.mayBroadcast
    simp
  refine ⟨?_, ?_, ?_, ?_, ?_, ?_, ?_, ?_, ?_⟩
  · intro hm
    unfold Gateway.broadcast
    rw [if_pos (hcond.mpr hm)]
  · intro hm
    unfold Gateway.broadcast
    rw [if_neg (fun h => hm (hcond.mp h))]
  · unfold Gateway.broadcast
    by_cases hm : gateway.mayBroadcast state
    · rw [if_pos (hcond.mpr hm)]
      simp [hm]
    · rw [if_neg (fun h => hm (hcond.mp h))]
      simp [hm]
  · unfold Gateway.broadcast
    split_ifs <;> simp
  · unfold Gateway.broadcast
    split_ifs <;> rfl
  · unfold Gateway.broadcast
    split_ifs <;> rfl
  · intro w2
    unfold Gateway.broadcastTask
    cases gateway.ipfsPubService.PublishOrder state.RawOrder <;> exact ⟨rfl, rfl⟩
  · intro w2 hm hpub
    unfold Gateway.broadcastTask
    rw [hpub]
    have hlt : state.BroadcastTime < 2 ^ 63 - 1 := by
      have := hm.2
      omega
    simp only [intAdd_one state.BroadcastTime hlo hlt]
  · intro w2 err hpub
    unfold Gateway.broadcastTask
    rw [hpub]

/-- Witness of C20 on the sample gateway, whose limit is 3: a state with
`BroadcastTime` 0 starts one goroutine, a state with `BroadcastTime` 3 leaves
the world as it was; after the goroutine of an accepted sample order has run,
one publish attempt was made and the stored counter is 1. -/
theorem broadcast_attempts_witness :
    (-2 ^ 63 ≤ (0 : Int)) ∧ sampleGateway.maxBroadcastTime < 2 ^ 63
    ∧ (sampleGateway.broadcast sampleWorld
        { RawOrder := preparedOrder sampleCrypto (sampleOrder 5 5 1 2 5),
          BroadcastTime := 0 }).spawned
      = [{ RawOrder := preparedOrder sampleCrypto (sampleOrder 5 5 1 2 5), BroadcastTime := 0 }]
    ∧ (sampleGateway.broadcast sampleWorld
        { RawOrder := preparedOrder sampleCrypto (sampleOrder 5 5 1 2 5), BroadcastTime := 3 })
      = sampleWorld
    ∧ sampleWorldAfter.store.map (fun st => st.BroadcastTime) = [1]
    ∧ sampleWorldAfter.published.length = 1 :=
  have h0 := broadcast_attempts sampleGateway sampleWorld
    { RawOrder := preparedOrder sampleCrypto (sampleOrder 5 5 1 2 5), BroadcastTime := 0 }
    (by decide) (by decide)
  have h3 := broadcast_attempts sampleGateway sampleWorld
    { RawOrder := preparedOrder sampleCrypto (sampleOrder 5 5 1 2 5), BroadcastTime := 3 }
    (by decide) (by decide)
  ⟨by decide, by decide, congrArg World.spawned (h0.1 ⟨rfl, by decide⟩),
    h3.2.1 (fun hm => absurd hm.2 (by decide)), by decide, by decide⟩

/-! ## The subscription to contract events (C21) -/

/-- The values of logs that all decode are as many as the logs. -/
theorem decodeAll_length {σ ε : Type} (hexutil : Hexutil) (e : AbiEvent σ ε) (logs : List Log)
    (event : ε) (values : List ε)
    (h : AbiEvent.decodeAll hexutil e event logs = some values) :
    values.length = logs.length := by
  induction logs generalizing event values with
  | nil =>
    simp only [AbiEvent.decodeAll, Option.some.injEq] at h
    subst h; rfl
  | cons log1 rest ih =>
    unfold AbiEvent.decodeAll at h
    cases hd : hexutil.MustDecode log1.Data with
    | none => rw [hd] at h; simp at h
    | some data =>
      rw [hd] at h
      simp only at h
      cases hu : e.Unpack event data log1.Topics with
      | mk ev err =>
        rw [hu] at h
        cases err with
        | some x => simp at h
        | none =>
          simp only [Option.map_eq_some'] at h
          obtain ⟨vs, hvs, rfl⟩ := h
          simp [ih ev vs hvs]

/-- The loop over a batch that starts with logs that all decode sends their values
and goes on with the rest of the batch. -/
theorem forward_append {σ ε : Type} (hexutil : Hexutil) (e : AbiEvent σ ε)
    (pre rest : List Log) (event : ε) (sent values : List ε)
    (h : AbiEvent.decodeAll hexutil e event pre = some values) :
    AbiEvent.Subscribe.forward hexutil e (pre ++ rest) event sent
      = AbiEvent.Subscribe.forward hexutil e rest (values.getLastD event) (sent ++ values) := by
  induction pre generalizing event sent values with
  | nil =>
    simp only [AbiEvent.decodeAll, Option.some.injEq] at h
    subst h; simp
  | cons log1 pre ih =>
    unfold AbiEvent.decodeAll at h
    cases hd : hexutil.MustDecode log1.Data with
    | none => rw [hd] at h; simp at h
    | some data =>
      rw [hd] at h
      simp only at h
      cases hu : e.Unpack event data log1.Topics with
      | mk ev err =>
        rw [hu] at h
        cases err with
        | some x => simp at h
        | none =>
          simp only [Option.map_eq_some'] at h
          obtain ⟨vs, hvs, rfl⟩ := h
          rw [List.cons_append, AbiEvent.Subscribe.forward]
          simp only [hd, hu]
          rw [ih ev (sent ++ [ev]) vs hvs]
          cases vs with
          | nil => simp
          | cons v vs => simp [List.getLastD]

/-- A log whose `Unpack` fails ends the loop over the batch. -/
theorem forward_unpack_error {σ ε : Type} (hexutil : Hexutil) (e : AbiEvent σ ε)
    (bad : Log) (post : List Log) (event : ε) (sent : List ε) (data : List Byte)
    (err : EthError) (hd : hexutil.MustDecode bad.Data = some data)
    (hu : (e.Unpack event data bad.Topics).2 = some err) :
    AbiEvent.Subscribe.forward hexutil e (bad :: post) event sent = (sent, false) := by
  rw [AbiEvent.Subscribe.forward]
  simp only [hd]
  cases hx : e.Unpack event data bad.Topics with
  | mk ev er =>
    rw [hx] at hu
    simp only at hu
    subst hu
    rfl

/-- A tick whose fetch succeeds runs the loop over the batch from the new event
value. -/
theorem tick_ok {σ ε : Type} (hexutil : Hexutil) (e : AbiEvent σ ε) (zero : ε)
    (filterId : String) (p : Subscription σ ε) (s : σ) (logs : List Log)
    (hfetch : e.Client.GetFilterChanges p.state filterId = (s, .ok logs)) :
    AbiEvent.Subscribe.tick hexutil e zero filterId p
      = ({ state := s, requests := p.requests ++ [.GetFilterChanges filterId],
           sent := (AbiEvent.Subscribe.forward hexutil e logs zero p.sent).1 },
          (AbiEvent.Subscribe.forward hexutil e logs zero p.sent).2) := by
  unfold AbiEvent.Subscribe.tick
  simp only [hfetch]

/-- C21, as amended: in a poll tick of `Subscribe` whose fetch of filter changes
succeeds, the logs are decoded in batch order, each from the event value left by
the one before. When all logs of the batch decode (hex data, `Unpack` without
error), the value of every log is sent on the channel, in batch order. When a
log fails in `Unpack`, the values of the logs before it are sent, in batch
order, the error is logged and the loop over the batch is left: nothing is sent
for the logs after it. In both cases, and when the fetch fails (nothing is
sent), the tick makes the one request `GetFilterChanges`, so the filter is not
uninstalled, and the polling loop goes on to the next tick. -/
theorem Subscribe_tick_forwards {σ ε : Type} (hexutil : Hexutil) (e : AbiEvent σ ε) (zero : ε)
    (filterId : String) (p : Subscription σ ε) :
    (∀ (s : σ) (logs : List Log) (values : List ε),
      e.Client.GetFilterChanges p.state filterId = (s, .ok logs) →
      AbiEvent.decodeAll hexutil e zero logs = some values →
      AbiEvent.Subscribe.tick hexutil e zero filterId p
        = ({ state := s, requests := p.requests ++ [.GetFilterChanges filterId],
             sent := p.sent ++ values }, false)
      ∧ values.length = logs.length)
    ∧ (∀ (s : σ) (pre post : List Log) (bad : Log) (values : List ε) (data : List Byte)
        (err : EthError),
      e.Client.GetFilterChanges p.state filterId = (s, .ok (pre ++ bad :: post)) →
      AbiEvent.decodeAll hexutil e zero pre = some values →
      hexutil.MustDecode bad.Data = some data →
      (e.Unpack (values.getLastD zero) data bad.Topics).2 = some err →
      AbiEvent.Subscribe.tick hexutil e zero filterId p
        = ({ state := s, requests := p.requests ++ [.GetFilterChanges filterId],
             sent := p.sent ++ values }, false)
      ∧ values.length = pre.length)
    ∧ (∀ (s : σ) (err : EthError),
      e.Client.GetFilterChanges p.state filterId = (s, .error err) →
      AbiEvent.Subscribe.tick hexutil e zero filterId p
        = ({ state := s, requests := p.requests ++ [.GetFilterChanges filterId],
             sent := p.sent }, false))
    ∧ (∀ ticks : Nat, (AbiEvent.Subscribe.tick hexutil e zero filterId p).2 = false →
      AbiEvent.Subscribe.loop hexutil e zero filterId (ticks + 1) p
        = AbiEvent.Subscribe.loop hexutil e zero filterId ticks
            (AbiEvent.Subscribe.tick hexutil e zero filterId p).1) := by
  refine ⟨?_, ?_, ?_, ?_⟩
  · intro s logs values hfetch hall
    have hf := forward_append hexutil e logs [] zero p.sent values hall
    rw [List.append_nil] at hf
    rw [tick_ok hexutil e zero filterId p s logs hfetch, hf]
    exact ⟨rfl, decodeAll_length hexutil e logs zero values hall⟩
  · intro s pre post bad values data err hfetch hall hd hu
    have hf := forward_append hexutil e pre (bad :: post) zero p.sent values hall
    rw [forward_unpack_error hexutil e bad post _ _ data err hd hu] at hf
    rw [tick_ok hexutil e zero filterId p s _ hfetch, hf]
    exact ⟨rfl, decodeAll_length hexutil e pre zero values hall⟩
  · intro s err hfetch
    unfold AbiEvent.Subscribe.tick
    simp only [hfetch]
  · intro ticks hcont
    rw [AbiEvent.Subscribe.loop]
    cases ht : AbiEvent.Subscribe.tick hexutil e zero filterId p with
    | mk p2 flag =>
      rw [ht] at hcont
      simp only at hcont
      subst hcont
      rfl

/-- Witness of C21 as amended, on the sample node: the third poll returns two
logs, both sent; the second returns three logs of which the middle one fails, and
only the first is sent; the first poll fails and nothing is sent; after three
ticks the subscription is still polling and has made no uninstall request. -/
theorem Subscribe_tick_forwards_witness :
    (AbiEvent.Subscribe.tick sampleHexutil sampleEvent [] "0xf1" (sampleSubscription 2)).1.sent
      = [goBytes "1", goBytes "3"]
    ∧ (AbiEvent.Subscribe.tick sampleHexutil sampleEvent [] "0xf1" (sampleSubscription 1)).1.sent
      = [goBytes "1"]
    ∧ (AbiEvent.Subscribe.tick sampleHexutil sampleEvent [] "0xf1" (sampleSubscription 0)).1.sent
      = []
    ∧ (AbiEvent.Subscribe sampleHexutil sampleEvent [] (sampleSubscription 0) "latest" "latest"
        3).2 = .polling
    ∧ (AbiEvent.Subscribe sampleHexutil sampleEvent [] (sampleSubscription 0) "latest" "latest"
        3).1.requests
      = [.NewFilter { Address := [sampleAddress 9], FromBlock := "latest", ToBlock := "latest" },
          .GetFilterChanges "0xf1", .GetFilterChanges "0xf1", .GetFilterChanges "0xf1"] :=
  have h := Subscribe_tick_forwards sampleHexutil sampleEvent [] "0xf1" (sampleSubscription 2)
  ⟨congrArg (fun x => x.1.sent) (h.1 3 _ [goBytes "1", goBytes "3"] rfl rfl).1,
    by decide, by decide, by decide, rfl⟩

/-- Counterexample to C21 as stated: the second poll of the sample node returns
the logs 1, 2 and 3, of which 2 fails to decode; log 3 decodes on its own, yet
the tick sends only the value of log 1 and not that of log 3. -/
theorem Subscribe_tick_forwards_counterexample :
    sampleFilterClient.GetFilterChanges 1 "0xf1"
      = (2, .ok [{ Data := "0x1", Topics := ["t"] }, { Data := "0x2", Topics := [] },
          { Data := "0x3", Topics := ["t"] }])
    ∧ AbiEvent.decodeAll sampleHexutil sampleEvent [] [{ Data := "0x3", Topics := ["t"] }]
      = some [goBytes "3"]
    ∧ (AbiEvent.Subscribe.tick sampleHexutil sampleEvent [] "0xf1" (sampleSubscription 1)).1.sent
      = [goBytes "1"]
    ∧ goBytes "3" ∉
        (AbiEvent.Subscribe.tick sampleHexutil sampleEvent [] "0xf1"
          (sampleSubscription 1)).1.sent :=
  ⟨rfl, by decide, by decide, by decide⟩

/-! ## The ring hash: where it is defined and what cancels (C22, C23) -/

/-- One XOR step keeps the lengths 1, 32 and 32 of the three strings. -/
theorem xor3_sigBytes_lengths (acc : List Byte × List Byte × List Byte) (o : FilledOrder)
    (h : acc.1.length = 1 ∧ acc.2.1.length = 32 ∧ acc.2.2.length = 32) :
    (xor3 acc (sigBytes o)).1.length = 1 ∧ (xor3 acc (sigBytes o)).2.1.length = 32
      ∧ (xor3 acc (sigBytes o)).2.2.length = 32 := by
  have hR := o.OrderState.RawOrder.R.size_eq
  have hS := o.OrderState.RawOrder.S.size_eq
  simp only [xor3, sigBytes, Xor, List.length_zipWith, FixedBytes.Bytes, h.1, h.2.1, h.2.2, hR,
    hS, List.length_singleton, min_self, and_self]

/-- The XOR fold keeps the lengths 1, 32 and 32 of the three strings. -/
theorem foldl_xor3_lengths (l : List FilledOrder) (acc : List Byte × List Byte × List Byte)
    (h : acc.1.length = 1 ∧ acc.2.1.length = 32 ∧ acc.2.2.length = 32) :
    (l.foldl (fun acc o => xor3 acc (sigBytes o)) acc).1.length = 1
      ∧ (l.foldl (fun acc o => xor3 acc (sigBytes o)) acc).2.1.length = 32
      ∧ (l.foldl (fun acc o => xor3 acc (sigBytes o)) acc).2.2.length = 32 := by
  induction l generalizing acc with
  | nil => exact h
  | cons o l ih => exact ih _ (xor3_sigBytes_lengths acc o h)

/-- The folded strings have the lengths 1, 32 and 32. -/
theorem xorFold_lengths (l : List FilledOrder) :
    (xorFold l).1.length = 1 ∧ (xorFold l).2.1.length = 32 ∧ (xorFold l).2.2.length = 32 :=
  foldl_xor3_lengths l _ ⟨rfl, by simp, by simp⟩

/-- XOR with the same string twice gives the string back. -/
theorem Xor_cancel (a b : List Byte) (h : a.length = b.length) : Xor (Xor a b) b = a := by
  rw [Xor_assoc, Xor_self, Xor_comm, ← h, Xor_zero_left]

/-- The signature components of an order folded in twice cancel. -/
theorem xor3_cancel (acc : List Byte × List Byte × List Byte) (o : FilledOrder)
    (h : acc.1.length = 1 ∧ acc.2.1.length = 32 ∧ acc.2.2.length = 32) :
    xor3 (xor3 acc (sigBytes o)) (sigBytes o) = acc := by
  have hR := o.OrderState.RawOrder.R.size_eq
  have hS := o.OrderState.RawOrder.S.size_eq
  have h1 : Xor (Xor acc.1 (sigBytes o).1) (sigBytes o).1 = acc.1 :=
    Xor_cancel _ _ (by rw [h.1]; rfl)
  have h2 : Xor (Xor acc.2.1 (sigBytes o).2.1) (sigBytes o).2.1 = acc.2.1 :=
    Xor_cancel _ _ (by rw [h.2.1]; exact hR.symm)
  have h3 : Xor (Xor acc.2.2 (sigBytes o).2.2) (sigBytes o).2.2 = acc.2.2 :=
    Xor_cancel _ _ (by rw [h.2.2]; exact hS.symm)
  simp only [xor3, h1, h2, h3]

/-- An order appended twice does not change the fold. -/
theorem xorFold_append_twice (l : List FilledOrder) (o : FilledOrder) :
    xorFold (l ++ [o, o]) = xorFold l := by
  unfold xorFold
  rw [List.foldl_append]
  simp only [List.foldl_cons, List.foldl_nil]
  exact xor3_cancel _ o (foldl_xor3_lengths l _ ⟨rfl, by simp, by simp⟩)

/-- The fold from the zero strings is the fold of the rest from the components
of the first order. -/
theorem xorFold_cons (first : FilledOrder) (rest : List FilledOrder) :
    xorFold (first :: rest) = rest.foldl (fun acc o => xor3 acc (sigBytes o)) (sigBytes first) := by
  simp only [xorFold, List.foldl_cons, xor3_zero_sigBytes]

/-- C22: `Ring.GenerateHash` returns a hash exactly for the rings with at least
one order, and panics (no hash) exactly for the rings without orders, which it
does not validate. For a ring with orders the hash is the digest of the XOR of
the v bytes, of the r values and of the s values of all orders, folded over the
orders after the first from the components of the first; for a ring of one order
it is the digest of the v, r and s of that order. -/
theorem GenerateHash_defined (crypto : Crypto) (ring : Ring) :
    ((ring.GenerateHash crypto).isSome = true ↔ ring.Orders ≠ [])
    ∧ (ring.GenerateHash crypto = none ↔ ring.Orders = [])
    ∧ (ring.Orders ≠ [] →
        ring.GenerateHash crypto =
          some (common.BytesToHash (crypto.GenerateHash (xorFold ring.Orders).1
            (xorFold ring.Orders).2.1 (xorFold ring.Orders).2.2)))
    ∧ (∀ first rest, ring.Orders = first :: rest →
        xorFold ring.Orders
          = rest.foldl
              (fun acc o =>
                (Xor acc.1 [o.OrderState.RawOrder.V],
                 Xor acc.2.1 o.OrderState.RawOrder.R.Bytes,
                 Xor acc.2.2 o.OrderState.RawOrder.S.Bytes))
              ([first.OrderState.RawOrder.V], first.OrderState.RawOrder.R.Bytes,
                first.OrderState.RawOrder.S.Bytes))
    ∧ (∀ o, ring.Orders = [o] →
        ring.GenerateHash crypto =
          some (common.BytesToHash (crypto.GenerateHash [o.OrderState.RawOrder.V]
            o.OrderState.RawOrder.R.Bytes o.OrderState.RawOrder.S.Bytes))) := by
  have hsome : ring.Orders ≠ [] →
      ring.GenerateHash crypto =
        some (common.BytesToHash (crypto.GenerateHash (xorFold ring.Orders).1
          (xorFold ring.Orders).2.1 (xorFold ring.Orders).2.2)) := by
    intro hne
    obtain ⟨a, r, hr⟩ := List.exists_cons_of_ne_nil hne
    exact GenerateHash_cons crypto ring a r hr
  refine ⟨?_, ?_, hsome, ?_, ?_⟩
  · constructor
    · intro h hnil
      rw [GenerateHash_nil crypto ring hnil] at h
      simp at h
    · intro hne
      rw [hsome hne]; rfl
  · constructor
    · intro h
      by_contra hne
      rw [hsome hne] at h
      simp at h
    · exact GenerateHash_nil crypto ring
  · intro first rest h
    rw [h, xorFold_cons]
    rfl
  · intro o h
    rw [hsome (by rw [h]; simp), h, xorFold_cons]
    rfl

/-- Witness of C22: the sample ring of two orders has a hash, the sample ring
without orders has none, and the hash of a ring of one sample order is the
digest of its own v, r and s. -/
theorem GenerateHash_defined_witness :
    (sampleRing2.GenerateHash sampleCrypto).isSome = true
    ∧ (sampleRing []).GenerateHash sampleCrypto = none
    ∧ (sampleRing [sampleFilled 27 1 2 0]).GenerateHash sampleCrypto
        = some (common.BytesToHash (sampleCrypto.GenerateHash [27] (sampleWord 1).Bytes
            (sampleWord 2).Bytes)) :=
  ⟨(GenerateHash_defined sampleCrypto sampleRing2).1.mpr (by decide),
    by decide, by decide⟩

/-- C23: for every non-empty list `l` of filled orders and every filled order
`o`, the ring over `l` followed by `o` twice has the same `GenerateHash` as the
ring over `l`, and that hash is defined, although the two lists are not
permutations of each other: rings over different multisets of orders share one
ring hash. -/
theorem GenerateHash_twice_cancels (crypto : Crypto) (ring : Ring) (l : List FilledOrder)
    (o : FilledOrder) (hne : l ≠ []) :
    Ring.GenerateHash crypto { ring with Orders := l ++ [o, o] }
      = Ring.GenerateHash crypto { ring with Orders := l }
    ∧ (Ring.GenerateHash crypto { ring with Orders := l }).isSome = true
    ∧ ¬ List.Perm (l ++ [o, o]) l := by
  obtain ⟨a, r, rfl⟩ := List.exists_cons_of_ne_nil hne
  rw [GenerateHash_cons crypto { ring with Orders := a :: r ++ [o, o] } a (r ++ [o, o]) rfl,
    GenerateHash_cons crypto { ring with Orders := a :: r } a r rfl]
  refine ⟨?_, rfl, ?_⟩
  · simp only [xorFold_append_twice]
  · intro hp
    have hlen := hp.length_eq
    simp at hlen

/-- Witness of C23: the ring of one sample order and the ring of that order
followed by another sample order twice. -/
theorem GenerateHash_twice_cancels_witness :
    [sampleFilled 27 1 2 0] ≠ []
    ∧ (Ring.GenerateHash sampleCrypto
          { sampleRing [] with
            Orders := [sampleFilled 27 1 2 0] ++ [sampleFilled 28 3 4 0, sampleFilled 28 3 4 0] }
        = Ring.GenerateHash sampleCrypto { sampleRing [] with Orders := [sampleFilled 27 1 2 0] }
      ∧ (Ring.GenerateHash sampleCrypto
          { sampleRing [] with Orders := [sampleFilled 27 1 2 0] }).isSome = true
      ∧ ¬ List.Perm ([sampleFilled 27 1 2 0] ++ [sampleFilled 28 3 4 0, sampleFilled 28 3 4 0])
          [sampleFilled 27 1 2 0]) :=
  ⟨List.cons_ne_nil _ _,
    GenerateHash_twice_cancels sampleCrypto (sampleRing []) [sampleFilled 27 1 2 0]
      (sampleFilled 28 3 4 0) (List.cons_ne_nil _ _)⟩

end Relay
